import Mathlib

/-!
Hitag S (armsrc/hitagS.c): shallow embedding and verified properties.

Bytes (`uint8_t`, `unsigned char`) are natural numbers, reduced `% 256` at every
store whose right-hand side can leave the byte range.  Buffers (`uint8_t *`) are
functions from byte index to byte.  Code that can run out of fuel or index an
array out of bounds returns `Option`.
-/

namespace HitagS

/-! ## Definitions -/

/-- Byte buffer behind a `uint8_t *`: byte index to byte value. -/
abbrev Buf := Nat → Nat

/-- Store `b[i] = v`. -/
def Buf.set (b : Buf) (i v : Nat) : Buf := fun j => if j = i then v else b j

/-- Buffer holding the listed bytes, zero elsewhere. -/
def Buf.ofList (l : List Nat) : Buf := fun j => l.getD j 0

/-- `#define CRC_PRESET 0xFF` -/
def CRC_PRESET : Nat := 0xFF

/-- `#define CRC_POLYNOM 0x1D` -/
def CRC_POLYNOM : Nat := 0x1D

/-- Body of the do-while loop of `calc_crc` (lines 124-129); `*crc` is an
`unsigned char`, so each store is reduced modulo 256. -/
def calc_crc_body (crc : Nat) : Nat :=
  if crc &&& 0x80 ≠ 0 then
    (((crc <<< 1) % 256) ^^^ CRC_POLYNOM) % 256
  else
    (crc <<< 1) % 256

/-- The loop `do { ... } while (--Bitcount);` of `calc_crc`, with `Bitcount` an
`unsigned char` (the pre-decrement wraps modulo 256).  `none` when the fuel runs out. -/
def calc_crc_loop : Nat → Nat → Nat → Option Nat
  | 0, _, _ => none
  | fuel + 1, crc, Bitcount =>
    let crc1 := calc_crc_body crc
    let Bitcount1 := (Bitcount + 255) % 256
    if Bitcount1 ≠ 0 then calc_crc_loop fuel crc1 Bitcount1 else some crc1

/-- `calc_crc(&crc, data, Bitcount)` (lines 121-131): the new value of `*crc`. -/
def calc_crc (crc data Bitcount : Nat) : Option Nat :=
  calc_crc_loop 256 ((crc ^^^ data) % 256) Bitcount

/-- The loop `for (i ...) calc_crc(&crc, bytes[i], 8);` threading the running crc
through the bytes (lines 518-520, 639-641, 670-672). -/
def calc_crc_bytes (crc : Nat) (bytes : List Nat) : Option Nat :=
  bytes.foldlM (fun c d => calc_crc c d 8) crc

/-- One CRC shift as the specification words it: if bit 7 of crc is set then
`((crc << 1) mod 256) XOR 0x1D`, else `(crc << 1) mod 256`. -/
def crc_shift_spec (crc : Nat) : Nat :=
  if crc.testBit 7 then ((crc <<< 1) % 256) ^^^ 0x1D else (crc <<< 1) % 256

/-- The specification of `calc_crc`: `crc := crc XOR data`, then `n` shifts. -/
def calc_crc_spec (crc data n : Nat) : Nat :=
  crc_shift_spec^[n] (crc ^^^ data)

/-! ### Tag state and globals -/

/-- Modelled from the spec: `PSTATE` is declared in a header outside this source
file; the source names `HT_READY`, any further enumerator is `other`. -/
inductive PSTATE where
  | HT_READY
  | other (n : Nat)
  deriving DecidableEq, Repr

/-- Modelled from the spec: `TSTATE` (write sub-state: idle, awaiting page data,
awaiting block data) is declared in a header outside this source file; the source
names these three enumerators, any further one is `other`. -/
inductive TSTATE where
  | HT_NO_OP
  | HT_WRITING_PAGE_DATA
  | HT_WRITING_BLOCK_DATA
  | other (n : Nat)
  deriving DecidableEq, Repr

/-- Modelled from the spec: `stype` (mode: standard, advanced, fast-advanced) is
declared in a header outside this source file; the source names these three
enumerators, any further one is `other`. -/
inductive stype where
  | HT_STANDARD
  | HT_ADVANCED
  | HT_FAST_ADVANCED
  | other (n : Nat)
  deriving DecidableEq, Repr

/-- `typedef enum modulation { AC2K = 0, AC4K, MC4K, MC8K } MOD;` (lines 44-49). -/
inductive MOD where
  | AC2K
  | AC4K
  | MC4K
  | MC8K
  deriving DecidableEq, Repr

/-- Modelled from the spec: `struct hitagS_tag` is declared in a header outside this
source file; the fields are those the source reads and writes.  `pages` is the
64 x 4 byte array (`memcpy((uint8_t *)tag.pages, data, 4 * 64)`, line 766), given as
page index, byte index to byte; accesses are bounds-checked at the use sites. -/
structure hitagS_tag where
  pstate : PSTATE
  tstate : TSTATE
  uid : Nat
  pages : Nat → Nat → Nat
  key : Nat
  pwdl0 : Nat
  pwdl1 : Nat
  pwdh0 : Nat
  max_page : Int
  mode : stype
  auth : Bool
  TTFC : Bool
  TTFDR : Int
  TTFM : Int
  LCON : Bool
  LKP : Bool
  LCK7 : Bool
  LCK6 : Bool
  LCK5 : Bool
  LCK4 : Bool
  LCK3 : Bool
  LCK2 : Bool
  LCK1 : Bool
  LCK0 : Bool

/-- The file-scope variables of hitagS.c (lines 40-56). -/
structure Globals where
  tag : hitagS_tag
  page_to_be_written : Nat
  block_data_left : Int
  m : MOD
  temp_uid : Nat
  temp2 : Int
  sof_bits : Int
  pwdh0 : Nat
  pwdl0 : Nat
  pwdl1 : Nat
  rnd : Nat

/-- Command constants of `protocols.h`, a header outside this source file: taken as
parameters. -/
structure Protocol where
  HITAGS_UID_REQ_STD : Nat
  HITAGS_UID_REQ_ADV : Nat
  HITAGS_UID_REQ_FADV : Nat
  HITAGS_SELECT : Nat
  HITAGS_READ_PAGE : Nat
  HITAGS_READ_BLOCK : Nat
  HITAGS_WRITE_PAGE : Nat
  HITAGS_WRITE_BLOCK : Nat

/-- The Hitag2 stream cipher of `hitag2/hitag2_crypto.h` and the bit-reversal macros
`REV64`, `REV32`, all outside this source file: taken as parameters.  The cipher state
has type `σ`; `ht2_hitag2_byte(&state)` returns the keystream byte and the new state. -/
structure Cipher (σ : Type) where
  REV64 : Nat → Nat
  REV32 : Nat → Nat
  ht2_hitag2_init : Nat → Nat → Nat → σ
  ht2_hitag2_byte : σ → Nat × σ

/-- `#define HITAG_FRAME_LEN 20` -/
def HITAG_FRAME_LEN : Nat := 20

/-- Number of pages of `tag.pages`. -/
def HITAGS_MAX_PAGES : Nat := 64

/-- Modelled from the spec: `nbytes` is declared outside this source file; it is the
number of bytes of a byte-packed buffer holding the given number of bits. -/
def nbytes (nbits : Nat) : Nat := (nbits + 7) / 8

/-- Read `tag.pages[p][j]`; `none` when `p` is outside the array. -/
def hitagS_tag.page (t : hitagS_tag) (p j : Nat) : Option Nat :=
  if p < HITAGS_MAX_PAGES then some (t.pages p j) else none

/-- Store `tag.pages[p][0..3] = rx[0..3]`; `none` when `p` is outside the array. -/
def hitagS_tag.store_page (t : hitagS_tag) (p : Nat) (rx : Buf) : Option hitagS_tag :=
  if p < HITAGS_MAX_PAGES then
    some { t with pages := fun q j => if q = p ∧ j < 4 then rx j else t.pages q j }
  else none

/-- The expression `(b[3] << 24) + (b[2] << 16) + (b[1] << 8) + b[0]` (lines 533-534),
as the 32-bit value handed on. -/
def pack32 (b : Nat → Nat) : Nat :=
  ((b 3 <<< 24) + (b 2 <<< 16) + (b 1 <<< 8) + b 0) % 2 ^ 32

/-! ### Tag emulation -/

/-- `check_select(rx, uid)` (lines 389-410): the 32 bits at frame positions 5..36,
most significant first, are summed into `ans` (a `uint32_t`), stored in `temp_uid`
and compared with `tag.uid`. -/
def check_select (g : Globals) (rx : Buf) (_uid : Nat) : Globals × Int :=
  let resp : Nat → Nat := fun i => (rx (i / 8) >>> (7 - (i % 8))) &&& 0x1
  let ans := (List.range 32).foldl (fun ans i => (ans + (resp (5 + i) <<< (31 - i))) % 2 ^ 32) 0
  let g1 := { g with temp_uid := ans }
  if ans = g1.tag.uid then (g1, 1) else (g1, 0)

/-- `hitagS_set_frame_modulation()` (lines 412-433). -/
def hitagS_set_frame_modulation (g : Globals) : Globals :=
  match g.tag.mode with
  | .HT_STANDARD => { g with sof_bits := 1, m := .MC4K }
  | .HT_ADVANCED => { g with sof_bits := 6, m := .MC4K }
  | .HT_FAST_ADVANCED => { g with sof_bits := 6, m := .MC8K }
  | .other _ => g

/-- Case `rxlen == 5` of `hitagS_handle_reader_command` (lines 452-490). -/
def handle_uid_request (c : Protocol) (g : Globals) (rx tx : Buf) :
    Option (Globals × Buf × Nat) :=
  let g := { g with tag := { g.tag with pstate := .HT_READY, tstate := .HT_NO_OP } }
  let g := if rx 0 &&& 0xf0 = c.HITAGS_UID_REQ_STD then
      { g with tag := { g.tag with mode := .HT_STANDARD }, sof_bits := 1, m := .AC2K }
    else g
  let g := if rx 0 &&& 0xf0 = c.HITAGS_UID_REQ_ADV then
      { g with tag := { g.tag with mode := .HT_ADVANCED }, sof_bits := 3, m := .AC2K }
    else g
  let g := if rx 0 &&& 0xf0 = c.HITAGS_UID_REQ_FADV then
      { g with tag := { g.tag with mode := .HT_FAST_ADVANCED }, sof_bits := 3, m := .AC4K }
    else g
  let txlen := 32
  let tx := [0, 1, 2, 3].foldl
    (fun tx i => tx.set i ((g.tag.uid >>> (24 - (i * 8))) &&& 0xFF)) tx
  some (g, tx, txlen)

/-- Case `rxlen == 45` of `hitagS_handle_reader_command` (lines 491-526). -/
def handle_select (c : Protocol) (g : Globals) (rx tx : Buf) :
    Option (Globals × Buf × Nat) :=
  if rx 0 &&& 0xf8 = c.HITAGS_SELECT then
    let (g, r) := check_select g rx g.tag.uid
    if r = 1 then do
      let txlen := 32
      let g := hitagS_set_frame_modulation g
      let tx ← [0, 1, 2, 3].foldlM
        (fun tx i => do let b ← g.tag.page 1 i; pure (Buf.set tx i b)) tx
      let tx := tx.set 3 0xff
      if g.tag.mode ≠ .HT_STANDARD then
        let txlen := 40
        let crc ← calc_crc_bytes CRC_PRESET [tx 0, tx 1, tx 2, tx 3]
        let tx := tx.set 4 crc
        pure (g, tx, txlen)
      else
        pure (g, tx, txlen)
    else some (g, tx, 0)
  else some (g, tx, 0)

/-- Case `rxlen == 64` of `hitagS_handle_reader_command` (lines 527-582). -/
def handle_challenge {σ : Type} (E : Cipher σ) (g : Globals) (rx tx : Buf) :
    Option (Globals × Buf × Nat) := do
  let g := { g with temp2 := g.temp2 + 1 }
  let txlen := 32
  let state := E.ht2_hitag2_init (E.REV64 g.tag.key)
    (E.REV32 (pack32 (g.tag.pages 0))) (E.REV32 (pack32 rx))
  let g := hitagS_set_frame_modulation g
  let state := [0, 1, 2, 3].foldl (fun st _ => (E.ht2_hitag2_byte st).2) state
  let con2 ← g.tag.page 1 2
  let (k, state) := E.ht2_hitag2_byte state
  let tx := tx.set 0 ((k ^^^ con2) % 256)
  let (k, state) := E.ht2_hitag2_byte state
  let tx := tx.set 1 ((k ^^^ g.tag.pwdh0) % 256)
  let (k, state) := E.ht2_hitag2_byte state
  let tx := tx.set 2 ((k ^^^ g.tag.pwdl0) % 256)
  let (k, state) := E.ht2_hitag2_byte state
  let tx := tx.set 3 ((k ^^^ g.tag.pwdl1) % 256)
  if g.tag.mode ≠ .HT_STANDARD then
    let txlen := 40
    let crc ← calc_crc_bytes CRC_PRESET [con2, g.tag.pwdh0, g.tag.pwdl0, g.tag.pwdl1]
    let (k, _) := E.ht2_hitag2_byte state
    let tx := tx.set 4 ((crc ^^^ k) % 256)
    pure (g, tx, txlen)
  else
    pure (g, tx, txlen)

/-- Case `rxlen == 40` of `hitagS_handle_reader_command` (lines 583-617). -/
def handle_write_data (g : Globals) (rx tx : Buf) : Option (Globals × Buf × Nat) :=
  if g.tag.tstate = .HT_WRITING_PAGE_DATA then do
    let t ← { g.tag with tstate := .HT_NO_OP }.store_page g.page_to_be_written rx
    let txlen := 2
    let tx := tx.set 0 0x40
    let g := { g with tag := t, page_to_be_written := 0 }
    let g := hitagS_set_frame_modulation g
    pure (g, tx, txlen)
  else if g.tag.tstate = .HT_WRITING_BLOCK_DATA then do
    let t ← g.tag.store_page g.page_to_be_written rx
    let txlen := 2
    let tx := tx.set 0 0x40
    let g := hitagS_set_frame_modulation { g with tag := t }
    let g := { g with page_to_be_written := (g.page_to_be_written + 1) % 256,
                      block_data_left := g.block_data_left - 1 }
    if g.block_data_left = 0 then
      pure ({ g with tag := { g.tag with tstate := .HT_NO_OP }, page_to_be_written := 0 },
        tx, txlen)
    else
      pure (g, tx, txlen)
  else some (g, tx, 0)

/-- The page address `uint8_t page = ((rx[0] & 0x0f) * 16) + ((rx[1] & 0xf0) / 16)`
(lines 622, 653, 683). -/
def page_address (rx : Buf) : Nat :=
  (((rx 0 &&& 0x0f) * 16) + ((rx 1 &&& 0xf0) / 16)) % 256

/-- The page address of the write-block branch,
`uint8_t page = ((rx[0] & 0x0f) * 6) + ((rx[1] & 0xf0) / 16)` (line 699). -/
def page_address_write_block (rx : Buf) : Nat :=
  (((rx 0 &&& 0x0f) * 6) + ((rx 1 &&& 0xf0) / 16)) % 256

/-- Case `rxlen == 20` of `hitagS_handle_reader_command` (lines 618-715). -/
def handle_page_command (c : Protocol) (g : Globals) (rx tx : Buf) :
    Option (Globals × Buf × Nat) :=
  if rx 0 &&& 0xf0 = c.HITAGS_READ_PAGE then do
    let page := page_address rx
    let txlen := 32
    let tx ← [0, 1, 2, 3].foldlM
      (fun tx j => do let b ← g.tag.page page j; pure (Buf.set tx j b)) tx
    let tx := if g.tag.LKP ∧ page = 1 then tx.set 3 0xFF else tx
    let g := hitagS_set_frame_modulation g
    let (tx, txlen) ← (if g.tag.mode ≠ .HT_STANDARD then do
        let crc ← calc_crc_bytes CRC_PRESET [tx 0, tx 1, tx 2, tx 3]
        pure (tx.set 4 crc, 40)
      else pure (tx, txlen) : Option (Buf × Nat))
    if g.tag.LKP ∧ (page = 2 ∨ page = 3) then
      pure ({ g with sof_bits := 0 }, tx, 0)
    else
      pure (g, tx, txlen)
  else if rx 0 &&& 0xf0 = c.HITAGS_READ_BLOCK then do
    let page := page_address rx
    let txlen := 32 * 4
    let tx ← [0, 1, 2, 3].foldlM
      (fun tx i => do
        let b0 ← g.tag.page (page + 0 + i * 4) 0
        let tx := Buf.set tx (0 + i * 4) b0
        let b1 ← g.tag.page (page + 1 + i * 4) 1
        let tx := Buf.set tx (1 + i * 4) b1
        let b2 ← g.tag.page (page + 2 + i * 4) 2
        let tx := Buf.set tx (2 + i * 4) b2
        let b3 ← g.tag.page (page + 3 + i * 4) 3
        pure (Buf.set tx (3 + i * 4) b3)) tx
    let g := hitagS_set_frame_modulation g
    let (tx, txlen) ← (if g.tag.mode ≠ .HT_STANDARD then do
        let crc ← calc_crc_bytes CRC_PRESET ((List.range 16).map tx)
        pure (tx.set 16 crc, 32 * 4 + 8)
      else pure (tx, txlen) : Option (Buf × Nat))
    if page % 4 ≠ 0 ∨ (g.tag.LKP ∧ page = 0) then
      pure ({ g with sof_bits := 0 }, tx, 0)
    else
      pure (g, tx, txlen)
  else if rx 0 &&& 0xf0 = c.HITAGS_WRITE_PAGE then
    let page := page_address rx
    if (g.tag.LCON ∧ page = 1) ∨ (g.tag.LKP ∧ (page = 2 ∨ page = 3)) then
      some (g, tx, 0)
    else
      let tx := tx.set 0 0x40
      some ({ g with page_to_be_written := page,
                     tag := { g.tag with tstate := .HT_WRITING_PAGE_DATA } }, tx, 2)
  else if rx 0 &&& 0xf0 = c.HITAGS_WRITE_BLOCK then
    let page := page_address_write_block rx
    let g := hitagS_set_frame_modulation g
    if page % 4 ≠ 0 ∨ page = 0 then
      some (g, tx, 0)
    else
      let tx := tx.set 0 0x40
      some ({ g with page_to_be_written := page, block_data_left := 4,
                     tag := { g.tag with tstate := .HT_WRITING_BLOCK_DATA } }, tx, 2)
  else some (g, tx, 0)

/-- `hitagS_handle_reader_command(rx, rxlen, tx, &txlen)` (lines 438-723): the
globals, the transmit buffer and `*txlen` after the call.  `none` when the copy into
the 20-byte local `rx_air` (line 445) or a page access leaves its array. -/
def hitagS_handle_reader_command {σ : Type} (c : Protocol) (E : Cipher σ) (g : Globals)
    (rx : Buf) (rxlen : Nat) (tx : Buf) : Option (Globals × Buf × Nat) :=
  if nbytes rxlen > HITAG_FRAME_LEN then none
  else if rxlen = 5 then handle_uid_request c g rx tx
  else if rxlen = 45 then handle_select c g rx tx
  else if rxlen = 64 then handle_challenge E g rx tx
  else if rxlen = 40 then handle_write_data g rx tx
  else if rxlen = 20 then handle_page_command c g rx tx
  else some (g, tx, 0)

/-! ### Bit-frame buffer -/

/-- `concatbits(dst, dstskip, src, srcstart, srclen)` (lines 1192-1205): the destination
buffer after the call and the returned offset.  Offsets are `size_t`; they stay far
below its range for the frame buffers of this file. -/
def concatbits (dst : Buf) (dstskip : Nat) (src : Buf) (srcstart srclen : Nat) : Buf × Nat :=
  let dst := dst.set (dstskip / 8)
    (dst (dstskip / 8) &&& (0xFF - ((1 <<< (7 - (dstskip % 8) + 1)) - 1)))
  let dst := (List.range' (dstskip / 8 + 1) ((dstskip + srclen) / 8 - dstskip / 8)).foldl
    (fun d i => Buf.set d i 0) dst
  let dst := (List.range srclen).foldl
    (fun d i => Buf.set d ((dstskip + i) / 8)
      (d ((dstskip + i) / 8) |||
        (((src ((srcstart + i) / 8) >>> (7 - ((srcstart + i) % 8))) &&& 1)
          <<< (7 - ((dstskip + i) % 8))))) dst
  (dst, dstskip + srclen)

/-! ### Reader session -/

/-- The password decryption of `selectHitagS` for key credentials (lines 1385-1398):
the globals with `pwdh0`, `pwdl0`, `pwdl1` set, and the local `con2`.  `key` is the
key packed from the caller's packet, `rx` holds the authentication reply. -/
def selectHitagS_decrypt {σ : Type} (E : Cipher σ) (g : Globals) (key : Nat) (rx : Buf) :
    Globals × Nat :=
  let g := { g with pwdh0 := 0, pwdl0 := 0, pwdl1 := 0 }
  let state := E.ht2_hitag2_init (E.REV64 key) (E.REV32 g.tag.uid) (E.REV32 g.rnd)
  let state := [0, 1, 2, 3].foldl (fun st _ => (E.ht2_hitag2_byte st).2) state
  let (k, state) := E.ht2_hitag2_byte state
  let con2 := (rx 0 ^^^ k) % 256
  let (k, state) := E.ht2_hitag2_byte state
  let g := { g with pwdh0 := (rx 1 ^^^ k) % 256 }
  let (k, state) := E.ht2_hitag2_byte state
  let g := { g with pwdl0 := (rx 2 ^^^ k) % 256 }
  let (k, _) := E.ht2_hitag2_byte state
  let g := { g with pwdl1 := (rx 3 ^^^ k) % 256 }
  (g, con2)

/-! ### Observations and sample data used to state and instantiate the theorems -/

/-- Bit `p` of a byte-packed frame, most significant bit first within each byte. -/
def frame_bit (b : Buf) (p : Nat) : Nat :=
  if (b (p / 8)).testBit (7 - p % 8) then 1 else 0

/-- Value of the `n`-bit field starting at bit `start` of a frame, most significant
bit first. -/
def frame_field (b : Buf) (start : Nat) : Nat → Nat
  | 0 => 0
  | n + 1 => 2 * frame_field b start n + frame_bit b (start + n)

/-- The first `n` reply bytes and the reply length of a handler result. -/
def reply_bytes (r : Option (Globals × Buf × Nat)) (n : Nat) : Option (List Nat × Nat) :=
  r.map fun x => ((List.range n).map x.2.1, x.2.2)

/-- Keystream byte number `n` (from 0) drawn from cipher state `s`. -/
def keystream {σ : Type} (E : Cipher σ) (s : σ) (n : Nat) : Nat :=
  (E.ht2_hitag2_byte ((fun st => (E.ht2_hitag2_byte st).2)^[n] s)).1

/-- Sample command constants: UID-request nibbles 0011, 1100, 1101; pairwise distinct
opcode nibbles for the 20-bit commands. -/
def sampleProtocol : Protocol :=
  { HITAGS_UID_REQ_STD := 0x30, HITAGS_UID_REQ_ADV := 0xC0, HITAGS_UID_REQ_FADV := 0xD0,
    HITAGS_SELECT := 0x00, HITAGS_READ_PAGE := 0xC0, HITAGS_READ_BLOCK := 0xD0,
    HITAGS_WRITE_PAGE := 0x80, HITAGS_WRITE_BLOCK := 0x90 }

/-- Sample cipher: a toy byte generator standing in for the external Hitag2 cipher. -/
def sampleCipher : Cipher Nat :=
  { REV64 := id, REV32 := id, ht2_hitag2_init := fun k u n => (k + u + n) % 256,
    ht2_hitag2_byte := fun s => ((s * 7 + 3) % 256, (s * 7 + 3) % 256) }

/-- Sample tag memory: page 0 = 84 11 C2 5F, page 1 = C9 00 00 AA, page 2 = 48 54 4F 4E,
page 3 = 4D 49 4B 52 (bytes 0..3), all other pages zero. -/
def samplePages : Nat → Nat → Nat := fun p j =>
  if j < 4 then
    Buf.ofList [0x84, 0x11, 0xC2, 0x5F, 0xC9, 0x00, 0x00, 0xAA,
                0x48, 0x54, 0x4F, 0x4E, 0x4D, 0x49, 0x4B, 0x52] (4 * p + j)
  else 0

/-- Sample tag with `tag.uid = 0x5FC21184`, standard mode, no lock flags. -/
def sampleTag : hitagS_tag :=
  { pstate := .HT_READY, tstate := .HT_NO_OP, uid := 0x5FC21184, pages := samplePages,
    key := 0x524B494D4E4F, pwdl0 := 0x48, pwdl1 := 0x54, pwdh0 := 0xAA, max_page := 8,
    mode := .HT_STANDARD, auth := false, TTFC := false, TTFDR := 0, TTFM := 0,
    LCON := false, LKP := false, LCK7 := false, LCK6 := false, LCK5 := false,
    LCK4 := false, LCK3 := false, LCK2 := false, LCK1 := false, LCK0 := false }

/-- Sample emulator globals around `sampleTag`. -/
def sampleGlobals : Globals :=
  { tag := sampleTag, page_to_be_written := 0, block_data_left := 0, m := .AC2K,
    temp_uid := 0, temp2 := 0, sof_bits := 0, pwdh0 := 0, pwdl0 := 0, pwdl1 := 0,
    rnd := 0x74124485 }

/-! ### Loading a tag for emulation -/

/-- The tag memory after `memcpy((uint8_t *)tag.pages, data, 4 * 64)` preceded by the
loop that zeroes pages 0..15 (lines 757-766), or the pages kept from the last read
when no memory is supplied. -/
def SimulateHitagSTag_pages (pages : Nat → Nat → Nat) (tag_mem_supplied : Bool)
    (data : Buf) : Nat → Nat → Nat :=
  if tag_mem_supplied then
    let zeroed : Nat → Nat → Nat := fun i j => if i < 16 ∧ j < 4 then 0x0 else pages i j
    fun i j => if i < 64 ∧ j < 4 then data (4 * i + j) else zeroed i j
  else pages

/-- The tag set-up of `SimulateHitagSTag` (lines 753-861), before the receive loop:
states reset, memory loaded, and `uid`, `key`, passwords, `max_page` and the
configuration flags derived from pages 0..3. -/
def SimulateHitagSTag_load (g : Globals) (tag_mem_supplied : Bool) (data : Buf) : Globals :=
  let pages := SimulateHitagSTag_pages g.tag.pages tag_mem_supplied data
  let max_page : Int := 64
  let max_page : Int :=
    if pages 1 0 &&& 0x2 = 0 ∧ pages 1 0 &&& 0x1 = 1 then 8 else max_page
  let max_page : Int :=
    if pages 1 0 &&& 0x2 = 0 ∧ pages 1 0 &&& 0x1 = 0 then 0 else max_page
  { g with
    tag :=
      { pstate := .HT_READY
        tstate := .HT_NO_OP
        uid := ((pages 0 3 <<< 24) ||| (pages 0 2 <<< 16) ||| (pages 0 1 <<< 8) ||| pages 0 0)
          % 2 ^ 32
        pages := pages
        key := ((pages 3 3 <<< 40) ||| (pages 3 2 <<< 32) ||| (pages 3 1 <<< 24) |||
          (pages 3 0 <<< 16) ||| (pages 2 3 <<< 8) ||| pages 2 2) % 2 ^ 64
        pwdl0 := pages 2 0
        pwdl1 := pages 2 1
        pwdh0 := pages 1 3
        max_page := max_page
        mode := g.tag.mode
        auth := decide (pages 1 1 &&& 0x80 = 0x80)
        TTFC := g.tag.TTFC
        TTFDR := g.tag.TTFDR
        TTFM := g.tag.TTFM
        LCON := decide (pages 1 1 &&& 0x2 = 0x02)
        LKP := decide (pages 1 1 &&& 0x1 = 0x01)
        LCK7 := decide (pages 1 2 &&& 0x80 = 0x80)
        LCK6 := decide (pages 1 2 &&& 0x40 = 0x040)
        LCK5 := decide (pages 1 2 &&& 0x20 = 0x20)
        LCK4 := decide (pages 1 2 &&& 0x10 = 0x10)
        LCK3 := decide (pages 1 2 &&& 0x8 = 0x08)
        LCK2 := decide (pages 1 2 &&& 0x4 = 0x04)
        LCK1 := decide (pages 1 2 &&& 0x2 = 0x02)
        LCK0 := decide (pages 1 2 &&& 0x1 = 0x01) } }

/-! ### Observations and sample data for the page commands -/

/-- The predicate `tag.uid == (pages[0][3] << 24 | pages[0][2] << 16 | pages[0][1] << 8 |
pages[0][0])` of line 771, as a 32-bit value. -/
def uid_is_page0 (t : hitagS_tag) : Prop :=
  t.uid = ((t.pages 0 3 <<< 24) ||| (t.pages 0 2 <<< 16) ||| (t.pages 0 1 <<< 8) |||
    t.pages 0 0) % 2 ^ 32

instance (t : hitagS_tag) : Decidable (uid_is_page0 t) :=
  inferInstanceAs (Decidable (t.uid = _))

/-- What goes on the wire for a handler result: `txlen` and the first `txlen` bits of
`tx`, most significant bit first within each byte. -/
def wire_reply (r : Option (Globals × Buf × Nat)) : Option (Nat × List Nat) :=
  r.map fun x => (x.2.2, (List.range x.2.2).map (frame_bit x.2.1))

/-- Two tags that differ at most in the contents of pages 2 and 3. -/
def same_but_pages_2_3 (t1 t2 : hitagS_tag) : Prop :=
  t2 = { t1 with pages := t2.pages } ∧
    ∀ q j, q ≠ 2 → q ≠ 3 → t2.pages q j = t1.pages q j

/-- The receive loop of `SimulateHitagSTag` (lines 904-984) over the sequence of frames
captured from the reader: every frame with `rxlen > 0` is handed to
`hitagS_handle_reader_command` with the transmit buffer left by the previous call.
Gives the final globals and transmit buffer and, per handled frame, the buffer and
`txlen` after the call. -/
def SimulateHitagSTag_loop {σ : Type} (c : Protocol) (E : Cipher σ) :
    List (Buf × Nat) → Globals → Buf → Option (Globals × Buf × List (Buf × Nat))
  | [], g, tx => some (g, tx, [])
  | (rx, rxlen) :: frames, g, tx =>
    if rxlen > 0 then
      match hitagS_handle_reader_command c E g rx rxlen tx with
      | none => none
      | some (g1, tx1, txlen) =>
        match SimulateHitagSTag_loop c E frames g1 tx1 with
        | none => none
        | some (g2, tx2, replies) => some (g2, tx2, (tx1, txlen) :: replies)
    else SimulateHitagSTag_loop c E frames g tx

/-- Sample tag memory with all bytes distinct: byte `j` of page `p` is `4 * p + j`. -/
def rampPages : Nat → Nat → Nat := fun p j => 4 * p + j

/-- Sample emulator globals around a tag with memory `rampPages`. -/
def rampGlobals : Globals :=
  { sampleGlobals with tag := { sampleTag with pages := rampPages } }

/-- Sample emulator globals whose tag has the `LKP` flag set. -/
def lockedGlobals : Globals :=
  { sampleGlobals with tag := { sampleTag with LKP := true, auth := true } }

/-- Sample emulator globals equal to `lockedGlobals` but for the contents of pages 2
and 3, which hold `0x55` in every byte. -/
def otherKeyGlobals : Globals :=
  { lockedGlobals with
    tag := { lockedGlobals.tag with
      pages := fun q j => if q = 2 ∨ q = 3 then 0x55 else lockedGlobals.tag.pages q j } }

/-- Sample 256-byte memory image handed to `SimulateHitagSTag`: the bytes of
`samplePages`, page after page. -/
def sampleImage : Buf := fun k => samplePages (k / 4) (k % 4)

/-- Sample emulator globals right after `SimulateHitagSTag` loaded `sampleImage`. -/
def loadedGlobals : Globals := SimulateHitagSTag_load sampleGlobals true sampleImage

/-- Modelled from the spec: `lf_hitag_data_t` is declared in a header outside this source
file; the fields are those the source reads: the function code `cmd`, the page number
`page`, the four `data` bytes, the eight `NrAr` bytes and the six `key` bytes. -/
structure lf_hitag_data_t where
  cmd : Nat
  page : Nat
  data : Buf
  NrAr : Buf
  key : Buf

/-- Function codes and status codes of headers outside this source file, and the CRC
routine `CRC8Hitag1Bits` of `crc.h`: taken as parameters. -/
structure HostApi where
  RHTSF_PLAIN : Nat
  WHTSF_PLAIN : Nat
  RHTSF_CHALLENGE : Nat
  WHTSF_CHALLENGE : Nat
  RHTSF_KEY : Nat
  WHTSF_KEY : Nat
  PM3_SUCCESS : Int
  PM3_EINVARG : Int
  PM3_ESOFT : Int
  PM3_ERFTRANS : Int
  CRC8Hitag1Bits : Buf → Nat → Nat

/-- A frame handed to `sendReceiveHitagS`: the transmit buffer and its bit length. -/
abbrev Frame := Buf × Nat

/-- The radio exchange `sendReceiveHitagS(tx, txlen, rx, sizeofrx, &rxlen, ...)` drives
the hardware; what it leaves in `rx` and in `rxlen` is taken as an oracle of the frames
sent so far, the latest first. -/
abbrev Transceive := List Frame → Buf × Nat

/-- The state a reader function threads through: the file-scope variables, the frames
sent so far (latest first), and the local buffers `tx` and `rx`. -/
structure Reader where
  g : Globals
  sent : List Frame
  tx : Buf
  rx : Buf

/-- One call `sendReceiveHitagS(tx, txlen, rx, ARRAYLEN(rx), &rxlen, ...)`: the frame is
logged and `rx` is replaced by the reply, a buffer of bytes; gives the new state and
`rxlen`. -/
def sendReceiveHitagS (xcv : Transceive) (r : Reader) (txlen : Nat) : Reader × Nat :=
  let sent := (r.tx, txlen) :: r.sent
  ({ r with sent := sent, rx := fun i => (xcv sent).1 i % 256 }, (xcv sent).2)

/-- The configuration decoding of `selectHitagS` (lines 1270-1299) from the Select reply
in `rx`. -/
def selectHitagS_config (t : hitagS_tag) (rx : Buf) : hitagS_tag :=
  let conf_pages0 := rx 0
  let max_page : Int :=
    if conf_pages0 &&& 0x3 = 0x00 then 32 / 32
    else if conf_pages0 &&& 0x3 = 0x1 then 256 / 32
    else if conf_pages0 &&& 0x3 = 0x2 then 2048 / 32
    else t.max_page
  let conf_pages1 := rx 1
  let conf_pages2 := rx 2
  { t with
    max_page := max_page
    auth := decide ((conf_pages1 >>> 7) &&& 0x1 = 1)
    TTFC := decide ((conf_pages1 >>> 6) &&& 0x1 = 1)
    TTFDR := ((conf_pages1 >>> 5) &&& 0x3 : Nat)
    TTFM := ((conf_pages1 >>> 3) &&& 0x3 : Nat)
    LCON := decide ((conf_pages1 >>> 1) &&& 0x1 = 1)
    LKP := decide ((conf_pages1 >>> 0) &&& 0x1 = 1)
    LCK7 := decide ((conf_pages2 >>> 7) &&& 0x1 = 1)
    LCK6 := decide ((conf_pages2 >>> 6) &&& 0x1 = 1)
    LCK5 := decide ((conf_pages2 >>> 5) &&& 0x1 = 1)
    LCK4 := decide ((conf_pages2 >>> 4) &&& 0x1 = 1)
    LCK3 := decide ((conf_pages2 >>> 3) &&& 0x1 = 1)
    LCK2 := decide ((conf_pages2 >>> 2) &&& 0x1 = 1)
    LCK1 := decide ((conf_pages2 >>> 1) &&& 0x1 = 1)
    LCK0 := decide ((conf_pages2 >>> 0) &&& 0x1 = 1) }

/-- The UID-request frame of `selectHitagS` (lines 1238-1241): the first 5 bits of
`HITAGS_UID_REQ_ADV`. -/
def selectHitagS_uid_request (c : Protocol) (tx : Buf) : Frame :=
  let cmd := c.HITAGS_UID_REQ_ADV % 256
  concatbits tx 0 (Buf.ofList [cmd]) 0 5

/-- The Select frame of `selectHitagS` (lines 1256-1261): the first 5 bits of
`HITAGS_SELECT`, the first 32 bits of `rx`, and the CRC byte. -/
def selectHitagS_select (c : Protocol) (h : HostApi) (tx rx : Buf) : Frame :=
  let cmd := c.HITAGS_SELECT % 256
  let (tx, txlen) := concatbits tx 0 (Buf.ofList [cmd]) 0 5
  let (tx, txlen) := concatbits tx txlen rx 0 32
  let crc := h.CRC8Hitag1Bits tx txlen % 256
  concatbits tx txlen (Buf.ofList [crc]) 0 8

/-- The key packed from `packet->key[0..5]` (lines 1314-1319). -/
def selectHitagS_key (packet : lf_hitag_data_t) : Nat :=
  ((packet.key 0 % 256) <<< 0) ||| ((packet.key 1 % 256) <<< 8) |||
    ((packet.key 2 % 256) <<< 16) ||| ((packet.key 3 % 256) <<< 24) |||
    ((packet.key 4 % 256) <<< 32) ||| ((packet.key 5 % 256) <<< 40)

/-- The authentication frame of `selectHitagS` for key credentials (lines 1322-1332):
the four bytes of `rnd`, low byte first, then four inverted keystream bytes. -/
def selectHitagS_key_frame {σ : Type} (E : Cipher σ) (g : Globals) (key : Nat) (tx : Buf) :
    Frame :=
  let state := E.ht2_hitag2_init (E.REV64 key) (E.REV32 g.tag.uid) (E.REV32 g.rnd)
  let (k0, state) := E.ht2_hitag2_byte state
  let (k1, state) := E.ht2_hitag2_byte state
  let (k2, state) := E.ht2_hitag2_byte state
  let (k3, _) := E.ht2_hitag2_byte state
  let auth_ks := Buf.ofList [(k0 ^^^ 0xff) % 256, (k1 ^^^ 0xff) % 256,
    (k2 ^^^ 0xff) % 256, (k3 ^^^ 0xff) % 256]
  let revrnd := Buf.ofList [g.rnd % 256, (g.rnd >>> 8) % 256, (g.rnd >>> 16) % 256,
    (g.rnd >>> 24) % 256]
  let (tx, txlen) := concatbits tx 0 revrnd 0 32
  concatbits tx txlen auth_ks 0 32

/-- The authentication frame of `selectHitagS` for a challenge (lines 1348-1361): the
eight bytes of `packet->NrAr`. -/
def selectHitagS_challenge_frame (packet : lf_hitag_data_t) (tx : Buf) : Frame :=
  let NrAr := ((packet.NrAr 7 % 256) <<< 0) ||| ((packet.NrAr 6 % 256) <<< 8) |||
    ((packet.NrAr 5 % 256) <<< 16) ||| ((packet.NrAr 4 % 256) <<< 24) |||
    ((packet.NrAr 3 % 256) <<< 32) ||| ((packet.NrAr 2 % 256) <<< 40) |||
    ((packet.NrAr 1 % 256) <<< 48) ||| ((packet.NrAr 0 % 256) <<< 56)
  ((List.range 8).foldl (fun tx i => Buf.set tx i ((NrAr >>> (56 - (i * 8))) &&& 0xFF)) tx,
    64)

/-- The part of `selectHitagS` run when `tag.auth == 1` (lines 1305-1406): the
authentication frame is built from the credentials, exchanged, and for key credentials
the password bytes are decrypted. -/
def selectHitagS_auth {σ : Type} (h : HostApi) (E : Cipher σ) (xcv : Transceive)
    (r : Reader) (packet : lf_hitag_data_t) : Reader × Int :=
  let key : Nat := 0
  let built : Option (Nat × Frame) :=
    if packet.cmd = h.RHTSF_KEY ∨ packet.cmd = h.WHTSF_KEY then
      let key := selectHitagS_key packet
      some (key, selectHitagS_key_frame E r.g key r.tx)
    else if packet.cmd = h.RHTSF_CHALLENGE ∨ packet.cmd = h.WHTSF_CHALLENGE then
      some (key, selectHitagS_challenge_frame packet r.tx)
    else if packet.cmd = h.RHTSF_PLAIN ∨ packet.cmd = h.WHTSF_PLAIN then none
    else none
  match built with
  | none => (r, -1)
  | some (key, tx, txlen) =>
    let (r, rxlen) := sendReceiveHitagS xcv { r with tx := tx } txlen
    if rxlen ≠ 40 then (r, -1)
    else
      let g := { r.g with pwdh0 := 0, pwdl0 := 0, pwdl1 := 0 }
      let g :=
        if packet.cmd = h.RHTSF_KEY ∨ packet.cmd = h.WHTSF_KEY then
          (selectHitagS_decrypt E g key r.rx).1
        else g
      ({ r with g := g }, 0)

/-- `selectHitagS(packet, tx, sizeoftx, rx, sizeofrx, t_wait, ledcontrol)` (lines
1207-1408) with the 20-byte buffers of its callers: UID request, Select, and the
authentication exchange when the tag asks for it.  Gives the state after the call and
the value returned. -/
def selectHitagS {σ : Type} (c : Protocol) (h : HostApi) (E : Cipher σ) (xcv : Transceive)
    (r : Reader) (packet : lf_hitag_data_t) : Reader × Int :=
  let (tx, txlen) := selectHitagS_uid_request c r.tx
  let (r, rxlen) := sendReceiveHitagS xcv { r with tx := tx } txlen
  if rxlen ≠ 32 then (r, -1)
  else
    let r := { r with g := { r.g with tag := { r.g.tag with
      uid := ((r.rx 3 <<< 24) ||| (r.rx 2 <<< 16) ||| (r.rx 1 <<< 8) ||| r.rx 0) % 2 ^ 32 } } }
    let (tx, txlen) := selectHitagS_select c h r.tx r.rx
    let (r, rxlen) := sendReceiveHitagS xcv { r with tx := tx } txlen
    if rxlen ≠ 40 then (r, -1)
    else
      let r := { r with g := { r.g with tag := selectHitagS_config r.g.tag r.rx } }
      if r.g.tag.auth = true then selectHitagS_auth h E xcv r packet
      else (r, 0)

/-- The Read-page frame of `ReadHitagS` (lines 1438-1444): 4 command bits, 8 address
bits, 8 CRC bits. -/
def ReadHitagS_frame (c : Protocol) (h : HostApi) (tx : Buf) (pageNum : Nat) : Buf × Nat :=
  let cmd := c.HITAGS_READ_PAGE % 256
  let (tx, txlen) := concatbits tx 0 (Buf.ofList [cmd]) 0 4
  let addr := pageNum % 256
  let (tx, txlen) := concatbits tx txlen (Buf.ofList [addr]) 0 8
  let crc := h.CRC8Hitag1Bits tx txlen % 256
  concatbits tx txlen (Buf.ofList [crc]) 0 8

/-- The store `for (i = 0; i < 4 && i < rxlen; i++) tag.pages[pageNum][i] = rx[i]`
(lines 1454-1456); `none` when `pageNum` is outside the 64 pages. -/
def ReadHitagS_store (t : hitagS_tag) (pageNum : Nat) (rx : Buf) (rxlen : Nat) :
    Option hitagS_tag :=
  if pageNum < HITAGS_MAX_PAGES then
    some { t with pages := fun q j =>
      if q = pageNum ∧ j < 4 ∧ j < rxlen then rx j else t.pages q j }
  else none

/-- The page loop of `ReadHitagS` (lines 1431-1500).  `cancelled i` tells whether
`BUTTON_PRESS()` or `data_available()` holds when the loop condition is evaluated for
the round numbered `i`; the debug output is left out.  `none` when a page store leaves
the array or the fuel runs out. -/
def ReadHitagS_loop (c : Protocol) (h : HostApi) (xcv : Transceive) (cancelled : Nat → Bool) :
    Nat → Nat → Reader → Nat → Option Reader
  | 0, _, _, _ => none
  | fuel + 1, i, r, pageNum =>
    if cancelled i then some r
    else
      let (tx, txlen) := ReadHitagS_frame c h r.tx pageNum
      let (r, rxlen) := sendReceiveHitagS xcv { r with tx := tx } txlen
      if rxlen = 0 then some r
      else
        match ReadHitagS_store r.g.tag pageNum r.rx rxlen with
        | none => none
        | some t =>
          let r := { r with g := { r.g with tag := t } }
          let pageNum := pageNum + 1
          let pageNum :=
            if pageNum = 2 ∧ r.g.tag.auth = true ∧ r.g.tag.LKP = true then 4 else pageNum
          if (pageNum : Int) ≥ r.g.tag.max_page then some r
          else ReadHitagS_loop c h xcv cancelled fuel (i + 1) r pageNum

/-- What a reader command hands to `reply_ng`: the status and, when there is a payload,
the page array. -/
structure ReplyNg where
  status : Int
  payload : Option (Nat → Nat → Nat)

/-- `ReadHitagS(payload, ledcontrol)` (lines 1415-1506): the state after the call and
the reply to the host. -/
def ReadHitagS {σ : Type} (c : Protocol) (h : HostApi) (E : Cipher σ) (xcv : Transceive)
    (cancelled : Nat → Bool) (r : Reader) (payload : lf_hitag_data_t) :
    Option (Reader × ReplyNg) :=
  let (r, res) := selectHitagS c h E xcv r payload
  if res = -1 then some (r, { status := h.PM3_ERFTRANS, payload := none })
  else
    match ReadHitagS_loop c h xcv cancelled 65 0 r 0 with
    | none => none
    | some r => some (r, { status := h.PM3_SUCCESS, payload := some r.g.tag.pages })

/-- The Write-page frame of `WritePageHitagS` (lines 1542-1551): 4 command bits, 8
address bits, 8 CRC bits. -/
def WritePageHitagS_request (c : Protocol) (h : HostApi) (tx : Buf) (page : Nat) : Frame :=
  let cmd := c.HITAGS_WRITE_PAGE % 256
  let (tx, txlen) := concatbits tx 0 (Buf.ofList [cmd]) 0 4
  let addr := page % 256
  let (tx, txlen) := concatbits tx txlen (Buf.ofList [addr]) 0 8
  let crc := h.CRC8Hitag1Bits tx txlen % 256
  concatbits tx txlen (Buf.ofList [crc]) 0 8

/-- The data frame of `WritePageHitagS` (lines 1578-1581): the 32 payload bits and 8 CRC
bits. -/
def WritePageHitagS_data (h : HostApi) (tx : Buf) (data : Buf) : Frame :=
  let (tx, txlen) := concatbits tx 0 data 0 32
  let crc := h.CRC8Hitag1Bits tx txlen % 256
  concatbits tx txlen (Buf.ofList [crc]) 0 8

/-- `WritePageHitagS(payload, ledcontrol)` (lines 1512-1596): the state after the call
and the status handed to `reply_ng`. -/
def WritePageHitagS {σ : Type} (c : Protocol) (h : HostApi) (E : Cipher σ)
    (xcv : Transceive) (r : Reader) (payload : lf_hitag_data_t) : Reader × Int :=
  if payload.page = 0 then (r, h.PM3_EINVARG)
  else
    let (r, res) := selectHitagS c h E xcv r payload
    if res = -1 then (r, h.PM3_ERFTRANS)
    else if (payload.page : Int) > r.g.tag.max_page then (r, h.PM3_EINVARG)
    else
      let (tx, txlen) := WritePageHitagS_request c h r.tx payload.page
      let (r, rxlen) := sendReceiveHitagS xcv { r with tx := tx } txlen
      if rxlen ≠ 2 ∨ r.rx 0 >>> (8 - 2) ≠ 0x01 then (r, h.PM3_ESOFT)
      else
        let (tx, txlen) := WritePageHitagS_data h r.tx payload.data
        let (r, rxlen) := sendReceiveHitagS xcv { r with tx := tx } txlen
        if rxlen ≠ 2 ∨ r.rx 0 >>> (8 - 2) ≠ 0x01 then (r, h.PM3_ESOFT)
        else (r, h.PM3_SUCCESS)

/-- The payload `Hitag_check_challenges` builds for the record at `dataoffset` (lines
1622-1626): zeroed, `cmd = RHTSF_CHALLENGE`, `NrAr` copied from the input. -/
def Hitag_check_challenges_payload (h : HostApi) (data : Buf) (dataoffset : Nat) :
    lf_hitag_data_t :=
  { cmd := h.RHTSF_CHALLENGE, page := 0, data := fun _ => 0,
    NrAr := fun i => if i < 8 then data (dataoffset + i) else 0, key := fun _ => 0 }

/-- The sweep loop of `Hitag_check_challenges` (lines 1618-1653).  Gives the state after
the loop and the attempts made: per call of `selectHitagS` at line 1628 the offset of
the record handed to it and the value it returned (what lines 1629-1635 log).  `none`
when the fuel runs out. -/
def Hitag_check_challenges_loop {σ : Type} (c : Protocol) (h : HostApi) (E : Cipher σ)
    (xcv : Transceive) (cancelled : Nat → Bool) (data : Buf) (datalen : Nat) :
    Nat → Nat → Reader → Nat → List (Nat × Int) → Option (Reader × List (Nat × Int))
  | 0, _, _, _, _ => none
  | fuel + 1, i, r, dataoffset, log =>
    if cancelled i then some (r, log)
    else
      let payload := Hitag_check_challenges_payload h data dataoffset
      let (r, res) := selectHitagS c h E xcv r payload
      let log := log ++ [(dataoffset, res)]
      let r := if res = -1 then (selectHitagS c h E xcv r payload).1 else r
      let dataoffset := (dataoffset + 8) % 2 ^ 32
      if dataoffset ≥ (datalen + 2 ^ 32 - 8) % 2 ^ 32 then some (r, log)
      else Hitag_check_challenges_loop c h E xcv cancelled data datalen fuel (i + 1) r
        dataoffset log

/-- `Hitag_check_challenges(data, datalen, ledcontrol)` (lines 1605-1660): the state
after the call, the log of attempts and the status handed to `reply_ng`. -/
def Hitag_check_challenges {σ : Type} (c : Protocol) (h : HostApi) (E : Cipher σ)
    (xcv : Transceive) (cancelled : Nat → Bool) (r : Reader) (data : Buf) (datalen : Nat) :
    Option (Reader × List (Nat × Int) × Int) :=
  if datalen < 8 then some (r, [], h.PM3_EINVARG)
  else
    match Hitag_check_challenges_loop c h E xcv cancelled data datalen (datalen / 8 + 1) 0 r 0
        [] with
    | none => none
    | some (r, log) => some (r, log, h.PM3_SUCCESS)

/-! ### Sample data for the reader session -/

/-- Sample function and status codes, pairwise distinct, and a toy checksum standing in
for the external CRC routine. -/
def sampleHost : HostApi :=
  { RHTSF_PLAIN := 30, WHTSF_PLAIN := 31, RHTSF_CHALLENGE := 32, WHTSF_CHALLENGE := 33,
    RHTSF_KEY := 34, WHTSF_KEY := 35, PM3_SUCCESS := 0, PM3_EINVARG := -2, PM3_ESOFT := -10,
    PM3_ERFTRANS := -7,
    CRC8Hitag1Bits := fun b n => (List.range (nbytes n)).foldl (fun a i => (a ^^^ b i) % 256) 0xFF }

/-- A radio that answers the frame number `n` (from 1) with the reply number `n` of a
script of replies (bytes, bit count), and with an empty reply once the script is used
up. -/
def scriptedRadio (replies : List (List Nat × Nat)) : Transceive :=
  fun sent => (Buf.ofList (replies.getD (sent.length - 1) ([], 0)).1,
    (replies.getD (sent.length - 1) ([], 0)).2)

/-- Sample reader state: the sample globals, nothing sent yet, zeroed buffers. -/
def sampleReader : Reader :=
  { g := sampleGlobals, sent := [], tx := Buf.ofList [], rx := Buf.ofList [] }

/-- Sample request of the host: function code `cmd` for page `page`, payload
`11 22 33 44`, key `4F 4E 4D 49 4B 52`, challenge record `01 .. 08`. -/
def samplePacket (cmd page : Nat) : lf_hitag_data_t :=
  { cmd := cmd, page := page, data := Buf.ofList [0x11, 0x22, 0x33, 0x44],
    NrAr := Buf.ofList [1, 2, 3, 4, 5, 6, 7, 8],
    key := Buf.ofList [0x4F, 0x4E, 0x4D, 0x49, 0x4B, 0x52] }

/-- A radio with a tag in the field that asks for authentication: the first frame of
every three gets the 32 UID bits `5F C2 11 84`, the other two get 40 bits
`C9 81 00 FF 12` (256-bit memory, `auth = 1`, `LKP = 1`). -/
def answeringRadio : Transceive :=
  fun sent =>
    if sent.length % 3 = 1 then (Buf.ofList [0x5F, 0xC2, 0x11, 0x84], 32)
    else (Buf.ofList [0xC9, 0x81, 0x00, 0xFF, 0x12], 40)

/-- The reply bytes the radio leaves in `rx` for the latest frame of `sent`. -/
def reply_rx (xcv : Transceive) (sent : List Frame) : Buf := fun i => (xcv sent).1 i % 256

/-- The reply length in bits the radio reports for the latest frame of `sent`. -/
def reply_len (xcv : Transceive) (sent : List Frame) : Nat := (xcv sent).2

/-- The reader state of `selectHitagS` at line 1305, after the UID request and the
Select exchange: both frames sent, `tag.uid` taken from the first reply and the
configuration decoded from the second. -/
def selectHitagS_selected (c : Protocol) (h : HostApi) (xcv : Transceive) (r : Reader) :
    Reader :=
  let f1 := selectHitagS_uid_request c r.tx
  let rx1 := reply_rx xcv (f1 :: r.sent)
  let f2 := selectHitagS_select c h f1.1 rx1
  let rx2 := reply_rx xcv (f2 :: f1 :: r.sent)
  let uid := ((rx1 3 <<< 24) ||| (rx1 2 <<< 16) ||| (rx1 1 <<< 8) ||| rx1 0) % 2 ^ 32
  { g := { r.g with tag := selectHitagS_config { r.g.tag with uid := uid } rx2 },
    sent := f2 :: f1 :: r.sent, tx := f2.1, rx := rx2 }

/-- The 8-bit address field of a 20-bit page command: frame bits 4..11. -/
def frame_address (f : Frame) : Nat := frame_field f.1 4 8

/-- The frames sent between reader state `r0` and the later state `r1`, oldest first. -/
def sent_since (r0 r1 : Reader) : List Frame :=
  (r1.sent.take (r1.sent.length - r0.sent.length)).reverse

/-- The page number after a round of the `ReadHitagS` loop for page `pageNum` (lines
1473-1496): incremented, and set to 4 when it is 2 and `skip` holds
(`tag.auth == 1 && tag.LKP`). -/
def ReadHitagS_next (skip : Bool) (pageNum : Nat) : Nat :=
  if pageNum + 1 = 2 ∧ skip = true then 4 else pageNum + 1

/-- The page numbers of the rounds of the `ReadHitagS` loop from `pageNum` on, when no
round ends the loop early: the loop ends when the next page number has reached
`max_page`. -/
def ReadHitagS_rounds (skip : Bool) (max_page : Int) : Nat → Nat → List Nat
  | 0, _ => []
  | fuel + 1, pageNum =>
    pageNum ::
      (if (ReadHitagS_next skip pageNum : Int) ≥ max_page then []
       else ReadHitagS_rounds skip max_page fuel (ReadHitagS_next skip pageNum))

/-- The page order of the specification: indices 0, 1, 2, ... in increasing order below
`max(1, max_page)`, without 2 and 3 when `skip` holds. -/
def read_order_spec (skip : Bool) (max_page : Int) : List Nat :=
  (List.range (max 1 max_page).toNat).filter fun p => ¬ (skip = true ∧ (p = 2 ∨ p = 3))

/-- The reader state after a round of the `ReadHitagS` loop for page `pageNum` whose
reply was not empty: the frame is sent, the reply is in `rx` and its first bytes are
stored in the page array. -/
def ReadHitagS_round (c : Protocol) (h : HostApi) (xcv : Transceive) (r : Reader)
    (pageNum : Nat) : Reader :=
  let f := ReadHitagS_frame c h r.tx pageNum
  let rx := reply_rx xcv (f :: r.sent)
  let rxlen := reply_len xcv (f :: r.sent)
  { tx := f.1, sent := f :: r.sent, rx := rx,
    g := { r.g with tag := { r.g.tag with pages := fun q j =>
      if q = pageNum ∧ j < 4 ∧ j < rxlen then rx j else r.g.tag.pages q j } } }

/-- The page order of the specification for the configuration of tag `t`. -/
def ReadHitagS_order (t : hitagS_tag) : List Nat :=
  read_order_spec (t.auth && t.LKP) t.max_page

/-- The acknowledgment of the specification: the reply to the latest frame of `sent` is
exactly 2 bits long with value `01`. -/
def is_ack (xcv : Transceive) (sent : List Frame) : Prop :=
  reply_len xcv sent = 2 ∧ frame_field (reply_rx xcv sent) 0 2 = 1

instance (xcv : Transceive) (sent : List Frame) : Decidable (is_ack xcv sent) :=
  inferInstanceAs (Decidable (_ ∧ _))

/-! ### Modulation codec -/

/-- `#define T0 12`: timer ticks per carrier period. -/
def T0 : Nat := 12

/-- `#define HITAG_T_WAIT_RESP 200` -/
def HITAG_T_WAIT_RESP : Nat := 200

/-- `#define HITAG_T_TAG_HALF_PERIOD 16` -/
def HITAG_T_TAG_HALF_PERIOD : Nat := 16

/-- `#define HITAG_T_TAG_FULL_PERIOD 32` -/
def HITAG_T_TAG_FULL_PERIOD : Nat := 32

/-- `#define HITAG_T_TAG_CAPTURE_TWO_HALF 25` -/
def HITAG_T_TAG_CAPTURE_TWO_HALF : Nat := 25

/-- `#define HITAG_T_TAG_CAPTURE_THREE_HALF 41` -/
def HITAG_T_TAG_CAPTURE_THREE_HALF : Nat := 41

/-- `#define HITAG_T_TAG_CAPTURE_FOUR_HALF 57` -/
def HITAG_T_TAG_CAPTURE_FOUR_HALF : Nat := 57

/-- Drive level of `GPIO_SSC_DOUT`. -/
inductive Level where
  | HIGH
  | LOW
  deriving DecidableEq, Repr

/-- `hitag_send_bit(bit, ledcontrol)` (lines 133-239) under coding `m`: the timer is
reset, then each `HIGH(..)` / `LOW(..)` holds its level until `TC_CV` reaches the given
tick count.  Gives the levels in order, each with the tick count at which it ends. -/
def hitag_send_bit (m : MOD) (bit : Nat) : List (Level × Nat) :=
  match m with
  | .AC2K =>
    if bit = 0 then [(.HIGH, T0 * 32), (.LOW, T0 * 64)]
    else [(.HIGH, T0 * 16), (.LOW, T0 * 32), (.HIGH, T0 * 48), (.LOW, T0 * 64)]
  | .AC4K =>
    if bit = 0 then
      [(.HIGH, T0 * HITAG_T_TAG_HALF_PERIOD), (.LOW, T0 * HITAG_T_TAG_FULL_PERIOD)]
    else [(.HIGH, T0 * 8), (.LOW, T0 * 16), (.HIGH, T0 * 24), (.LOW, T0 * 32)]
  | .MC4K =>
    if bit = 0 then [(.LOW, T0 * 16), (.HIGH, T0 * 32)]
    else [(.HIGH, T0 * 16), (.LOW, T0 * 32)]
  | .MC8K =>
    if bit = 0 then [(.LOW, T0 * 8), (.HIGH, T0 * 16)]
    else [(.HIGH, T0 * 8), (.LOW, T0 * 16)]

/-- Durations of levels held one after the other since a timer reset, from the tick
counts at which they end. -/
def segment_durations : Nat → List (Level × Nat) → List (Level × Nat)
  | _, [] => []
  | t, (l, e) :: rest => (l, e - t) :: segment_durations e rest

/-- `hitag_send_frame(frame, frame_len, ledcontrol)` (lines 241-274) under coding `m`
with `sof_bits` start-of-frame bits: the drive levels in order, each with its duration
in timer ticks; the last entry is the `LOW` the line is left at. -/
def hitag_send_frame (m : MOD) (sof_bits : Nat) (frame : Buf) (frame_len : Nat) :
    List (Level × Nat) :=
  let lead : List (Level × Nat) :=
    match m with
    | .AC4K | .MC8K => [(.HIGH, T0 * 40)]
    | .AC2K | .MC4K => [(.HIGH, T0 * 20)]
  let sof := (List.range sof_bits).flatMap fun _ => segment_durations 0 (hitag_send_bit m 1)
  let bits := (List.range frame_len).flatMap fun i =>
    segment_durations 0 (hitag_send_bit m ((frame (i / 8) >>> (7 - (i % 8))) &&& 1))
  lead ++ sof ++ bits ++ [(.LOW, 0)]

/-- Zero-jitter capture of a drive-level sequence: the tick counts between successive
falling edges (a `HIGH` level followed by a `LOW` level).  `prev` is the level before
the sequence and `elapsed` the ticks since the capture timer was last reset. -/
def falling_edge_ticks : Level → Nat → List (Level × Nat) → List Nat
  | _, _, [] => []
  | prev, elapsed, (l, d) :: rest =>
    if prev = .HIGH ∧ l = .LOW then elapsed :: falling_edge_ticks l d rest
    else falling_edge_ticks l (elapsed + d) rest

/-- The values `ra = TC_RA / T0` (line 1018) captured from a frame sent by
`hitag_send_frame`, when the line was `LOW` and the capture timer had run `wait`
carrier periods before the frame began. -/
def captured_intervals (wait : Nat) (segments : List (Level × Nat)) : List Nat :=
  (falling_edge_ticks .LOW (T0 * wait) segments).map (· / T0)

/-- The locals of `hitagS_receive_frame` that outlive one loop round, with the receive
buffer and `*rxlen`, `*resptime`; the debug counters `h2`, `h3`, `h4` are left out. -/
structure RxState where
  rx : Buf
  rxlen : Nat
  lastbit : Nat
  bSkip : Bool
  resptime : Nat
  errorCount : Nat
  bStarted : Bool
  ra_i : Nat

/-- `rx[(*rxlen) / 8] |= bit << (7 - ((*rxlen) % 8)); (*rxlen)++;` (lines 1045-1046 and
alike); `none` when the byte lies outside the `sizeofrx` bytes of `rx`. -/
def RxState.put (sizeofrx : Nat) (s : RxState) (bit : Nat) : Option RxState :=
  if s.rxlen / 8 < sizeofrx then
    some { s with
      rx := s.rx.set (s.rxlen / 8) (s.rx (s.rxlen / 8) ||| (bit <<< (7 - (s.rxlen % 8))))
      rxlen := s.rxlen + 1 }
  else none

/-- The body of `if (AT91C_BASE_TC1->TC_SR & AT91C_TC_LDRAS)` in `hitagS_receive_frame`
(lines 1015-1076) for the captured value `ra`; `none` when a store leaves `edges[160]`
or the `sizeofrx` bytes of `rx`. -/
def hitagS_receive_edge (sizeofrx : Nat) (s : RxState) (ra : Nat) : Option RxState :=
  if s.ra_i < 160 then
    let s := { s with ra_i := s.ra_i + 1 }
    if s.bStarted = false then
      let s := { s with resptime := (ra + 2 ^ 32 - HITAG_T_TAG_HALF_PERIOD) % 2 ^ 32 }
      if ra ≥ HITAG_T_WAIT_RESP then
        if 0 < sizeofrx then
          some { s with bStarted := true, rx := s.rx.set 0 0x80, rxlen := s.rxlen + 1 }
        else none
      else some { s with errorCount := s.errorCount + 1 }
    else if ra ≥ HITAG_T_TAG_CAPTURE_FOUR_HALF then do
      let s ← s.put sizeofrx 0
      let s ← s.put sizeofrx 1
      pure s
    else if ra ≥ HITAG_T_TAG_CAPTURE_THREE_HALF then do
      let s ← s.put sizeofrx 0
      let s ← if s.bSkip = false then s.put sizeofrx 1 else pure s
      pure { s with lastbit := if s.lastbit = 0 then 1 else 0, bSkip := !s.bSkip }
    else if ra ≥ HITAG_T_TAG_CAPTURE_TWO_HALF then
      s.put sizeofrx s.lastbit
    else some { s with errorCount := s.errorCount + 1 }
  else none

/-- The receive loop of `hitagS_receive_frame` (lines 1012-1092) over the rounds the
timers let it run: in each round the capture flag is set with value `some ra` or not
set (`none`); after the edge is handled the loop ends when more than 100 weird values
were seen or the buffer is full (line 1079). -/
def hitagS_receive_loop (sizeofrx : Nat) : List (Option Nat) → RxState → Option RxState
  | [], s => some s
  | e :: rounds, s =>
    match (match e with
      | some ra => hitagS_receive_edge sizeofrx s ra
      | none => some s) with
    | none => none
    | some s1 =>
      if s1.errorCount > 100 ∨ s1.rxlen / 8 ≥ sizeofrx then some s1
      else hitagS_receive_loop sizeofrx rounds s1

/-- `hitagS_receive_frame(rx, sizeofrx, &rxlen, &resptime, ledcontrol)` (lines
994-1097): the state after the loop, started from the zeroed buffer. -/
def hitagS_receive_frame (rx : Buf) (sizeofrx : Nat) (rounds : List (Option Nat)) :
    Option RxState :=
  hitagS_receive_loop sizeofrx rounds
    { rx := fun i => if i < sizeofrx then 0x00 else rx i, rxlen := 0, lastbit := 1,
      bSkip := true, resptime := 0, errorCount := 0, bStarted := false, ra_i := 0 }

/-- The loop body `rx[k / 8] |= response_bit[i] << (7 - (k % 8)); k++; if (k > 8 *
sizeofrx) break;` of `sendReceiveHitagS` (lines 1149-1155, 1179-1184) on the buffer, `k`
and a flag telling that the loop was left; `none` when the store leaves the `sizeofrx`
bytes of `rx`. -/
def sendReceiveHitagS_copy (sizeofrx : Nat) (response_bit : Nat → Nat) :
    Buf × Nat × Bool → Nat → Option (Buf × Nat × Bool) :=
  fun (rx, k, stop) i =>
    if stop then some (rx, k, stop)
    else if k / 8 < sizeofrx then
      some (rx.set (k / 8) (rx (k / 8) ||| (response_bit i <<< (7 - (k % 8)))), k + 1,
        decide (k + 1 > 8 * sizeofrx))
    else none

/-- The reply extraction of `sendReceiveHitagS` (lines 1123-1189) from the raw frame
`rx`, `rxlen` left by `hitagS_receive_frame`: the buffer handed back and `*prxbits`.
With `ac_seq` the raw bits 7, 9, 11, ... are kept, else the raw bits from 6 on.  `none`
when a store leaves `response_bit[sizeofrx * 8]` or the `sizeofrx` bytes of `rx`. -/
def sendReceiveHitagS_extract (rx : Buf) (sizeofrx rxlen : Nat) (ac_seq : Bool) :
    Option (Buf × Nat) :=
  if rxlen > 0 then
    if rxlen ≤ sizeofrx * 8 then
      let response_bit : Nat → Nat := fun i =>
        if i < rxlen then (rx (i / 8) >>> (7 - (i % 8))) &&& 1 else 0
      let rx : Buf := fun i => if i < sizeofrx then 0x00 else rx i
      if ac_seq then do
        let (rx, k, _) ← ((List.range ((rxlen - 7 + 1) / 2)).map (fun j => 7 + 2 * j)).foldlM
          (sendReceiveHitagS_copy sizeofrx response_bit) (rx, 0, false)
        let k := if k % 8 = 7 then k + 1 else k
        pure (rx, k)
      else do
        let (rx, k, _) ← ((List.range (rxlen - 6)).map (fun j => 6 + j)).foldlM
          (sendReceiveHitagS_copy sizeofrx response_bit) (rx, 0, false)
        pure (rx, k)
    else none
  else some (rx, 0)

/-! ### Observations and specification-level definitions for the codec -/

/-- The bits of a frame as a list, most significant bit first within each byte. -/
def frame_bits (b : Buf) (n : Nat) : List Nat := (List.range n).map (frame_bit b)

/-- The drive-level segments `hitag_send_bit` produces for a list of bits, one bit after
the other. -/
def encode_bits (m : MOD) (bits : List Nat) : List (Level × Nat) :=
  bits.flatMap fun b => segment_durations 0 (hitag_send_bit m b)

/-- State of the Manchester interval classification as the specification words it: the
bits emitted so far, whether the frame has started, the remembered last bit, the number
of intervals in [41, 57) seen so far, and the noise count. -/
structure Decoded where
  bits : List Nat
  started : Bool
  lastbit : Nat
  threes : Nat
  noise : Nat

/-- One step of the classification of the specification, for the interval `ra` in T0
units: before the start an interval >= 200 starts the frame and emits a 1, a shorter one
is noise; after the start an interval >= 57 emits 0 then 1; one in [41, 57) emits 0,
followed by 1 on every second such interval, and toggles the remembered last bit; one in
[25, 41) emits the remembered last bit; one below 25 is noise. -/
def manchester_classify (d : Decoded) (ra : Nat) : Decoded :=
  if d.started = false then
    if 200 ≤ ra then { d with started := true, bits := d.bits ++ [1] }
    else { d with noise := d.noise + 1 }
  else if 57 ≤ ra then { d with bits := d.bits ++ [0, 1] }
  else if 41 ≤ ra then
    { d with bits := d.bits ++ (if d.threes % 2 = 1 then [0, 1] else [0]),
             lastbit := 1 - d.lastbit, threes := d.threes + 1 }
  else if 25 ≤ ra then { d with bits := d.bits ++ [d.lastbit] }
  else { d with noise := d.noise + 1 }

/-- The classification of the specification folded over a list of intervals, from the
initial state: nothing emitted, not started, remembered last bit 1. -/
def manchester_decode (intervals : List Nat) : Decoded :=
  intervals.foldl manchester_classify
    { bits := [], started := false, lastbit := 1, threes := 0, noise := 0 }

/-- The bits the Manchester classification emits for a list of AC-coded bits; `prev` is
the AC bit sent before them.  After a 1, a 1 gives `1 1` and a 0 gives `0`; after a 0, a
0 gives `0 1` and a 1 gives `0 1 1`. -/
def ac_as_manchester : Nat → List Nat → List Nat
  | _, [] => []
  | prev, b :: bits =>
    (if prev = 0 then (if b = 0 then [0, 1] else [0, 1, 1])
     else (if b = 0 then [0] else [1, 1])) ++ ac_as_manchester b bits

/-- The state of `hitagS_receive_frame` holds the state `d` of the specification's
classification: `*rxlen` bits received, the bits of `rx` are those emitted (and zero
behind them), and the flags agree (`bSkip` is set when the number of intervals in
[41, 57) seen so far is even). -/
def RxState.holds (sizeofrx : Nat) (s : RxState) (d : Decoded) : Prop :=
  s.rxlen = d.bits.length ∧
  (∀ p, p < 8 * sizeofrx → frame_bit s.rx p = d.bits.getD p 0) ∧
  s.lastbit = d.lastbit ∧ d.lastbit ≤ 1 ∧
  s.bSkip = decide (d.threes % 2 = 0) ∧
  s.bStarted = d.started ∧ s.errorCount = d.noise ∧
  (d.started = false → d.bits = [])

/-- The reply path of the reader on a frame the emulator sends, without jitter: the
intervals captured from `hitag_send_frame` go, one per loop round, through
`hitagS_receive_frame`, and the raw frame through the extraction of `sendReceiveHitagS`;
the buffer handed back and the number of reply bits. -/
def codec_round_trip (m : MOD) (sof_bits wait : Nat) (frame : Buf) (frame_len : Nat)
    (rx : Buf) (sizeofrx : Nat) (ac_seq : Bool) : Option (Buf × Nat) :=
  match hitagS_receive_frame rx sizeofrx
      ((captured_intervals wait (hitag_send_frame m sof_bits frame frame_len)).map some) with
  | none => none
  | some s => sendReceiveHitagS_extract s.rx sizeofrx s.rxlen ac_seq


/-- The state of the specification's classification after the intervals captured from a
drive-level sequence, started in state `d` with level `prev` on the line and `elapsed`
ticks on the capture timer. -/
def decode_segments (d : Decoded) (prev : Level) (elapsed : Nat)
    (segments : List (Level × Nat)) : Decoded :=
  ((falling_edge_ticks prev elapsed segments).map (· / T0)).foldl manchester_classify d

/-- The reply length of the AC extraction as the specification words it: the count
`ceil((rxlen - 7) / 2)` for `rxlen > 7` and 0 otherwise, incremented by one exactly when
it is 7 modulo 8. -/
def ac_reply_len_spec (rxlen : Nat) : Nat :=
  let k := if rxlen > 7 then (rxlen - 7 + 1) / 2 else 0
  if k % 8 = 7 then k + 1 else k

/-! ## Theorems -/

theorem calc_crc_body_lt (crc : Nat) : calc_crc_body crc < 256 := by
  unfold calc_crc_body
  split <;> exact Nat.mod_lt _ (by decide)

theorem and_0x80_ne_zero_iff (crc : Nat) : crc &&& 0x80 ≠ 0 ↔ crc.testBit 7 = true := by
  have h : (0x80 : Nat) = 2 ^ 7 := by norm_num
  rw [h, Nat.and_two_pow]
  cases crc.testBit 7 <;> simp

theorem calc_crc_body_eq_spec (crc : Nat) : calc_crc_body crc = crc_shift_spec crc := by
  unfold calc_crc_body crc_shift_spec CRC_POLYNOM
  by_cases h : crc.testBit 7 = true
  · rw [if_pos ((and_0x80_ne_zero_iff crc).2 h), if_pos h]
    apply Nat.mod_eq_of_lt
    exact Nat.xor_lt_two_pow (n := 8) (Nat.mod_lt _ (by decide)) (by decide)
  · rw [if_neg (fun h1 => h ((and_0x80_ne_zero_iff crc).1 h1)), if_neg h]

/-- With `1 ≤ n < 256` and enough fuel the loop runs the body exactly `n` times. -/
theorem calc_crc_loop_eq (fuel : Nat) : ∀ (n crc : Nat), 1 ≤ n → n ≤ fuel → n < 256 →
    calc_crc_loop fuel crc n = some (crc_shift_spec^[n] crc) := by
  induction fuel with
  | zero => intro n crc h1 h2; omega
  | succ f ih =>
    intro n crc h1 h2 h3
    obtain ⟨k, rfl⟩ : ∃ k, n = k + 1 := ⟨n - 1, by omega⟩
    have hk : (k + 1 + 255) % 256 = k := by omega
    simp only [calc_crc_loop, hk, Function.iterate_succ, Function.comp_apply,
      calc_crc_body_eq_spec]
    by_cases hk0 : k = 0
    · subst hk0; simp
    · rw [if_pos hk0]
      exact ih k _ (by omega) (by omega) (by omega)

/-- C1: for every running crc byte, data byte and bit count `1 ≤ n ≤ 8`, `calc_crc`
returns (it does not run out of fuel) and replaces crc by: crc XOR data, followed by
`n` shifts, each XOR-ing the polynomial 0x1D in when bit 7 was set. -/
theorem calc_crc_refines_spec (crc data n : Nat) (hcrc : crc < 256) (hdata : data < 256)
    (h1 : 1 ≤ n) (h8 : n ≤ 8) :
    calc_crc crc data n = some (calc_crc_spec crc data n) := by
  have hx : crc ^^^ data < 256 := Nat.xor_lt_two_pow (n := 8) hcrc hdata
  unfold calc_crc calc_crc_spec
  rw [Nat.mod_eq_of_lt hx]
  exact calc_crc_loop_eq 256 n _ h1 (by omega) (by omega)

theorem calc_crc_refines_spec_witness :
    calc_crc 0xFF 0x84 8 = some (calc_crc_spec 0xFF 0x84 8) :=
  calc_crc_refines_spec 0xFF 0x84 8 (by decide) (by decide) (by decide) (by decide)

/-! ### CRC-8 over byte sequences -/

theorem calc_crc_8_some (crc data : Nat) : ∃ r, calc_crc crc data 8 = some r :=
  ⟨_, calc_crc_loop_eq 256 8 _ (by decide) (by decide) (by decide)⟩

theorem calc_crc_bytes_some (bytes : List Nat) :
    ∀ crc, ∃ r, calc_crc_bytes crc bytes = some r := by
  induction bytes with
  | nil => intro crc; exact ⟨crc, rfl⟩
  | cons d ds ih =>
    intro crc
    obtain ⟨r1, h1⟩ := calc_crc_8_some crc d
    obtain ⟨r, hr⟩ := ih r1
    refine ⟨r, ?_⟩
    simpa [calc_crc_bytes, List.foldlM_cons, h1] using hr

/-- C2: CRC-8 is incrementally composable.  For all byte lists `a` and `b` the fold of
`calc_crc` (8 bits per byte) over `a` from the preset 0xFF returns a crc `ca`, the fold
over `b` continued from `ca` returns `r`, and the fold over `a ++ b` from the preset
returns the same `r`.  The result is a function of the input bytes only: the model is a
pure function of them. -/
theorem calc_crc_bytes_append (a b : List Nat) :
    ∃ ca r, calc_crc_bytes CRC_PRESET a = some ca ∧ calc_crc_bytes ca b = some r ∧
      calc_crc_bytes CRC_PRESET (a ++ b) = some r := by
  obtain ⟨ca, ha⟩ := calc_crc_bytes_some a CRC_PRESET
  obtain ⟨r, hr⟩ := calc_crc_bytes_some b ca
  refine ⟨ca, r, ha, hr, ?_⟩
  unfold calc_crc_bytes at ha hr ⊢
  rw [List.foldlM_append, ha]
  exact hr

/-! ### Emulation: dispatch on the frame length -/

theorem handle_reader_command_5 {σ : Type} (c : Protocol) (E : Cipher σ) (g : Globals)
    (rx tx : Buf) :
    hitagS_handle_reader_command c E g rx 5 tx = handle_uid_request c g rx tx := rfl

theorem handle_reader_command_45 {σ : Type} (c : Protocol) (E : Cipher σ) (g : Globals)
    (rx tx : Buf) :
    hitagS_handle_reader_command c E g rx 45 tx = handle_select c g rx tx := rfl

theorem handle_reader_command_64 {σ : Type} (c : Protocol) (E : Cipher σ) (g : Globals)
    (rx tx : Buf) :
    hitagS_handle_reader_command c E g rx 64 tx = handle_challenge E g rx tx := rfl

theorem handle_reader_command_40 {σ : Type} (c : Protocol) (E : Cipher σ) (g : Globals)
    (rx tx : Buf) :
    hitagS_handle_reader_command c E g rx 40 tx = handle_write_data g rx tx := rfl

theorem handle_reader_command_20 {σ : Type} (c : Protocol) (E : Cipher σ) (g : Globals)
    (rx tx : Buf) :
    hitagS_handle_reader_command c E g rx 20 tx = handle_page_command c g rx tx := rfl

/-! ### Emulation: UID request (5 bits) -/

theorem shiftRight_and_0xFF (x k : Nat) : (x >>> k) &&& 0xFF = x / 2 ^ k % 256 := by
  have h : (0xFF : Nat) = 2 ^ 8 - 1 := by norm_num
  rw [h, Nat.and_pow_two_sub_one_eq_mod, Nat.shiftRight_eq_div_pow]

theorem uid_reply_bytes (uid : Nat) (tx : Buf) :
    ([0, 1, 2, 3].foldl (fun tx i => Buf.set tx i ((uid >>> (24 - (i * 8))) &&& 0xFF)) tx) 0
        = uid / 2 ^ 24 % 256 ∧
    ([0, 1, 2, 3].foldl (fun tx i => Buf.set tx i ((uid >>> (24 - (i * 8))) &&& 0xFF)) tx) 1
        = uid / 2 ^ 16 % 256 ∧
    ([0, 1, 2, 3].foldl (fun tx i => Buf.set tx i ((uid >>> (24 - (i * 8))) &&& 0xFF)) tx) 2
        = uid / 2 ^ 8 % 256 ∧
    ([0, 1, 2, 3].foldl (fun tx i => Buf.set tx i ((uid >>> (24 - (i * 8))) &&& 0xFF)) tx) 3
        = uid % 256 := by
  simp only [List.foldl, Buf.set, shiftRight_and_0xFF]
  norm_num

/-- The reply of the 5-bit case does not depend on the command constants. -/
theorem handle_uid_request_reply (c : Protocol) (g : Globals) (rx tx : Buf) :
    reply_bytes (handle_uid_request c g rx tx) 4 =
      some ([g.tag.uid / 2 ^ 24 % 256, g.tag.uid / 2 ^ 16 % 256, g.tag.uid / 2 ^ 8 % 256,
        g.tag.uid % 256], 32) := by
  unfold handle_uid_request
  split_ifs <;>
  · simp only [reply_bytes, Option.map_some', List.range, List.range.loop, List.map]
    rw [(uid_reply_bytes _ _).1, (uid_reply_bytes _ _).2.1, (uid_reply_bytes _ _).2.2.1,
      (uid_reply_bytes _ _).2.2.2]

/-- C5: a 5-bit frame makes `hitagS_handle_reader_command` reset `pstate` to `HT_READY`
and `tstate` to `HT_NO_OP` and reply `txlen = 32` with `tx[0..3]` the four bytes of
`tag.uid`, most significant byte first; when the top nibble of `rx[0]` is
`HITAGS_UID_REQ_STD`, `HITAGS_UID_REQ_ADV` or `HITAGS_UID_REQ_FADV` (pairwise distinct
constants) it sets mode / sof_bits / coding to `HT_STANDARD` / 1 / `AC2K`,
`HT_ADVANCED` / 3 / `AC2K`, `HT_FAST_ADVANCED` / 3 / `AC4K` respectively. -/
theorem uid_request_sets_mode_and_replies_uid {σ : Type} (c : Protocol) (E : Cipher σ)
    (g : Globals) (rx tx : Buf)
    (h1 : c.HITAGS_UID_REQ_STD ≠ c.HITAGS_UID_REQ_ADV)
    (h2 : c.HITAGS_UID_REQ_STD ≠ c.HITAGS_UID_REQ_FADV)
    (h3 : c.HITAGS_UID_REQ_ADV ≠ c.HITAGS_UID_REQ_FADV) :
    ∃ g1 tx1, hitagS_handle_reader_command c E g rx 5 tx = some (g1, tx1, 32) ∧
      g1.tag.pstate = .HT_READY ∧ g1.tag.tstate = .HT_NO_OP ∧
      tx1 0 = g.tag.uid / 2 ^ 24 % 256 ∧ tx1 1 = g.tag.uid / 2 ^ 16 % 256 ∧
      tx1 2 = g.tag.uid / 2 ^ 8 % 256 ∧ tx1 3 = g.tag.uid % 256 ∧
      (rx 0 &&& 0xf0 = c.HITAGS_UID_REQ_STD →
        g1.tag.mode = .HT_STANDARD ∧ g1.sof_bits = 1 ∧ g1.m = .AC2K) ∧
      (rx 0 &&& 0xf0 = c.HITAGS_UID_REQ_ADV →
        g1.tag.mode = .HT_ADVANCED ∧ g1.sof_bits = 3 ∧ g1.m = .AC2K) ∧
      (rx 0 &&& 0xf0 = c.HITAGS_UID_REQ_FADV →
        g1.tag.mode = .HT_FAST_ADVANCED ∧ g1.sof_bits = 3 ∧ g1.m = .AC4K) := by
  rw [handle_reader_command_5]
  unfold handle_uid_request
  by_cases hS : rx 0 &&& 0xf0 = c.HITAGS_UID_REQ_STD
  · have hA : ¬ rx 0 &&& 0xf0 = c.HITAGS_UID_REQ_ADV := fun h => h1 (hS.symm.trans h)
    have hF : ¬ rx 0 &&& 0xf0 = c.HITAGS_UID_REQ_FADV := fun h => h2 (hS.symm.trans h)
    split_ifs
    exact ⟨_, _, rfl, rfl, rfl, (uid_reply_bytes _ _).1, (uid_reply_bytes _ _).2.1,
      (uid_reply_bytes _ _).2.2.1, (uid_reply_bytes _ _).2.2.2,
      fun _ => ⟨rfl, rfl, rfl⟩, fun h => absurd h hA, fun h => absurd h hF⟩
  · by_cases hA : rx 0 &&& 0xf0 = c.HITAGS_UID_REQ_ADV
    · have hF : ¬ rx 0 &&& 0xf0 = c.HITAGS_UID_REQ_FADV := fun h => h3 (hA.symm.trans h)
      split_ifs
      exact ⟨_, _, rfl, rfl, rfl, (uid_reply_bytes _ _).1, (uid_reply_bytes _ _).2.1,
        (uid_reply_bytes _ _).2.2.1, (uid_reply_bytes _ _).2.2.2,
        fun h => absurd h hS, fun _ => ⟨rfl, rfl, rfl⟩, fun h => absurd h hF⟩
    · by_cases hF : rx 0 &&& 0xf0 = c.HITAGS_UID_REQ_FADV
      · split_ifs
        exact ⟨_, _, rfl, rfl, rfl, (uid_reply_bytes _ _).1, (uid_reply_bytes _ _).2.1,
          (uid_reply_bytes _ _).2.2.1, (uid_reply_bytes _ _).2.2.2,
          fun h => absurd h hS, fun h => absurd h hA, fun _ => ⟨rfl, rfl, rfl⟩⟩
      · split_ifs
        exact ⟨_, _, rfl, rfl, rfl, (uid_reply_bytes _ _).1, (uid_reply_bytes _ _).2.1,
          (uid_reply_bytes _ _).2.2.1, (uid_reply_bytes _ _).2.2.2,
          fun h => absurd h hS, fun h => absurd h hA, fun h => absurd h hF⟩

theorem uid_request_sets_mode_and_replies_uid_witness :
    ∃ g1 tx1, hitagS_handle_reader_command sampleProtocol sampleCipher sampleGlobals
        (Buf.ofList [0xD0]) 5 (Buf.ofList []) = some (g1, tx1, 32) ∧
      g1.tag.mode = .HT_FAST_ADVANCED ∧ g1.sof_bits = 3 ∧ g1.m = .AC4K := by
  obtain ⟨g1, tx1, h, _, _, _, _, _, _, _, _, hfadv⟩ :=
    uid_request_sets_mode_and_replies_uid sampleProtocol sampleCipher sampleGlobals
      (Buf.ofList [0xD0]) (Buf.ofList []) (by decide) (by decide) (by decide)
  exact ⟨g1, tx1, h, hfadv (by decide)⟩

/-- C6 (the code at the failing input): the sample tag has `tag.uid = 0x5FC21184`,
derived from page 0 = 84 11 C2 5F as `SimulateHitagSTag` does (line 771).  The 5-bit
standard UID request `rx[0] = 0x30` yields `txlen = 32` and reply bytes 5F C2 11 84,
not the 84 11 C2 5F that scenario A states, while Read-page of page 0 on the same tag
replies 84 11 C2 5F. -/
theorem scenario_A_reply_is_not_84_11_C2_5F :
    sampleGlobals.tag.uid = 0x5FC21184 ∧
    sampleGlobals.tag.uid =
      sampleGlobals.tag.pages 0 3 * 2 ^ 24 + sampleGlobals.tag.pages 0 2 * 2 ^ 16 +
        sampleGlobals.tag.pages 0 1 * 2 ^ 8 + sampleGlobals.tag.pages 0 0 ∧
    reply_bytes (hitagS_handle_reader_command sampleProtocol sampleCipher sampleGlobals
        (Buf.ofList [0x30]) 5 (Buf.ofList [])) 4 = some ([0x5F, 0xC2, 0x11, 0x84], 32) ∧
    reply_bytes (hitagS_handle_reader_command sampleProtocol sampleCipher sampleGlobals
        (Buf.ofList [0x30]) 5 (Buf.ofList [])) 4 ≠ some ([0x84, 0x11, 0xC2, 0x5F], 32) ∧
    reply_bytes (hitagS_handle_reader_command sampleProtocol sampleCipher sampleGlobals
        (Buf.ofList [0xC0, 0x00, 0x00]) 20 (Buf.ofList [])) 4 =
      some ([0x84, 0x11, 0xC2, 0x5F], 32) := by
  decide

/-! ### Emulation: Select (45 bits) -/

theorem shiftRight_and_one (x k : Nat) : (x >>> k) &&& 0x1 = if x.testBit k then 1 else 0 := by
  rw [Nat.and_one_is_mod, Nat.shiftRight_eq_div_pow, Nat.testBit_to_div_mod]
  rcases Nat.mod_two_eq_zero_or_one (x / 2 ^ k) with h | h <;> simp [h]

theorem frame_bit_le_one (b : Buf) (p : Nat) : frame_bit b p ≤ 1 := by
  unfold frame_bit; split <;> simp

theorem frame_field_lt (b : Buf) (start : Nat) : ∀ n, frame_field b start n < 2 ^ n := by
  intro n
  induction n with
  | zero => simp [frame_field]
  | succ n ih =>
    have := frame_bit_le_one b (start + n)
    simp only [frame_field, pow_succ]
    omega

/-- The summation loop of `check_select` after `n` rounds holds the first `n` bits of the
field, placed at the top of a 32-bit word. -/
theorem check_select_loop (rx : Buf) : ∀ n, n ≤ 32 →
    (List.range n).foldl
      (fun ans i => (ans + (((rx ((5 + i) / 8) >>> (7 - ((5 + i) % 8))) &&& 0x1) <<< (31 - i)))
        % 2 ^ 32) 0 = 2 ^ (32 - n) * frame_field rx 5 n := by
  intro n
  induction n with
  | zero => intro _; simp [frame_field]
  | succ n ih =>
    intro hn
    rw [List.range_succ, List.foldl_append, ih (by omega)]
    simp only [List.foldl, shiftRight_and_one, Nat.shiftLeft_eq, frame_field]
    have hb : (if (rx ((5 + n) / 8)).testBit (7 - (5 + n) % 8) then 1 else 0)
        = frame_bit rx (5 + n) := rfl
    rw [hb]
    have h1 : 32 - n = (31 - n) + 1 := by omega
    have h2 : 32 - (n + 1) = 31 - n := by omega
    rw [h1, h2, pow_succ]
    have hlt := frame_field_lt rx 5 (n + 1)
    simp only [frame_field] at hlt
    have hp : 2 ^ (31 - n) * 2 ^ (n + 1) = 2 ^ 32 := by
      rw [← pow_add]; congr 1; omega
    have : 2 ^ (31 - n) * 2 * frame_field rx 5 n + frame_bit rx (5 + n) * 2 ^ (31 - n)
        = 2 ^ (31 - n) * (2 * frame_field rx 5 n + frame_bit rx (5 + n)) := by ring
    rw [this]
    apply Nat.mod_eq_of_lt
    calc 2 ^ (31 - n) * (2 * frame_field rx 5 n + frame_bit rx (5 + n))
        < 2 ^ (31 - n) * 2 ^ (n + 1) := by
          apply Nat.mul_lt_mul_of_pos_left hlt (by positivity)
      _ = 2 ^ 32 := hp

theorem check_select_eq (g : Globals) (rx : Buf) (u : Nat) :
    check_select g rx u =
      ({ g with temp_uid := frame_field rx 5 32 },
        if frame_field rx 5 32 = g.tag.uid then 1 else 0) := by
  have h := check_select_loop rx 32 (le_refl _)
  simp only [Nat.sub_self, pow_zero, one_mul] at h
  unfold check_select
  simp only [h]
  split <;> rfl

theorem page_eq_some (t : hitagS_tag) (p j : Nat) (hp : p < 64) :
    t.page p j = some (t.pages p j) := by
  simp [hitagS_tag.page, HITAGS_MAX_PAGES, hp]

theorem set_frame_modulation_tag (g : Globals) :
    (hitagS_set_frame_modulation g).tag = g.tag := by
  unfold hitagS_set_frame_modulation
  split <;> rfl

theorem Buf.set_same (b : Buf) (i v : Nat) : Buf.set b i v i = v := by simp [Buf.set]

theorem Buf.set_ne (b : Buf) (i v j : Nat) (h : j ≠ i) : Buf.set b i v j = b j := by
  simp [Buf.set, h]

/-- C7 (amended): on a 45-bit frame whose select opcode matches and whose 32 bits at
frame positions 5..36 (most significant first) equal `tag.uid`, the reply is
`tx[0..2] = pages[1][0..2]` and `tx[3] = 0xFF`, with `txlen = 32` in standard mode and
`txlen = 40` with `tx[4]` the CRC-8 (preset 0xFF) of `tx[0..3]` otherwise; if the 32
supplied bits differ from `tag.uid`, `txlen = 0`, `tx` is untouched and the tag is
unchanged. -/
theorem select_reply {σ : Type} (c : Protocol) (E : Cipher σ) (g : Globals) (rx tx : Buf) :
    (rx 0 &&& 0xf8 = c.HITAGS_SELECT → frame_field rx 5 32 = g.tag.uid →
      ∃ g1 tx1 txlen, hitagS_handle_reader_command c E g rx 45 tx = some (g1, tx1, txlen) ∧
        tx1 0 = g.tag.pages 1 0 ∧ tx1 1 = g.tag.pages 1 1 ∧ tx1 2 = g.tag.pages 1 2 ∧
        tx1 3 = 0xFF ∧
        (g.tag.mode = .HT_STANDARD → txlen = 32) ∧
        (g.tag.mode ≠ .HT_STANDARD → txlen = 40 ∧
          calc_crc_bytes CRC_PRESET [tx1 0, tx1 1, tx1 2, tx1 3] = some (tx1 4))) ∧
    (frame_field rx 5 32 ≠ g.tag.uid →
      ∃ g1, hitagS_handle_reader_command c E g rx 45 tx = some (g1, tx, 0) ∧
        g1.tag = g.tag) := by
  rw [handle_reader_command_45]
  unfold handle_select
  constructor
  · intro hop huid
    obtain ⟨crc, hcrc⟩ := calc_crc_bytes_some
      [g.tag.pages 1 0, g.tag.pages 1 1, g.tag.pages 1 2, 0xff] CRC_PRESET
    by_cases hm : g.tag.mode = .HT_STANDARD
    · simp only [hop, check_select_eq, huid, page_eq_some, set_frame_modulation_tag, hm,
        List.foldlM, if_true, bind, Option.bind, pure, ne_eq, not_true_eq_false, if_false,
        Nat.one_lt_ofNat]
      refine ⟨_, _, _, rfl, ?_⟩
      simp [Buf.set]
    · simp [hop, check_select_eq, huid, page_eq_some, set_frame_modulation_tag, hm,
        Buf.set, hcrc]
      refine ⟨_, _, _, ⟨rfl, rfl, rfl⟩, ?_⟩
      simp [Buf.set, hcrc]
  · intro huid
    by_cases hop : rx 0 &&& 0xf8 = c.HITAGS_SELECT
    · simp [hop, check_select_eq, huid]
    · simp [hop]

theorem select_reply_witness :
    (∃ g1 tx1 txlen, hitagS_handle_reader_command sampleProtocol sampleCipher sampleGlobals
        (Buf.ofList [0x02, 0xFE, 0x10, 0x8C, 0x20]) 45 (Buf.ofList []) = some (g1, tx1, txlen) ∧
        tx1 0 = sampleGlobals.tag.pages 1 0 ∧ tx1 1 = sampleGlobals.tag.pages 1 1 ∧
        tx1 2 = sampleGlobals.tag.pages 1 2 ∧ tx1 3 = 0xFF ∧
        (sampleGlobals.tag.mode = .HT_STANDARD → txlen = 32) ∧
        (sampleGlobals.tag.mode ≠ .HT_STANDARD → txlen = 40 ∧
          calc_crc_bytes CRC_PRESET [tx1 0, tx1 1, tx1 2, tx1 3] = some (tx1 4))) ∧
    (∃ g1, hitagS_handle_reader_command sampleProtocol sampleCipher sampleGlobals
        (Buf.ofList [0x02, 0xFE, 0x10, 0x8C, 0x28]) 45 (Buf.ofList []) =
          some (g1, Buf.ofList [], 0) ∧ g1.tag = sampleGlobals.tag) :=
  ⟨(select_reply sampleProtocol sampleCipher sampleGlobals
      (Buf.ofList [0x02, 0xFE, 0x10, 0x8C, 0x20]) (Buf.ofList [])).1 (by decide) (by decide),
   (select_reply sampleProtocol sampleCipher sampleGlobals
      (Buf.ofList [0x02, 0xFE, 0x10, 0x8C, 0x28]) (Buf.ofList [])).2 (by decide)⟩

/-- C7 (as stated, refuted): for the sample tag, whose configuration page is
C9 00 00 AA, a Select with matching opcode and UID is answered with C9 00 00 FF, not
with the configuration page. -/
theorem select_reply_is_not_page_1 :
    Buf.ofList [0x02, 0xFE, 0x10, 0x8C, 0x20] 0 &&& 0xf8 = sampleProtocol.HITAGS_SELECT ∧
    frame_field (Buf.ofList [0x02, 0xFE, 0x10, 0x8C, 0x20]) 5 32 = sampleGlobals.tag.uid ∧
    (List.range 4).map (sampleGlobals.tag.pages 1) = [0xC9, 0x00, 0x00, 0xAA] ∧
    reply_bytes (hitagS_handle_reader_command sampleProtocol sampleCipher sampleGlobals
        (Buf.ofList [0x02, 0xFE, 0x10, 0x8C, 0x20]) 45 (Buf.ofList [])) 4
      = some ([0xC9, 0x00, 0x00, 0xFF], 32) ∧
    reply_bytes (hitagS_handle_reader_command sampleProtocol sampleCipher sampleGlobals
        (Buf.ofList [0x02, 0xFE, 0x10, 0x8C, 0x20]) 45 (Buf.ofList [])) 4
      ≠ some ((List.range 4).map (sampleGlobals.tag.pages 1), 32) := by
  decide

/-! ### Emulation: authentication challenge (64 bits) -/

theorem crc_shift_spec_lt (crc : Nat) : crc_shift_spec crc < 256 := by
  rw [← calc_crc_body_eq_spec]; exact calc_crc_body_lt crc

theorem calc_crc_8_lt (crc data r : Nat) (h : calc_crc crc data 8 = some r) : r < 256 := by
  unfold calc_crc at h
  rw [calc_crc_loop_eq 256 8 _ (by decide) (by decide) (by decide)] at h
  have h' := Option.some.inj h
  rw [← h', Function.iterate_succ_apply']
  exact crc_shift_spec_lt _

theorem calc_crc_bytes_lt (bytes : List Nat) :
    ∀ crc r, crc < 256 → calc_crc_bytes crc bytes = some r → r < 256 := by
  induction bytes with
  | nil =>
    intro crc r hc h
    simp [calc_crc_bytes] at h
    omega
  | cons d ds ih =>
    intro crc r hc h
    obtain ⟨r1, h1⟩ := calc_crc_8_some crc d
    have h2 : calc_crc_bytes r1 ds = some r := by
      simpa [calc_crc_bytes, List.foldlM_cons, h1] using h
    exact ih r1 r (calc_crc_8_lt crc d r1 h1) h2

theorem xor_mod_256 (k p : Nat) (hk : k < 256) (hp : p < 256) : (k ^^^ p) % 256 = k ^^^ p :=
  Nat.mod_eq_of_lt (Nat.xor_lt_two_pow (n := 8) hk hp)

/-- The reply of the 64-bit case in closed form. -/
theorem handle_challenge_eq {σ : Type} (E : Cipher σ) (g : Globals) (rx tx : Buf) :
    ∃ crc, calc_crc_bytes CRC_PRESET
        [g.tag.pages 1 2, g.tag.pwdh0, g.tag.pwdl0, g.tag.pwdl1] = some crc ∧ crc < 256 ∧
      handle_challenge E g rx tx =
        some (hitagS_set_frame_modulation { g with temp2 := g.temp2 + 1 },
          (if g.tag.mode ≠ .HT_STANDARD then
            fun tx1 =>
              Buf.set tx1 4 ((crc ^^^ keystream E (E.ht2_hitag2_init (E.REV64 g.tag.key)
                (E.REV32 (pack32 (g.tag.pages 0))) (E.REV32 (pack32 rx))) 8) % 256)
          else id)
          (Buf.set (Buf.set (Buf.set (Buf.set tx
            0 ((keystream E (E.ht2_hitag2_init (E.REV64 g.tag.key)
                (E.REV32 (pack32 (g.tag.pages 0))) (E.REV32 (pack32 rx))) 4
                  ^^^ g.tag.pages 1 2) % 256))
            1 ((keystream E (E.ht2_hitag2_init (E.REV64 g.tag.key)
                (E.REV32 (pack32 (g.tag.pages 0))) (E.REV32 (pack32 rx))) 5
                  ^^^ g.tag.pwdh0) % 256))
            2 ((keystream E (E.ht2_hitag2_init (E.REV64 g.tag.key)
                (E.REV32 (pack32 (g.tag.pages 0))) (E.REV32 (pack32 rx))) 6
                  ^^^ g.tag.pwdl0) % 256))
            3 ((keystream E (E.ht2_hitag2_init (E.REV64 g.tag.key)
                (E.REV32 (pack32 (g.tag.pages 0))) (E.REV32 (pack32 rx))) 7
                  ^^^ g.tag.pwdl1) % 256)),
          if g.tag.mode ≠ .HT_STANDARD then 40 else 32) := by
  obtain ⟨crc, hcrc⟩ := calc_crc_bytes_some
    [g.tag.pages 1 2, g.tag.pwdh0, g.tag.pwdl0, g.tag.pwdl1] CRC_PRESET
  refine ⟨crc, hcrc, calc_crc_bytes_lt _ _ _ (by decide) hcrc, ?_⟩
  unfold handle_challenge
  by_cases hm : g.tag.mode = .HT_STANDARD
  · simp [page_eq_some, set_frame_modulation_tag, hm, keystream]
  · simp [page_eq_some, set_frame_modulation_tag, hm, keystream, hcrc]

/-- C8: on a 64-bit frame, with the cipher an opaque pair (init, next_byte) yielding
bytes, the handler returns; with `k` the keystream initialised from `tag.key`, the uid
packed from page 0 and the nonce packed from `rx[0..3]` (each through `REV64`/`REV32`),
the first four keystream bytes are discarded and `tx[0] = k4 XOR pages[1][2]`,
`tx[1] = k5 XOR pwdh0`, `tx[2] = k6 XOR pwdl0`, `tx[3] = k7 XOR pwdl1`; `txlen = 32`
in standard mode, otherwise `txlen = 40` and
`tx[4] = k8 XOR CRC-8(pages[1][2], pwdh0, pwdl0, pwdl1)`. -/
theorem challenge_reply {σ : Type} (c : Protocol) (E : Cipher σ) (g : Globals)
    (rx tx : Buf)
    (hks : ∀ s, (E.ht2_hitag2_byte s).1 < 256)
    (hcon2 : g.tag.pages 1 2 < 256) (hh0 : g.tag.pwdh0 < 256)
    (hl0 : g.tag.pwdl0 < 256) (hl1 : g.tag.pwdl1 < 256) :
    ∃ g1 tx1 txlen, hitagS_handle_reader_command c E g rx 64 tx = some (g1, tx1, txlen) ∧
      tx1 0 = keystream E (E.ht2_hitag2_init (E.REV64 g.tag.key)
        (E.REV32 (pack32 (g.tag.pages 0))) (E.REV32 (pack32 rx))) 4 ^^^ g.tag.pages 1 2 ∧
      tx1 1 = keystream E (E.ht2_hitag2_init (E.REV64 g.tag.key)
        (E.REV32 (pack32 (g.tag.pages 0))) (E.REV32 (pack32 rx))) 5 ^^^ g.tag.pwdh0 ∧
      tx1 2 = keystream E (E.ht2_hitag2_init (E.REV64 g.tag.key)
        (E.REV32 (pack32 (g.tag.pages 0))) (E.REV32 (pack32 rx))) 6 ^^^ g.tag.pwdl0 ∧
      tx1 3 = keystream E (E.ht2_hitag2_init (E.REV64 g.tag.key)
        (E.REV32 (pack32 (g.tag.pages 0))) (E.REV32 (pack32 rx))) 7 ^^^ g.tag.pwdl1 ∧
      (g.tag.mode = .HT_STANDARD → txlen = 32) ∧
      (g.tag.mode ≠ .HT_STANDARD → txlen = 40 ∧
        ∃ crc, calc_crc_bytes CRC_PRESET
            [g.tag.pages 1 2, g.tag.pwdh0, g.tag.pwdl0, g.tag.pwdl1] = some crc ∧
          tx1 4 = keystream E (E.ht2_hitag2_init (E.REV64 g.tag.key)
            (E.REV32 (pack32 (g.tag.pages 0))) (E.REV32 (pack32 rx))) 8 ^^^ crc) := by
  obtain ⟨crc, hcrc, hlt, heq⟩ := handle_challenge_eq E g rx tx
  have hk : ∀ s n, keystream E s n < 256 := fun s n => hks _
  rw [handle_reader_command_64, heq]
  refine ⟨_, _, _, rfl, ?_⟩
  by_cases hm : g.tag.mode = .HT_STANDARD
  · simp [hm, Buf.set, xor_mod_256, hk, hcon2, hh0, hl0, hl1]
  · simp [hm, Buf.set, xor_mod_256, hk, hcon2, hh0, hl0, hl1, hcrc, hlt, Nat.xor_comm]

theorem challenge_reply_witness :
    ∃ g1 tx1 txlen, hitagS_handle_reader_command sampleProtocol sampleCipher sampleGlobals
        (Buf.ofList [0x85, 0x44, 0x12, 0x74, 0, 0, 0, 0]) 64 (Buf.ofList []) =
          some (g1, tx1, txlen) ∧
      tx1 0 = keystream sampleCipher (sampleCipher.ht2_hitag2_init
        (sampleCipher.REV64 sampleGlobals.tag.key)
        (sampleCipher.REV32 (pack32 (sampleGlobals.tag.pages 0)))
        (sampleCipher.REV32 (pack32 (Buf.ofList [0x85, 0x44, 0x12, 0x74, 0, 0, 0, 0])))) 4
          ^^^ sampleGlobals.tag.pages 1 2 ∧
      txlen = 32 := by
  obtain ⟨g1, tx1, txlen, h, h0, _, _, _, hstd, _⟩ :=
    challenge_reply sampleProtocol sampleCipher sampleGlobals
      (Buf.ofList [0x85, 0x44, 0x12, 0x74, 0, 0, 0, 0]) (Buf.ofList [])
      (fun s => Nat.mod_lt _ (by decide)) (by decide) (by decide) (by decide) (by decide)
  exact ⟨g1, tx1, txlen, h, h0, hstd rfl⟩

theorem xor_mod_xor_mod (k p : Nat) (hp : p < 256) : ((k ^^^ p) % 256 ^^^ k) % 256 = p := by
  apply Nat.eq_of_testBit_eq
  intro i
  have h256 : (256 : Nat) = 2 ^ 8 := by norm_num
  rw [h256, Nat.testBit_mod_two_pow, Nat.testBit_xor, Nat.testBit_mod_two_pow,
    Nat.testBit_xor]
  by_cases hi : i < 8
  · simp only [hi, decide_True, Bool.true_and]
    cases k.testBit i <;> cases p.testBit i <;> rfl
  · have : p.testBit i = false := by
      apply Nat.testBit_lt_two_pow
      calc p < 2 ^ 8 := by omega
        _ ≤ 2 ^ i := Nat.pow_le_pow_right (by decide) (by omega)
    simp [hi, this]

/-- C9: mask/unmask symmetry.  For every opaque cipher, when the reader's `init`
arguments (key, uid, nonce, after `REV64`/`REV32`) are identical to the emulator's, the
emulator's 64-bit challenge handler returns a payload `tx[0..3]` from which the
reader-side unmasking of `selectHitagS` (skip 4 keystream bytes, XOR `rx[0..3]` with the
next 4) recovers exactly `pages[1][2]`, `pwdh0`, `pwdl0`, `pwdl1` of the emulated tag. -/
theorem challenge_mask_unmask {σ : Type} (c : Protocol) (E : Cipher σ) (g : Globals)
    (rx tx : Buf) (reader : Globals) (key : Nat)
    (hcon2 : g.tag.pages 1 2 < 256) (hh0 : g.tag.pwdh0 < 256)
    (hl0 : g.tag.pwdl0 < 256) (hl1 : g.tag.pwdl1 < 256)
    (hkey : E.REV64 key = E.REV64 g.tag.key)
    (huid : E.REV32 reader.tag.uid = E.REV32 (pack32 (g.tag.pages 0)))
    (hrnd : E.REV32 reader.rnd = E.REV32 (pack32 rx)) :
    ∃ g1 tx1 txlen, hitagS_handle_reader_command c E g rx 64 tx = some (g1, tx1, txlen) ∧
      ∀ reply : Buf, (∀ i, i < 4 → reply i = tx1 i) →
        (selectHitagS_decrypt E reader key reply).2 = g.tag.pages 1 2 ∧
        (selectHitagS_decrypt E reader key reply).1.pwdh0 = g.tag.pwdh0 ∧
        (selectHitagS_decrypt E reader key reply).1.pwdl0 = g.tag.pwdl0 ∧
        (selectHitagS_decrypt E reader key reply).1.pwdl1 = g.tag.pwdl1 := by
  obtain ⟨crc, hcrc, hlt, heq⟩ := handle_challenge_eq E g rx tx
  rw [handle_reader_command_64, heq]
  refine ⟨_, _, _, rfl, ?_⟩
  intro reply hreply
  have e0 := hreply 0 (by decide)
  have e1 := hreply 1 (by decide)
  have e2 := hreply 2 (by decide)
  have e3 := hreply 3 (by decide)
  by_cases hm : g.tag.mode = .HT_STANDARD
  · simp [hm, Buf.set] at e0 e1 e2 e3
    simp [selectHitagS_decrypt, hkey, huid, hrnd, e0, e1, e2, e3, keystream,
      xor_mod_xor_mod, hcon2, hh0, hl0, hl1]
  · simp [hm, Buf.set] at e0 e1 e2 e3
    simp [selectHitagS_decrypt, hkey, huid, hrnd, e0, e1, e2, e3, keystream,
      xor_mod_xor_mod, hcon2, hh0, hl0, hl1]

theorem challenge_mask_unmask_witness :
    ∃ g1 tx1 txlen, hitagS_handle_reader_command sampleProtocol sampleCipher sampleGlobals
        (Buf.ofList [0x85, 0x44, 0x12, 0x74, 0, 0, 0, 0]) 64 (Buf.ofList []) =
          some (g1, tx1, txlen) ∧
      ∀ reply : Buf, (∀ i, i < 4 → reply i = tx1 i) →
        (selectHitagS_decrypt sampleCipher sampleGlobals sampleGlobals.tag.key reply).2
          = sampleGlobals.tag.pages 1 2 ∧
        (selectHitagS_decrypt sampleCipher sampleGlobals sampleGlobals.tag.key reply).1.pwdh0
          = sampleGlobals.tag.pwdh0 ∧
        (selectHitagS_decrypt sampleCipher sampleGlobals sampleGlobals.tag.key reply).1.pwdl0
          = sampleGlobals.tag.pwdl0 ∧
        (selectHitagS_decrypt sampleCipher sampleGlobals sampleGlobals.tag.key reply).1.pwdl1
          = sampleGlobals.tag.pwdl1 :=
  challenge_mask_unmask sampleProtocol sampleCipher sampleGlobals
    (Buf.ofList [0x85, 0x44, 0x12, 0x74, 0, 0, 0, 0]) (Buf.ofList []) sampleGlobals
    sampleGlobals.tag.key (by decide) (by decide) (by decide) (by decide) rfl
    (by decide) (by decide)

/-! ### Emulation: page commands (20 bits) and write data (40 bits) -/

theorem and_0xf0_div_16 (x : Nat) : (x &&& 0xf0) / 16 = x / 16 % 16 := by
  have h1 : (x &&& 0xf0) / 16 = (x &&& 0xf0) >>> 4 := by
    rw [Nat.shiftRight_eq_div_pow]
  have h3 : x / 16 % 16 = (x >>> 4) &&& (2 ^ 4 - 1) := by
    rw [Nat.and_pow_two_sub_one_eq_mod, Nat.shiftRight_eq_div_pow]
  rw [h1, h3]
  apply Nat.eq_of_testBit_eq
  intro i
  simp only [Nat.testBit_shiftRight, Nat.testBit_and, Nat.testBit_two_pow_sub_one]
  have : (0xf0 : Nat) = 15 <<< 4 := by decide
  rw [this, Nat.testBit_shiftLeft]
  have h15 : (15 : Nat) = 2 ^ 4 - 1 := by decide
  rw [h15, Nat.testBit_two_pow_sub_one]
  simp

theorem and_0x0f_eq (x : Nat) : x &&& 0x0f = x % 16 := by
  have h : (0x0f : Nat) = 2 ^ 4 - 1 := by norm_num
  rw [h, Nat.and_pow_two_sub_one_eq_mod]

theorem frame_bit_eq (b : Buf) (p : Nat) : frame_bit b p = b (p / 8) / 2 ^ (7 - p % 8) % 2 := by
  unfold frame_bit
  rw [Nat.testBit_to_div_mod]
  rcases Nat.mod_two_eq_zero_or_one (b (p / 8) / 2 ^ (7 - p % 8)) with h | h <;> simp [h]

/-- The address decoding of the 20-bit commands reads the 8-bit field at frame bits
4..11. -/
theorem page_address_eq_frame_field (rx : Buf) (h1 : rx 1 < 256) :
    page_address rx = frame_field rx 4 8 := by
  unfold page_address
  rw [and_0x0f_eq, and_0xf0_div_16]
  simp only [frame_field, frame_bit_eq]
  norm_num
  omega

/-- An accepted Write-page command. -/
theorem handle_write_page_accept (c : Protocol) (g : Globals) (rx tx : Buf)
    (hrp : rx 0 &&& 0xf0 ≠ c.HITAGS_READ_PAGE) (hrb : rx 0 &&& 0xf0 ≠ c.HITAGS_READ_BLOCK)
    (hwp : rx 0 &&& 0xf0 = c.HITAGS_WRITE_PAGE)
    (hok : ¬ ((g.tag.LCON = true ∧ page_address rx = 1) ∨
      (g.tag.LKP = true ∧ (page_address rx = 2 ∨ page_address rx = 3)))) :
    handle_page_command c g rx tx =
      some ({ g with page_to_be_written := page_address rx,
                     tag := { g.tag with tstate := .HT_WRITING_PAGE_DATA } },
        Buf.set tx 0 0x40, 2) := by
  unfold handle_page_command
  rw [if_neg hrp, if_neg hrb, if_pos hwp]
  simp only [if_neg hok]

/-- A 40-bit data frame received while a page write is pending. -/
theorem handle_write_data_page (g : Globals) (rx tx : Buf)
    (hts : g.tag.tstate = .HT_WRITING_PAGE_DATA) (hp : g.page_to_be_written < 64) :
    handle_write_data g rx tx =
      some (hitagS_set_frame_modulation
        { g with
          tag := { g.tag with
            tstate := .HT_NO_OP,
            pages := fun q j =>
              if q = g.page_to_be_written ∧ j < 4 then rx j else g.tag.pages q j },
          page_to_be_written := 0 },
        Buf.set tx 0 0x40, 2) := by
  unfold handle_write_data
  rw [if_pos hts]
  simp [hitagS_tag.store_page, HITAGS_MAX_PAGES, hp]

/-- A Read-page command on a tag whose key pages are not locked. -/
theorem handle_read_page_unlocked (c : Protocol) (g : Globals) (rx tx : Buf)
    (hrp : rx 0 &&& 0xf0 = c.HITAGS_READ_PAGE) (hp : page_address rx < 64)
    (hLKP : g.tag.LKP = false) :
    ∃ tx1 txlen, handle_page_command c g rx tx =
        some (hitagS_set_frame_modulation g, tx1, txlen) ∧
      (∀ j, j < 4 → tx1 j = g.tag.pages (page_address rx) j) ∧
      (g.tag.mode = .HT_STANDARD → txlen = 32) ∧
      (g.tag.mode ≠ .HT_STANDARD → txlen = 40 ∧
        calc_crc_bytes CRC_PRESET [tx1 0, tx1 1, tx1 2, tx1 3] = some (tx1 4)) := by
  unfold handle_page_command
  rw [if_pos hrp]
  obtain ⟨crc, hcrc⟩ := calc_crc_bytes_some
    [g.tag.pages (page_address rx) 0, g.tag.pages (page_address rx) 1,
     g.tag.pages (page_address rx) 2, g.tag.pages (page_address rx) 3] CRC_PRESET
  by_cases hm : g.tag.mode = .HT_STANDARD
  · simp [page_eq_some, hp, hLKP, set_frame_modulation_tag, hm]
    intro j hj
    interval_cases j <;> simp [Buf.set]
  · simp [page_eq_some, hp, hLKP, set_frame_modulation_tag, hm, Buf.set, hcrc]
    refine ⟨_, _, ⟨rfl, rfl⟩, ?_, rfl, ?_⟩
    · intro j hj
      interval_cases j <;> simp [Buf.set]
    · simp [Buf.set, hcrc]

/-- C10: write/read round trip in emulation.  For a tag with `LCON = 0` and `LKP = 0`,
every page index `p < 64` and every data frame: a 20-bit Write-page frame whose 8-bit
address field (frame bits 4..11) is `p` gets the 2-bit ack (`txlen = 2`,
`tx[0] = 0x40`); the following 40-bit data frame gets the same ack and returns the write
sub-state to `HT_NO_OP`; a subsequent 20-bit Read-page frame for `p` is answered
(`txlen` 32 or 40 by mode) with `tx[0..3]` the four data bytes of the data frame. -/
theorem write_read_round_trip {σ : Type} (c : Protocol) (E : Cipher σ) (g : Globals)
    (write_cmd data read_cmd : Buf) (tx0 tx0a tx0b : Buf) (p : Nat)
    (hp : p < 64) (hLCON : g.tag.LCON = false) (hLKP : g.tag.LKP = false)
    (hd1 : c.HITAGS_WRITE_PAGE ≠ c.HITAGS_READ_PAGE)
    (hd2 : c.HITAGS_WRITE_PAGE ≠ c.HITAGS_READ_BLOCK)
    (hw : write_cmd 0 &&& 0xf0 = c.HITAGS_WRITE_PAGE) (hwb : write_cmd 1 < 256)
    (hwa : frame_field write_cmd 4 8 = p)
    (hr : read_cmd 0 &&& 0xf0 = c.HITAGS_READ_PAGE) (hrb : read_cmd 1 < 256)
    (hra : frame_field read_cmd 4 8 = p) :
    ∃ g1 tx1 g2 tx2 g3 tx3 txlen3,
      hitagS_handle_reader_command c E g write_cmd 20 tx0 = some (g1, tx1, 2) ∧
      tx1 0 = 0x40 ∧
      hitagS_handle_reader_command c E g1 data 40 tx0a = some (g2, tx2, 2) ∧
      tx2 0 = 0x40 ∧ g2.tag.tstate = .HT_NO_OP ∧
      hitagS_handle_reader_command c E g2 read_cmd 20 tx0b = some (g3, tx3, txlen3) ∧
      (txlen3 = 32 ∨ txlen3 = 40) ∧
      tx3 0 = data 0 ∧ tx3 1 = data 1 ∧ tx3 2 = data 2 ∧ tx3 3 = data 3 := by
  have hwa1 : page_address write_cmd = p := by
    rw [page_address_eq_frame_field _ hwb, hwa]
  have hra1 : page_address read_cmd = p := by
    rw [page_address_eq_frame_field _ hrb, hra]
  have h1 := handle_write_page_accept c g write_cmd tx0 (by rw [hw]; exact hd1)
    (by rw [hw]; exact hd2) hw (by simp [hLCON, hLKP])
  rw [hwa1] at h1
  have h2 := handle_write_data_page
    { g with page_to_be_written := p,
             tag := { g.tag with tstate := .HT_WRITING_PAGE_DATA } } data tx0a rfl hp
  obtain ⟨tx3, txlen3, h3, hdata, hstd, hnstd⟩ := handle_read_page_unlocked c _ read_cmd tx0b
    hr (by rw [hra1]; exact hp)
    (show (hitagS_set_frame_modulation
      { tag := { g.tag with
          tstate := .HT_NO_OP,
          pages := fun q j => if q = p ∧ j < 4 then data j else g.tag.pages q j },
        page_to_be_written := 0, block_data_left := g.block_data_left, m := g.m,
        temp_uid := g.temp_uid, temp2 := g.temp2, sof_bits := g.sof_bits,
        pwdh0 := g.pwdh0, pwdl0 := g.pwdl0, pwdl1 := g.pwdl1, rnd := g.rnd }).tag.LKP = false by
      rw [set_frame_modulation_tag]; exact hLKP)
  simp only [handle_reader_command_20, handle_reader_command_40]
  rw [h1]
  refine ⟨_, _, _, _, _, tx3, txlen3, rfl, Buf.set_same _ _ _, h2, Buf.set_same _ _ _, ?_,
    h3, ?_, ?_, ?_, ?_, ?_⟩
  · rw [set_frame_modulation_tag]
  · by_cases hm : (hitagS_set_frame_modulation
      { tag := { g.tag with
          tstate := .HT_NO_OP,
          pages := fun q j => if q = p ∧ j < 4 then data j else g.tag.pages q j },
        page_to_be_written := 0, block_data_left := g.block_data_left, m := g.m,
        temp_uid := g.temp_uid, temp2 := g.temp2, sof_bits := g.sof_bits,
        pwdh0 := g.pwdh0, pwdl0 := g.pwdl0, pwdl1 := g.pwdl1, rnd := g.rnd }).tag.mode
          = .HT_STANDARD
    · exact Or.inl (hstd hm)
    · exact Or.inr (hnstd hm).1
  · rw [hdata 0 (by decide), set_frame_modulation_tag, hra1]; simp
  · rw [hdata 1 (by decide), set_frame_modulation_tag, hra1]; simp
  · rw [hdata 2 (by decide), set_frame_modulation_tag, hra1]; simp
  · rw [hdata 3 (by decide), set_frame_modulation_tag, hra1]; simp

theorem write_read_round_trip_witness :
    ∃ g1 tx1 g2 tx2 g3 tx3 txlen3,
      hitagS_handle_reader_command sampleProtocol sampleCipher sampleGlobals
        (Buf.ofList [0x80, 0x50, 0x00]) 20 (Buf.ofList []) = some (g1, tx1, 2) ∧
      tx1 0 = 0x40 ∧
      hitagS_handle_reader_command sampleProtocol sampleCipher g1
        (Buf.ofList [0x11, 0x22, 0x33, 0x44, 0x00]) 40 (Buf.ofList []) = some (g2, tx2, 2) ∧
      tx2 0 = 0x40 ∧ g2.tag.tstate = .HT_NO_OP ∧
      hitagS_handle_reader_command sampleProtocol sampleCipher g2
        (Buf.ofList [0xC0, 0x50, 0x00]) 20 (Buf.ofList []) = some (g3, tx3, txlen3) ∧
      (txlen3 = 32 ∨ txlen3 = 40) ∧
      tx3 0 = 0x11 ∧ tx3 1 = 0x22 ∧ tx3 2 = 0x33 ∧ tx3 3 = 0x44 :=
  write_read_round_trip sampleProtocol sampleCipher sampleGlobals
    (Buf.ofList [0x80, 0x50, 0x00]) (Buf.ofList [0x11, 0x22, 0x33, 0x44, 0x00])
    (Buf.ofList [0xC0, 0x50, 0x00]) (Buf.ofList []) (Buf.ofList []) (Buf.ofList []) 5
    (by decide) rfl rfl (by decide) (by decide) (by decide) (by decide) (by decide)
    (by decide) (by decide) (by decide)

/-! ### Bit-frame buffer: `concatbits` -/

/-- Two frame bits agree exactly when the underlying `testBit`s agree. -/
theorem frame_bit_eq_iff (b1 b2 : Buf) (p q : Nat) :
    frame_bit b1 p = frame_bit b2 q ↔
      (b1 (p / 8)).testBit (7 - p % 8) = (b2 (q / 8)).testBit (7 - q % 8) := by
  unfold frame_bit
  cases (b1 (p / 8)).testBit (7 - p % 8) <;> cases (b2 (q / 8)).testBit (7 - q % 8) <;> simp

theorem concatbits_mask (r : Nat) (hr : r < 8) :
    0xFF - ((1 <<< (7 - r + 1)) - 1) = (2 ^ r - 1) <<< (8 - r) := by
  interval_cases r <;> rfl

theorem concatbits_mask_testBit (B r k : Nat) (hr : r < 8) :
    (B &&& (0xFF - ((1 <<< (7 - r + 1)) - 1))).testBit k =
      (B.testBit k && decide (8 - r ≤ k ∧ k < 8)) := by
  rw [concatbits_mask r hr, Nat.testBit_and, Nat.testBit_shiftLeft,
    Nat.testBit_two_pow_sub_one]
  congr 1
  by_cases h1 : 8 - r ≤ k <;> by_cases h2 : k < 8 <;> simp [h1, h2] <;> omega

theorem concatbits_zero_loop (n : Nat) : ∀ (s : Nat) (d : Buf) (j : Nat),
    (List.range' s n).foldl (fun d i => Buf.set d i 0) d j =
      if s ≤ j ∧ j < s + n then 0 else d j := by
  induction n with
  | zero =>
    intro s d j
    have h : ¬ (s ≤ j ∧ j < s + 0) := by omega
    rw [if_neg h]
    rfl
  | succ n ih =>
    intro s d j
    rw [List.range'_succ, List.foldl_cons, ih]
    by_cases h1 : j = s
    · subst h1; simp [Buf.set]
    · have h2 : (s + 1 ≤ j ∧ j < s + 1 + n) ↔ (s ≤ j ∧ j < s + (n + 1)) := by omega
      simp only [h2, Buf.set, if_neg h1]

theorem one_bit_shiftLeft_testBit (x a k m : Nat) :
    (((x >>> a) &&& 1) <<< k).testBit m = (decide (m = k) && x.testBit a) := by
  rw [Nat.testBit_shiftLeft, shiftRight_and_one]
  by_cases h : m = k
  · subst h
    by_cases hx : x.testBit a = true <;> simp [hx]
  · by_cases hge : m ≥ k
    · have : m - k ≠ 0 := by omega
      obtain ⟨t, ht⟩ : ∃ t, m - k = t + 1 := ⟨m - k - 1, by omega⟩
      by_cases hx : x.testBit a = true <;> simp [hx, h, hge, ht, Nat.testBit_succ]
    · simp [h, hge]

/-- Invariant of the copy loop of `concatbits` after `n` rounds. -/
theorem concatbits_copy_loop (dstskip : Nat) (src : Buf) (srcstart : Nat) (d1 : Buf) :
    ∀ n p, ((List.range n).foldl
      (fun d i => Buf.set d ((dstskip + i) / 8)
        (d ((dstskip + i) / 8) |||
          (((src ((srcstart + i) / 8) >>> (7 - ((srcstart + i) % 8))) &&& 1)
            <<< (7 - ((dstskip + i) % 8))))) d1 (p / 8)).testBit (7 - p % 8) =
      ((d1 (p / 8)).testBit (7 - p % 8) ||
        (decide (dstskip ≤ p ∧ p < dstskip + n) &&
          (src ((srcstart + (p - dstskip)) / 8)).testBit
            (7 - (srcstart + (p - dstskip)) % 8))) := by
  intro n
  induction n with
  | zero => intro p; simp
  | succ n ih =>
    intro p
    rw [List.range_succ, List.foldl_append]
    simp only [List.foldl]
    by_cases hb : p / 8 = (dstskip + n) / 8
    · rw [hb, Buf.set_same, Nat.testBit_or, ← hb, ih p, one_bit_shiftLeft_testBit]
      by_cases hp : p = dstskip + n
      · subst hp
        simp
      · have h1 : ¬ (7 - p % 8 = 7 - (dstskip + n) % 8) := by omega
        have h2 : (dstskip ≤ p ∧ p < dstskip + (n + 1)) ↔ (dstskip ≤ p ∧ p < dstskip + n) := by
          omega
        simp [h1, h2]
    · rw [Buf.set_ne _ _ _ _ hb, ih p]
      have h2 : (dstskip ≤ p ∧ p < dstskip + (n + 1)) ↔ (dstskip ≤ p ∧ p < dstskip + n) := by
        omega
      simp only [h2]

/-- After the clearing steps of `concatbits` every bit from `dstskip` up to the end of
byte `(dstskip + srclen) / 8` is zero, and the bits before `dstskip` are kept. -/
theorem concatbits_clear (dst : Buf) (dstskip srclen p : Nat) :
    ((List.range' (dstskip / 8 + 1) ((dstskip + srclen) / 8 - dstskip / 8)).foldl
      (fun d i => Buf.set d i 0)
      (Buf.set dst (dstskip / 8)
        (dst (dstskip / 8) &&& (0xFF - ((1 <<< (7 - (dstskip % 8) + 1)) - 1))))
      (p / 8)).testBit (7 - p % 8) =
    (decide (p < dstskip ∨ (dstskip + srclen) / 8 < p / 8) &&
      (dst (p / 8)).testBit (7 - p % 8)) := by
  rw [concatbits_zero_loop]
  by_cases hz : dstskip / 8 + 1 ≤ p / 8 ∧
      p / 8 < dstskip / 8 + 1 + ((dstskip + srclen) / 8 - dstskip / 8)
  · rw [if_pos hz]
    have : ¬ (p < dstskip ∨ (dstskip + srclen) / 8 < p / 8) := by omega
    simp [this]
  · rw [if_neg hz]
    by_cases hb : p / 8 = dstskip / 8
    · rw [hb, Buf.set_same, concatbits_mask_testBit _ _ _ (Nat.mod_lt _ (by decide)),
        Bool.and_comm]
      congr 1
      have : (8 - dstskip % 8 ≤ 7 - p % 8 ∧ 7 - p % 8 < 8) ↔
          (p < dstskip ∨ (dstskip + srclen) / 8 < dstskip / 8) := by omega
      simp only [this]
    · rw [Buf.set_ne _ _ _ _ hb]
      have : (p < dstskip ∨ (dstskip + srclen) / 8 < p / 8) := by omega
      simp [this]

/-- Every bit of the destination after `concatbits`: kept before `dstskip` and beyond
byte `(dstskip + srclen) / 8`, copied from the source inside the field, zero elsewhere. -/
theorem concatbits_testBit (dst : Buf) (dstskip : Nat) (src : Buf) (srcstart srclen p : Nat) :
    ((concatbits dst dstskip src srcstart srclen).1 (p / 8)).testBit (7 - p % 8) =
      if dstskip ≤ p ∧ p < dstskip + srclen then
        (src ((srcstart + (p - dstskip)) / 8)).testBit (7 - (srcstart + (p - dstskip)) % 8)
      else
        (decide (p < dstskip ∨ (dstskip + srclen) / 8 < p / 8) &&
          (dst (p / 8)).testBit (7 - p % 8)) := by
  unfold concatbits
  simp only
  rw [concatbits_copy_loop, concatbits_clear]
  by_cases h : dstskip ≤ p ∧ p < dstskip + srclen
  · have h2 : ¬ (p < dstskip ∨ (dstskip + srclen) / 8 < p / 8) := by omega
    simp [h, h2]
  · simp [h]

/-- C3: round trip of `concatbits`.  For every destination, offsets and length (the
lengths 1..64 included), after `concatbits(dst, dstskip, src, srcstart, srclen)` bit
`dstskip + i` of `dst` (MSB first within each byte) equals bit `srcstart + i` of `src`
for every `i < srclen`, and the returned offset is `dstskip + srclen`. -/
theorem concatbits_round_trip (dst : Buf) (dstskip : Nat) (src : Buf)
    (srcstart srclen : Nat) :
    (∀ i, i < srclen →
      frame_bit (concatbits dst dstskip src srcstart srclen).1 (dstskip + i) =
        frame_bit src (srcstart + i)) ∧
    (concatbits dst dstskip src srcstart srclen).2 = dstskip + srclen := by
  refine ⟨?_, rfl⟩
  intro i hi
  rw [frame_bit_eq_iff, concatbits_testBit, if_pos (by omega)]
  simp

theorem concatbits_round_trip_witness :
    frame_bit (concatbits (fun _ => 0xFF) 5 (Buf.ofList [0xAB, 0xCD]) 2 9).1 (5 + 7) =
      frame_bit (Buf.ofList [0xAB, 0xCD]) (2 + 7) :=
  (concatbits_round_trip (fun _ => 0xFF) 5 (Buf.ofList [0xAB, 0xCD]) 2 9).1 7 (by decide)

/-- C4: no stale destination bits survive `concatbits`.  For every destination content
and `srclen ≥ 1`, every bit of `dst` at a position `p` with
`dstskip + srclen ≤ p < 8 * ((dstskip + srclen - 1) / 8 + 1)` (the rest of the last
byte that received a copied bit) is 0 afterwards. -/
theorem concatbits_no_stale_bits (dst : Buf) (dstskip : Nat) (src : Buf)
    (srcstart srclen p : Nat) (hlen : 1 ≤ srclen) (hlo : dstskip + srclen ≤ p)
    (hhi : p < 8 * ((dstskip + srclen - 1) / 8 + 1)) :
    frame_bit (concatbits dst dstskip src srcstart srclen).1 p = 0 := by
  have h := concatbits_testBit dst dstskip src srcstart srclen p
  rw [if_neg (by omega)] at h
  have h2 : ¬ (p < dstskip ∨ (dstskip + srclen) / 8 < p / 8) := by omega
  simp only [h2, decide_False, Bool.false_and] at h
  unfold frame_bit
  rw [h]
  rfl

theorem concatbits_no_stale_bits_witness :
    frame_bit (concatbits (fun _ => 0xFF) 5 (Buf.ofList [0xAB, 0xCD]) 2 9).1 15 = 0 :=
  concatbits_no_stale_bits (fun _ => 0xFF) 5 (Buf.ofList [0xAB, 0xCD]) 2 9 15
    (by decide) (by decide) (by decide)

/-! ### Emulation: Read-page policy -/

/-- The Read-page branch in closed form, for a page inside the array: `T0` is `tx` after
the four data bytes, `T1` after the substitution under `LKP`, `crc` the CRC-8 of its
first four bytes. -/
theorem handle_read_page_eq (c : Protocol) (g : Globals) (rx tx : Buf)
    (hrp : rx 0 &&& 0xf0 = c.HITAGS_READ_PAGE) (hp : page_address rx < 64)
    (T0 T1 : Buf) (crc : Nat)
    (hT0 : T0 = Buf.set (Buf.set (Buf.set (Buf.set tx 0 (g.tag.pages (page_address rx) 0))
      1 (g.tag.pages (page_address rx) 1)) 2 (g.tag.pages (page_address rx) 2))
      3 (g.tag.pages (page_address rx) 3))
    (hT1 : T1 = if g.tag.LKP = true ∧ page_address rx = 1 then Buf.set T0 3 0xFF else T0)
    (hcrc : calc_crc_bytes CRC_PRESET [T1 0, T1 1, T1 2, T1 3] = some crc) :
    handle_page_command c g rx tx =
      some (
        if g.tag.LKP = true ∧ (page_address rx = 2 ∨ page_address rx = 3) then
          { hitagS_set_frame_modulation g with sof_bits := 0 }
        else hitagS_set_frame_modulation g,
        if g.tag.mode ≠ .HT_STANDARD then Buf.set T1 4 crc else T1,
        if g.tag.LKP = true ∧ (page_address rx = 2 ∨ page_address rx = 3) then 0
        else if g.tag.mode ≠ .HT_STANDARD then 40 else 32) := by
  unfold handle_page_command
  rw [if_pos hrp]
  generalize page_address rx = q at hp hT0 hT1 hcrc ⊢
  subst hT0
  by_cases hm : g.tag.mode = .HT_STANDARD <;>
  rcases Bool.eq_false_or_eq_true g.tag.LKP with hL | hL <;>
  by_cases h1 : q = 1 <;> by_cases h2 : q = 2 <;> by_cases h3 : q = 3 <;>
  first
  | (exfalso; omega)
  | (simp only [hL, h1, h2, h3, true_and, false_and, if_true, if_false, or_self, or_true,
      true_or, OfNat.ofNat_ne_one, OfNat.one_ne_ofNat, reduceCtorEq] at hT1
     subst hT1
     simp [page_eq_some, hp, hL, h1, h2, h3, set_frame_modulation_tag, hm, hcrc])

/-- C11: emulation Read-page policy.  For a 20-bit Read-page frame whose address field is
`p`, a page of the tag memory (`p < 64`), the handler returns with
`tx[0..2] = pages[p][0..2]` and `tx[3] = pages[p][3]`, replaced by 0xFF when `LKP` is
set and `p = 1`; when `LKP` is set and `p` is 2 or 3 (so for any tag with `auth = 1`
and `LKP = 1`) `txlen = 0`; otherwise `txlen = 32` in standard mode and `txlen = 40`
with `tx[4]` the CRC-8 of `tx[0..3]` in the other modes. -/
theorem read_page_policy {σ : Type} (c : Protocol) (E : Cipher σ) (g : Globals)
    (rx tx : Buf) (p : Nat)
    (hop : rx 0 &&& 0xf0 = c.HITAGS_READ_PAGE) (hb : rx 1 < 256)
    (ha : frame_field rx 4 8 = p) (hp : p < 64) :
    ∃ g1 tx1 txlen, hitagS_handle_reader_command c E g rx 20 tx = some (g1, tx1, txlen) ∧
      tx1 0 = g.tag.pages p 0 ∧ tx1 1 = g.tag.pages p 1 ∧ tx1 2 = g.tag.pages p 2 ∧
      tx1 3 = (if g.tag.LKP = true ∧ p = 1 then 0xFF else g.tag.pages p 3) ∧
      (g.tag.LKP = true ∧ (p = 2 ∨ p = 3) → txlen = 0) ∧
      (¬ (g.tag.LKP = true ∧ (p = 2 ∨ p = 3)) →
        (g.tag.mode = .HT_STANDARD → txlen = 32) ∧
        (g.tag.mode ≠ .HT_STANDARD → txlen = 40 ∧
          calc_crc_bytes CRC_PRESET [tx1 0, tx1 1, tx1 2, tx1 3] = some (tx1 4))) := by
  have hpa : page_address rx = p := by rw [page_address_eq_frame_field _ hb, ha]
  obtain ⟨crc, hcrc⟩ := calc_crc_bytes_some
    [g.tag.pages p 0, g.tag.pages p 1, g.tag.pages p 2,
      if g.tag.LKP = true ∧ p = 1 then 0xFF else g.tag.pages p 3] CRC_PRESET
  have heq := handle_read_page_eq c g rx tx hop (by rw [hpa]; exact hp) _ _ crc rfl rfl
    (by
      rw [hpa]
      by_cases h1 : g.tag.LKP = true ∧ p = 1
      · simpa [h1, Buf.set] using hcrc
      · simpa [h1, Buf.set] using hcrc)
  rw [handle_reader_command_20, heq, hpa]
  refine ⟨_, _, _, rfl, ?_, ?_, ?_, ?_, ?_, ?_⟩
  · split_ifs <;> simp [Buf.set]
  · split_ifs <;> simp [Buf.set]
  · split_ifs <;> simp [Buf.set]
  · split_ifs <;> simp [Buf.set]
  · intro h; rw [if_pos h]
  · intro h
    rw [if_neg h]
    refine ⟨fun hm => by simp [hm], fun hm => ⟨by simp [hm], ?_⟩⟩
    by_cases h1 : g.tag.LKP = true ∧ p = 1
    · simpa [h1, hm, Buf.set] using hcrc
    · simpa [h1, hm, Buf.set] using hcrc

theorem read_page_policy_witness :
    ∃ g1 tx1 txlen, hitagS_handle_reader_command sampleProtocol sampleCipher lockedGlobals
        (Buf.ofList [0xC0, 0x10, 0x00]) 20 (Buf.ofList []) = some (g1, tx1, txlen) ∧
      tx1 0 = 0xC9 ∧ tx1 1 = 0x00 ∧ tx1 2 = 0x00 ∧ tx1 3 = 0xFF ∧ txlen = 32 := by
  obtain ⟨g1, tx1, txlen, h, h0, h1, h2, h3, _, hlen⟩ :=
    read_page_policy sampleProtocol sampleCipher lockedGlobals
      (Buf.ofList [0xC0, 0x10, 0x00]) (Buf.ofList []) 1 (by decide) (by decide) (by decide)
      (by decide)
  exact ⟨g1, tx1, txlen, h, h0, h1, h2, h3, (hlen (by decide)).1 rfl⟩

/-! ### Emulation: Read-block -/

/-- The Read-block branch in closed form, when all sixteen page reads stay inside the
array: `T0` is `tx` after the sixteen data bytes, `crc` the CRC-8 of them. -/
theorem handle_read_block_eq (c : Protocol) (g : Globals) (rx tx : Buf)
    (hnrp : rx 0 &&& 0xf0 ≠ c.HITAGS_READ_PAGE)
    (hrb : rx 0 &&& 0xf0 = c.HITAGS_READ_BLOCK) (hp : page_address rx + 15 < 64)
    (T0 : Buf) (crc : Nat)
    (hT0 : T0 = [0, 1, 2, 3].foldl (fun t i =>
      Buf.set (Buf.set (Buf.set (Buf.set t
        (0 + i * 4) (g.tag.pages (page_address rx + 0 + i * 4) 0))
        (1 + i * 4) (g.tag.pages (page_address rx + 1 + i * 4) 1))
        (2 + i * 4) (g.tag.pages (page_address rx + 2 + i * 4) 2))
        (3 + i * 4) (g.tag.pages (page_address rx + 3 + i * 4) 3)) tx)
    (hcrc : calc_crc_bytes CRC_PRESET ((List.range 16).map T0) = some crc) :
    handle_page_command c g rx tx =
      some (
        if page_address rx % 4 ≠ 0 ∨ (g.tag.LKP = true ∧ page_address rx = 0) then
          { hitagS_set_frame_modulation g with sof_bits := 0 }
        else hitagS_set_frame_modulation g,
        if g.tag.mode ≠ .HT_STANDARD then Buf.set T0 16 crc else T0,
        if page_address rx % 4 ≠ 0 ∨ (g.tag.LKP = true ∧ page_address rx = 0) then 0
        else if g.tag.mode ≠ .HT_STANDARD then 32 * 4 + 8 else 32 * 4) := by
  unfold handle_page_command
  rw [if_neg hnrp, if_pos hrb]
  generalize page_address rx = q at hp hT0 hcrc ⊢
  have hfold : [0, 1, 2, 3].foldlM
      (fun tx i => do
        let b0 ← g.tag.page (q + 0 + i * 4) 0
        let tx := Buf.set tx (0 + i * 4) b0
        let b1 ← g.tag.page (q + 1 + i * 4) 1
        let tx := Buf.set tx (1 + i * 4) b1
        let b2 ← g.tag.page (q + 2 + i * 4) 2
        let tx := Buf.set tx (2 + i * 4) b2
        let b3 ← g.tag.page (q + 3 + i * 4) 3
        pure (Buf.set tx (3 + i * 4) b3)) tx = some T0 := by
    subst hT0
    simp (disch := omega) [page_eq_some]
  simp only [hfold]
  by_cases hm : g.tag.mode = .HT_STANDARD <;>
  by_cases hs : q % 4 ≠ 0 ∨ (g.tag.LKP = true ∧ q = 0) <;>
  simp [set_frame_modulation_tag, hm, hs, hcrc]

/-- The data bytes written by the Read-block loop: byte `j + 4 i` of the reply is byte `j`
of page `page + j + 4 i`. -/
theorem read_block_data_bytes (pages : Nat → Nat → Nat) (q : Nat) (tx : Buf) (i j : Nat)
    (hi : i < 4) (hj : j < 4) :
    ([0, 1, 2, 3].foldl (fun t i =>
      Buf.set (Buf.set (Buf.set (Buf.set t
        (0 + i * 4) (pages (q + 0 + i * 4) 0))
        (1 + i * 4) (pages (q + 1 + i * 4) 1))
        (2 + i * 4) (pages (q + 2 + i * 4) 2))
        (3 + i * 4) (pages (q + 3 + i * 4) 3)) tx) (j + i * 4) =
      pages (q + j + i * 4) j := by
  interval_cases i <;> interval_cases j <;> simp [List.foldl, Buf.set]

theorem map_range_set_16 (T : Buf) (crc : Nat) :
    (List.range 16).map (Buf.set T 16 crc) = (List.range 16).map T := by
  apply List.map_congr_left
  intro k hk
  have : k ≠ 16 := by
    have := List.mem_range.1 hk
    omega
  simp [Buf.set, this]

/-- C13: emulation Read-block validity.  For a 20-bit Read-block frame whose address
field is `p`, with the sixteen page reads of the branch inside the tag memory
(`p + 15 < 64`), the handler returns and the reply is suppressed (`txlen = 0`) if and
only if `p` is not a multiple of 4 or (`LKP` is set and `p = 0`); otherwise
`txlen = 128` in standard mode and `txlen = 136` with `tx[16]` the CRC-8 of
`tx[0..15]` in the other modes. -/
theorem read_block_validity {σ : Type} (c : Protocol) (E : Cipher σ) (g : Globals)
    (rx tx : Buf) (p : Nat)
    (hne : c.HITAGS_READ_BLOCK ≠ c.HITAGS_READ_PAGE)
    (hop : rx 0 &&& 0xf0 = c.HITAGS_READ_BLOCK) (hb : rx 1 < 256)
    (ha : frame_field rx 4 8 = p) (hp : p + 15 < 64) :
    ∃ g1 tx1 txlen, hitagS_handle_reader_command c E g rx 20 tx = some (g1, tx1, txlen) ∧
      (txlen = 0 ↔ (p % 4 ≠ 0 ∨ (g.tag.LKP = true ∧ p = 0))) ∧
      (¬ (p % 4 ≠ 0 ∨ (g.tag.LKP = true ∧ p = 0)) →
        (g.tag.mode = .HT_STANDARD → txlen = 128) ∧
        (g.tag.mode ≠ .HT_STANDARD → txlen = 136 ∧
          calc_crc_bytes CRC_PRESET ((List.range 16).map tx1) = some (tx1 16))) := by
  have hpa : page_address rx = p := by rw [page_address_eq_frame_field _ hb, ha]
  subst hpa
  obtain ⟨crc, hcrc⟩ := calc_crc_bytes_some ((List.range 16).map
    ([0, 1, 2, 3].foldl (fun t i =>
      Buf.set (Buf.set (Buf.set (Buf.set t
        (0 + i * 4) (g.tag.pages (page_address rx + 0 + i * 4) 0))
        (1 + i * 4) (g.tag.pages (page_address rx + 1 + i * 4) 1))
        (2 + i * 4) (g.tag.pages (page_address rx + 2 + i * 4) 2))
        (3 + i * 4) (g.tag.pages (page_address rx + 3 + i * 4) 3)) tx)) CRC_PRESET
  have heq := handle_read_block_eq c g rx tx (by rw [hop]; exact hne) hop hp _ crc rfl hcrc
  rw [handle_reader_command_20, heq]
  refine ⟨_, _, _, rfl, ?_, ?_⟩
  · by_cases hs : page_address rx % 4 ≠ 0 ∨ (g.tag.LKP = true ∧ page_address rx = 0)
    · simp [hs]
    · rw [if_neg hs]
      by_cases hm : g.tag.mode = .HT_STANDARD <;> simp [hm, hs]
  · intro hs
    rw [if_neg hs]
    refine ⟨fun hm => by simp [hm], fun hm => ⟨by simp [hm], ?_⟩⟩
    rw [if_pos hm, map_range_set_16, hcrc, Buf.set_same]

theorem read_block_validity_witness :
    ∃ g1 tx1 txlen, hitagS_handle_reader_command sampleProtocol sampleCipher rampGlobals
        (Buf.ofList [0xD0, 0x40, 0x00]) 20 (Buf.ofList []) = some (g1, tx1, txlen) ∧
      txlen = 128 := by
  obtain ⟨g1, tx1, txlen, h, _, hlen⟩ :=
    read_block_validity sampleProtocol sampleCipher rampGlobals
      (Buf.ofList [0xD0, 0x40, 0x00]) (Buf.ofList []) 4 (by decide) (by decide) (by decide)
      (by decide) (by decide)
  exact ⟨g1, tx1, txlen, h, (hlen (by decide)).1 rfl⟩

/-- C12 (the code at the failing input): on the sample tag whose byte `j` of page `q` is
`4 q + j`, the Read-block frame for page 4 is accepted (`txlen = 128`) and the sixteen
reply bytes are byte `j` of page `4 + j + 4 i`, not the four consecutive pages 4..7. -/
theorem read_block_reply_is_not_consecutive_pages :
    frame_field (Buf.ofList [0xD0, 0x40, 0x00]) 4 8 = 4 ∧
    reply_bytes (hitagS_handle_reader_command sampleProtocol sampleCipher rampGlobals
        (Buf.ofList [0xD0, 0x40, 0x00]) 20 (Buf.ofList [])) 16 =
      some ((List.range 16).map
        (fun k => rampGlobals.tag.pages (4 + k % 4 + (k / 4) * 4) (k % 4)), 128) ∧
    reply_bytes (hitagS_handle_reader_command sampleProtocol sampleCipher rampGlobals
        (Buf.ofList [0xD0, 0x40, 0x00]) 20 (Buf.ofList [])) 16 ≠
      some ((List.range 16).map
        (fun k => rampGlobals.tag.pages (4 + k / 4) (k % 4)), 128) ∧
    reply_bytes (hitagS_handle_reader_command sampleProtocol sampleCipher rampGlobals
        (Buf.ofList [0xD0, 0x40, 0x00]) 20 (Buf.ofList [])) 16 =
      some ([16, 21, 26, 31, 32, 37, 42, 47, 48, 53, 58, 63, 64, 69, 74, 79], 128) := by
  decide

/-! ### Emulation: Write-page and Write-block policy -/

/-- A denied Write-page command leaves everything as it was. -/
theorem handle_write_page_deny (c : Protocol) (g : Globals) (rx tx : Buf)
    (hrp : rx 0 &&& 0xf0 ≠ c.HITAGS_READ_PAGE) (hrb : rx 0 &&& 0xf0 ≠ c.HITAGS_READ_BLOCK)
    (hwp : rx 0 &&& 0xf0 = c.HITAGS_WRITE_PAGE)
    (hdeny : (g.tag.LCON = true ∧ page_address rx = 1) ∨
      (g.tag.LKP = true ∧ (page_address rx = 2 ∨ page_address rx = 3))) :
    handle_page_command c g rx tx = some (g, tx, 0) := by
  unfold handle_page_command
  rw [if_neg hrp, if_neg hrb, if_pos hwp]
  simp only [if_pos hdeny]

/-- C14: emulation Write-page policy.  For a 20-bit Write-page frame whose address field
is `p` the handler returns; the request is denied (`txlen = 0`, with `tstate`,
`page_to_be_written` and all other state unchanged) if and only if (`LCON` is set and
`p = 1`) or (`LKP` is set and `p` is 2 or 3); otherwise the reply is the 2-bit ack
(`txlen = 2`, `tx[0] = 0x40`), `page_to_be_written = p` and
`tstate = HT_WRITING_PAGE_DATA`. -/
theorem write_page_policy {σ : Type} (c : Protocol) (E : Cipher σ) (g : Globals)
    (rx tx : Buf) (p : Nat)
    (hd1 : c.HITAGS_WRITE_PAGE ≠ c.HITAGS_READ_PAGE)
    (hd2 : c.HITAGS_WRITE_PAGE ≠ c.HITAGS_READ_BLOCK)
    (hop : rx 0 &&& 0xf0 = c.HITAGS_WRITE_PAGE) (hb : rx 1 < 256)
    (ha : frame_field rx 4 8 = p) :
    ∃ g1 tx1 txlen, hitagS_handle_reader_command c E g rx 20 tx = some (g1, tx1, txlen) ∧
      (txlen = 0 ↔
        ((g.tag.LCON = true ∧ p = 1) ∨ (g.tag.LKP = true ∧ (p = 2 ∨ p = 3)))) ∧
      (((g.tag.LCON = true ∧ p = 1) ∨ (g.tag.LKP = true ∧ (p = 2 ∨ p = 3))) →
        txlen = 0 ∧ g1 = g ∧ tx1 = tx) ∧
      (¬ ((g.tag.LCON = true ∧ p = 1) ∨ (g.tag.LKP = true ∧ (p = 2 ∨ p = 3))) →
        txlen = 2 ∧ tx1 0 = 0x40 ∧ g1.page_to_be_written = p ∧
        g1.tag.tstate = .HT_WRITING_PAGE_DATA) := by
  have hpa : page_address rx = p := by rw [page_address_eq_frame_field _ hb, ha]
  subst hpa
  rw [handle_reader_command_20]
  by_cases hdeny : (g.tag.LCON = true ∧ page_address rx = 1) ∨
      (g.tag.LKP = true ∧ (page_address rx = 2 ∨ page_address rx = 3))
  · rw [handle_write_page_deny c g rx tx (by rw [hop]; exact hd1) (by rw [hop]; exact hd2)
      hop hdeny]
    exact ⟨_, _, _, rfl, ⟨fun _ => hdeny, fun _ => rfl⟩, fun _ => ⟨rfl, rfl, rfl⟩,
      fun h => absurd hdeny h⟩
  · rw [handle_write_page_accept c g rx tx (by rw [hop]; exact hd1) (by rw [hop]; exact hd2)
      hop hdeny]
    exact ⟨_, _, _, rfl, ⟨fun h => absurd h (by decide), fun h => absurd h hdeny⟩,
      fun h => absurd h hdeny, fun _ => ⟨rfl, Buf.set_same _ _ _, rfl, rfl⟩⟩

theorem write_page_policy_witness :
    ∃ g1 tx1 txlen, hitagS_handle_reader_command sampleProtocol sampleCipher lockedGlobals
        (Buf.ofList [0x80, 0x20, 0x00]) 20 (Buf.ofList []) = some (g1, tx1, txlen) ∧
      txlen = 0 ∧ g1 = lockedGlobals := by
  obtain ⟨g1, tx1, txlen, h, _, hdeny, _⟩ :=
    write_page_policy sampleProtocol sampleCipher lockedGlobals
      (Buf.ofList [0x80, 0x20, 0x00]) (Buf.ofList []) 2 (by decide) (by decide) (by decide)
      (by decide) (by decide)
  exact ⟨g1, tx1, txlen, h, (hdeny (by decide)).1, (hdeny (by decide)).2.1⟩

/-- C15 (the code at the failing inputs): a Write-block frame carrying address 20
(`16 * 1 + 4`, a nonzero multiple of 4) gets no reply, because the branch computes
`6 * 1 + 4 = 10`; a Write-block frame carrying address 18 (not a multiple of 4) is
acknowledged with `page_to_be_written = 8`. -/
theorem write_block_address_uses_factor_6 :
    sampleProtocol.HITAGS_WRITE_BLOCK = 0x90 ∧
    frame_field (Buf.ofList [0x91, 0x40, 0x00]) 4 8 = 20 ∧
    page_address (Buf.ofList [0x91, 0x40, 0x00]) = 20 ∧
    (hitagS_handle_reader_command sampleProtocol sampleCipher sampleGlobals
        (Buf.ofList [0x91, 0x40, 0x00]) 20 (Buf.ofList [])).map
      (fun r => (r.2.2, r.1.page_to_be_written, r.1.block_data_left, r.1.tag.tstate)) =
      some (0, 0, 0, .HT_NO_OP) ∧
    frame_field (Buf.ofList [0x91, 0x20, 0x00]) 4 8 = 18 ∧
    (hitagS_handle_reader_command sampleProtocol sampleCipher sampleGlobals
        (Buf.ofList [0x91, 0x20, 0x00]) 20 (Buf.ofList [])).map
      (fun r => (r.2.2, r.2.1 0, r.1.page_to_be_written, r.1.block_data_left,
        r.1.tag.tstate)) =
      some (2, 0x40, 8, 4, .HT_WRITING_BLOCK_DATA) := by
  decide

/-! ### Emulation: block write transaction -/

theorem set_frame_modulation_page_to_be_written (g : Globals) :
    (hitagS_set_frame_modulation g).page_to_be_written = g.page_to_be_written := by
  unfold hitagS_set_frame_modulation
  split <;> rfl

theorem set_frame_modulation_block_data_left (g : Globals) :
    (hitagS_set_frame_modulation g).block_data_left = g.block_data_left := by
  unfold hitagS_set_frame_modulation
  split <;> rfl

/-- A 40-bit data frame received while a block write is pending, for a pending page
inside the array: the frame is acknowledged and stored, the pending page advances and
the count goes down; at count 0 the write sub-state returns to `HT_NO_OP`. -/
theorem handle_write_data_block (g : Globals) (rx tx : Buf)
    (hts : g.tag.tstate = .HT_WRITING_BLOCK_DATA) (hp : g.page_to_be_written < 64) :
    ∃ g1, handle_write_data g rx tx = some (g1, Buf.set tx 0 0x40, 2) ∧
      g1.tag = { g.tag with
        tstate := if g.block_data_left - 1 = 0 then .HT_NO_OP else .HT_WRITING_BLOCK_DATA,
        pages := fun q j =>
          if q = g.page_to_be_written ∧ j < 4 then rx j else g.tag.pages q j } ∧
      g1.block_data_left = g.block_data_left - 1 ∧
      g1.page_to_be_written =
        (if g.block_data_left - 1 = 0 then 0 else (g.page_to_be_written + 1) % 256) := by
  have hne : g.tag.tstate ≠ .HT_WRITING_PAGE_DATA := by rw [hts]; decide
  unfold handle_write_data
  rw [if_neg hne, if_pos hts]
  by_cases h0 : g.block_data_left - 1 = 0
  · simp [hitagS_tag.store_page, HITAGS_MAX_PAGES, hp, h0, set_frame_modulation_tag,
      set_frame_modulation_block_data_left, set_frame_modulation_page_to_be_written, hts]
  · simp [hitagS_tag.store_page, HITAGS_MAX_PAGES, hp, h0, set_frame_modulation_tag,
      set_frame_modulation_block_data_left, set_frame_modulation_page_to_be_written, hts]

/-- A 40-bit data frame received while no write is pending is ignored. -/
theorem handle_write_data_idle (g : Globals) (rx tx : Buf)
    (h1 : g.tag.tstate ≠ .HT_WRITING_PAGE_DATA) (h2 : g.tag.tstate ≠ .HT_WRITING_BLOCK_DATA) :
    handle_write_data g rx tx = some (g, tx, 0) := by
  unfold handle_write_data
  rw [if_neg h1, if_neg h2]

/-- C16 (the code at the failing input, next to the scenario that works): on the sample
tag a Write-block frame carrying address 4 followed by five 40-bit data frames is
answered with reply lengths 2, 2, 2, 2, 2, 0 (each ack with `tx[0] = 0x40`), pages 4..7
hold the first four data frames, page 8 is untouched, the write sub-state is
`HT_NO_OP` and `block_data_left = 0`; a Write-block frame carrying address 0 gets no
reply; but a Write-block frame carrying address 18, not a multiple of 4, is
acknowledged (`txlen = 2`) and its data frame is stored into page 8. -/
theorem block_write_scenario_D_and_address_18 :
    frame_field (Buf.ofList [0x90, 0x40, 0x00]) 4 8 = 4 ∧
    (SimulateHitagSTag_loop sampleProtocol sampleCipher
        [(Buf.ofList [0x90, 0x40, 0x00], 20),
         (Buf.ofList [0x11, 0x12, 0x13, 0x14, 0x00], 40),
         (Buf.ofList [0x21, 0x22, 0x23, 0x24, 0x00], 40),
         (Buf.ofList [0x31, 0x32, 0x33, 0x34, 0x00], 40),
         (Buf.ofList [0x41, 0x42, 0x43, 0x44, 0x00], 40),
         (Buf.ofList [0x51, 0x52, 0x53, 0x54, 0x00], 40)]
        sampleGlobals (Buf.ofList [])).map
      (fun r => (r.2.2.map (fun x => (x.2, x.1 0)),
        (List.range 5).map (fun i => (List.range 4).map (r.1.tag.pages (4 + i))),
        r.1.tag.tstate, r.1.block_data_left, r.1.page_to_be_written)) =
      some ([(2, 0x40), (2, 0x40), (2, 0x40), (2, 0x40), (2, 0x40), (0, 0x40)],
        [[0x11, 0x12, 0x13, 0x14], [0x21, 0x22, 0x23, 0x24], [0x31, 0x32, 0x33, 0x34],
         [0x41, 0x42, 0x43, 0x44], [0, 0, 0, 0]],
        .HT_NO_OP, 0, 0) ∧
    frame_field (Buf.ofList [0x90, 0x00, 0x00]) 4 8 = 0 ∧
    (hitagS_handle_reader_command sampleProtocol sampleCipher sampleGlobals
        (Buf.ofList [0x90, 0x00, 0x00]) 20 (Buf.ofList [])).map (fun r => r.2.2) = some 0 ∧
    frame_field (Buf.ofList [0x91, 0x20, 0x00]) 4 8 = 18 ∧
    (SimulateHitagSTag_loop sampleProtocol sampleCipher
        [(Buf.ofList [0x91, 0x20, 0x00], 20),
         (Buf.ofList [0x11, 0x12, 0x13, 0x14, 0x00], 40)]
        sampleGlobals (Buf.ofList [])).map
      (fun r => (r.2.2.map (fun x => (x.2, x.1 0)),
        (List.range 4).map (r.1.tag.pages 8), (List.range 4).map (r.1.tag.pages 18))) =
      some ([(2, 0x40), (2, 0x40)], [0x11, 0x12, 0x13, 0x14], [0, 0, 0, 0]) := by
  decide

/-! ### Emulation: ignored frames -/

/-- C17: silent ignore.  For every frame that fits the 20-byte frame buffer, a bit
length other than 5, 20, 40, 45, 64, or a 20-bit frame whose opcode nibble is none of
read-page, read-block, write-page, write-block, or a 40-bit frame received while
`tstate` is `HT_NO_OP`, makes the handler return `txlen = 0` with the globals (tag
pages, mode, pstate, tstate, flags, `page_to_be_written`, `block_data_left`,
`sof_bits`, coding `m`) and the transmit buffer exactly as they were. -/
theorem silent_ignore {σ : Type} (c : Protocol) (E : Cipher σ) (g : Globals)
    (rx tx : Buf) :
    (∀ rxlen, rxlen ≤ 8 * HITAG_FRAME_LEN → rxlen ≠ 5 → rxlen ≠ 20 → rxlen ≠ 40 →
      rxlen ≠ 45 → rxlen ≠ 64 →
      hitagS_handle_reader_command c E g rx rxlen tx = some (g, tx, 0)) ∧
    (rx 0 &&& 0xf0 ≠ c.HITAGS_READ_PAGE → rx 0 &&& 0xf0 ≠ c.HITAGS_READ_BLOCK →
      rx 0 &&& 0xf0 ≠ c.HITAGS_WRITE_PAGE → rx 0 &&& 0xf0 ≠ c.HITAGS_WRITE_BLOCK →
      hitagS_handle_reader_command c E g rx 20 tx = some (g, tx, 0)) ∧
    (g.tag.tstate = .HT_NO_OP →
      hitagS_handle_reader_command c E g rx 40 tx = some (g, tx, 0)) := by
  refine ⟨?_, ?_, ?_⟩
  · intro rxlen hlen h5 h20 h40 h45 h64
    have hnb : ¬ nbytes rxlen > HITAG_FRAME_LEN := by
      unfold nbytes HITAG_FRAME_LEN
      unfold HITAG_FRAME_LEN at hlen
      omega
    unfold hitagS_handle_reader_command
    rw [if_neg hnb, if_neg h5, if_neg h45, if_neg h64, if_neg h40, if_neg h20]
  · intro h1 h2 h3 h4
    rw [handle_reader_command_20]
    unfold handle_page_command
    rw [if_neg h1, if_neg h2, if_neg h3, if_neg h4]
  · intro hts
    rw [handle_reader_command_40]
    exact handle_write_data_idle g rx tx (by rw [hts]; decide) (by rw [hts]; decide)

theorem silent_ignore_witness :
    hitagS_handle_reader_command sampleProtocol sampleCipher sampleGlobals
        (Buf.ofList [0xAB]) 7 (Buf.ofList []) = some (sampleGlobals, Buf.ofList [], 0) ∧
    hitagS_handle_reader_command sampleProtocol sampleCipher sampleGlobals
        (Buf.ofList [0x10, 0x50, 0x00]) 20 (Buf.ofList []) =
      some (sampleGlobals, Buf.ofList [], 0) ∧
    hitagS_handle_reader_command sampleProtocol sampleCipher sampleGlobals
        (Buf.ofList [0x11, 0x22, 0x33, 0x44, 0x00]) 40 (Buf.ofList []) =
      some (sampleGlobals, Buf.ofList [], 0) :=
  ⟨(silent_ignore sampleProtocol sampleCipher sampleGlobals (Buf.ofList [0xAB])
      (Buf.ofList [])).1 7 (by decide) (by decide) (by decide) (by decide) (by decide)
      (by decide),
   (silent_ignore sampleProtocol sampleCipher sampleGlobals (Buf.ofList [0x10, 0x50, 0x00])
      (Buf.ofList [])).2.1 (by decide) (by decide) (by decide) (by decide),
   (silent_ignore sampleProtocol sampleCipher sampleGlobals
      (Buf.ofList [0x11, 0x22, 0x33, 0x44, 0x00]) (Buf.ofList [])).2.2 rfl⟩

/-- Two handler results with the same `txlen` whose buffers agree on the bytes that carry
the first `txlen` bits put the same reply on the wire. -/
theorem wire_reply_congr (G G1 : Globals) (T T1 : Buf) (l : Nat)
    (h : ∀ k, 8 * k < l → T k = T1 k) :
    wire_reply (some (G, T, l)) = wire_reply (some (G1, T1, l)) := by
  unfold wire_reply
  simp only [Option.map_some', Option.some.injEq, Prod.mk.injEq, true_and]
  apply List.map_congr_left
  intro p hp
  have hp1 := List.mem_range.1 hp
  unfold frame_bit
  rw [h (p / 8) (by omega)]

/-- The Select branch in closed form: `T0` is `tx` after the four configuration bytes
and the `0xff` stored over the fourth, `crc` the CRC-8 of its first four bytes. -/
theorem handle_select_eq (c : Protocol) (g : Globals) (rx tx : Buf) (T0 : Buf) (crc : Nat)
    (hT0 : T0 = Buf.set (Buf.set (Buf.set (Buf.set (Buf.set tx 0 (g.tag.pages 1 0))
      1 (g.tag.pages 1 1)) 2 (g.tag.pages 1 2)) 3 (g.tag.pages 1 3)) 3 0xff)
    (hcrc : calc_crc_bytes CRC_PRESET [T0 0, T0 1, T0 2, T0 3] = some crc) :
    handle_select c g rx tx =
      if rx 0 &&& 0xf8 = c.HITAGS_SELECT then
        if frame_field rx 5 32 = g.tag.uid then
          some (hitagS_set_frame_modulation { g with temp_uid := frame_field rx 5 32 },
            if g.tag.mode ≠ .HT_STANDARD then Buf.set T0 4 crc else T0,
            if g.tag.mode ≠ .HT_STANDARD then 40 else 32)
        else some ({ g with temp_uid := frame_field rx 5 32 }, tx, 0)
      else some (g, tx, 0) := by
  subst hT0
  unfold handle_select
  by_cases hop : rx 0 &&& 0xf8 = c.HITAGS_SELECT
  · by_cases huid : frame_field rx 5 32 = g.tag.uid
    · by_cases hm : g.tag.mode = .HT_STANDARD
      · simp [hop, check_select_eq, huid, page_eq_some, set_frame_modulation_tag, hm]
      · simp [hop, check_select_eq, huid, page_eq_some, set_frame_modulation_tag, hm, hcrc]
    · simp [hop, check_select_eq, huid]
  · simp [hop]

/-! ### Emulation: pages 2 and 3 never reach the wire -/

/-- A 40-bit data frame for a pending page outside the array: the store leaves the
array. -/
theorem handle_write_data_oob (g : Globals) (rx tx : Buf)
    (hts : g.tag.tstate = .HT_WRITING_PAGE_DATA ∨ g.tag.tstate = .HT_WRITING_BLOCK_DATA)
    (hp : ¬ g.page_to_be_written < 64) :
    handle_write_data g rx tx = none := by
  unfold handle_write_data
  rcases hts with hts | hts
  · rw [if_pos hts]
    simp [hitagS_tag.store_page, HITAGS_MAX_PAGES, hp]
  · have hne : g.tag.tstate ≠ .HT_WRITING_PAGE_DATA := by rw [hts]; decide
    rw [if_neg hne, if_pos hts]
    simp [hitagS_tag.store_page, HITAGS_MAX_PAGES, hp]

/-- A Read-page command for a page outside the array: the read leaves the array. -/
theorem handle_read_page_oob (c : Protocol) (g : Globals) (rx tx : Buf)
    (hrp : rx 0 &&& 0xf0 = c.HITAGS_READ_PAGE) (hp : ¬ page_address rx < 64) :
    handle_page_command c g rx tx = none := by
  unfold handle_page_command
  rw [if_pos hrp]
  simp [hitagS_tag.page, HITAGS_MAX_PAGES, hp]

/-- A four-round loop in `Option` whose last round always fails, fails. -/
theorem foldlM_last_none {α : Type} (f : α → Nat → Option α) (a : α)
    (h : ∀ t, f t 3 = none) : [0, 1, 2, 3].foldlM f a = none := by
  simp only [List.foldlM_cons, List.foldlM_nil]
  cases h0 : f a 0 with
  | none => rfl
  | some t1 =>
    cases h1 : f t1 1 with
    | none => simp [h1]
    | some t2 =>
      cases h2 : f t2 2 with
      | none => simp [h1, h2]
      | some t3 => simp [h1, h2, h]

/-- A Read-block command one of whose sixteen reads leaves the array. -/
theorem handle_read_block_oob (c : Protocol) (g : Globals) (rx tx : Buf)
    (hnrp : rx 0 &&& 0xf0 ≠ c.HITAGS_READ_PAGE)
    (hrb : rx 0 &&& 0xf0 = c.HITAGS_READ_BLOCK) (hp : ¬ page_address rx + 15 < 64) :
    handle_page_command c g rx tx = none := by
  unfold handle_page_command
  rw [if_neg hnrp, if_pos hrb]
  generalize page_address rx = q at hp ⊢
  have hfold : [0, 1, 2, 3].foldlM
      (fun tx i => do
        let b0 ← g.tag.page (q + 0 + i * 4) 0
        let tx := Buf.set tx (0 + i * 4) b0
        let b1 ← g.tag.page (q + 1 + i * 4) 1
        let tx := Buf.set tx (1 + i * 4) b1
        let b2 ← g.tag.page (q + 2 + i * 4) 2
        let tx := Buf.set tx (2 + i * 4) b2
        let b3 ← g.tag.page (q + 3 + i * 4) 3
        pure (Buf.set tx (3 + i * 4) b3)) tx = none := by
    apply foldlM_last_none
    intro t
    simp only [hitagS_tag.page, HITAGS_MAX_PAGES, bind, Option.bind, pure]
    split_ifs <;> rfl
  simp only [hfold]
  rfl

/-- With `LKP` set, the reply to a 20-bit command does not depend on the contents of
pages 2 and 3. -/
theorem wire_reply_page_command (c : Protocol) (g : Globals) (P : Nat → Nat → Nat)
    (rx tx : Buf) (hLKP : g.tag.LKP = true)
    (hP : ∀ q j, q ≠ 2 → q ≠ 3 → P q j = g.tag.pages q j) :
    wire_reply (handle_page_command c g rx tx) =
      wire_reply (handle_page_command c
        { g with tag := { g.tag with pages := P } } rx tx) := by
  by_cases hrp : rx 0 &&& 0xf0 = c.HITAGS_READ_PAGE
  · by_cases hp : page_address rx < 64
    · obtain ⟨crc, hcrc⟩ := calc_crc_bytes_some
        [g.tag.pages (page_address rx) 0, g.tag.pages (page_address rx) 1,
          g.tag.pages (page_address rx) 2,
          if g.tag.LKP = true ∧ page_address rx = 1 then 0xFF
          else g.tag.pages (page_address rx) 3] CRC_PRESET
      obtain ⟨crc1, hcrc1⟩ := calc_crc_bytes_some
        [P (page_address rx) 0, P (page_address rx) 1, P (page_address rx) 2,
          if g.tag.LKP = true ∧ page_address rx = 1 then 0xFF
          else P (page_address rx) 3] CRC_PRESET
      rw [handle_read_page_eq c g rx tx hrp hp _ _ crc rfl rfl
          (by by_cases h1 : g.tag.LKP = true ∧ page_address rx = 1
              · simpa [h1, Buf.set] using hcrc
              · simpa [h1, Buf.set] using hcrc),
        handle_read_page_eq c { g with tag := { g.tag with pages := P } } rx tx hrp hp _ _
          crc1 rfl rfl
          (by by_cases h1 : g.tag.LKP = true ∧ page_address rx = 1
              · simpa [h1, Buf.set] using hcrc1
              · simpa [h1, Buf.set] using hcrc1)]
      by_cases h23 : page_address rx = 2 ∨ page_address rx = 3
      · have hs : g.tag.LKP = true ∧ (page_address rx = 2 ∨ page_address rx = 3) :=
          ⟨hLKP, h23⟩
        simp only [if_pos hs]
        exact wire_reply_congr _ _ _ _ 0 (fun k hk => absurd hk (by omega))
      · have hs : ¬ (g.tag.LKP = true ∧ (page_address rx = 2 ∨ page_address rx = 3)) :=
          fun h => h23 h.2
        have hPq : ∀ j, P (page_address rx) j = g.tag.pages (page_address rx) j :=
          fun j => hP _ j (fun h => h23 (Or.inl h)) (fun h => h23 (Or.inr h))
        simp only [hPq] at hcrc1
        have hc : crc1 = crc := Option.some.inj (hcrc1.symm.trans hcrc)
        simp only [if_neg hs, hPq, hc]
        exact wire_reply_congr _ _ _ _ _ (fun _ _ => rfl)
    · rw [handle_read_page_oob c g rx tx hrp hp, handle_read_page_oob c _ rx tx hrp hp]
  · by_cases hrb : rx 0 &&& 0xf0 = c.HITAGS_READ_BLOCK
    · by_cases hp : page_address rx + 15 < 64
      · obtain ⟨crc, hcrc⟩ := calc_crc_bytes_some ((List.range 16).map
          ([0, 1, 2, 3].foldl (fun t i =>
            Buf.set (Buf.set (Buf.set (Buf.set t
              (0 + i * 4) (g.tag.pages (page_address rx + 0 + i * 4) 0))
              (1 + i * 4) (g.tag.pages (page_address rx + 1 + i * 4) 1))
              (2 + i * 4) (g.tag.pages (page_address rx + 2 + i * 4) 2))
              (3 + i * 4) (g.tag.pages (page_address rx + 3 + i * 4) 3)) tx)) CRC_PRESET
        obtain ⟨crc1, hcrc1⟩ := calc_crc_bytes_some ((List.range 16).map
          ([0, 1, 2, 3].foldl (fun t i =>
            Buf.set (Buf.set (Buf.set (Buf.set t
              (0 + i * 4) (P (page_address rx + 0 + i * 4) 0))
              (1 + i * 4) (P (page_address rx + 1 + i * 4) 1))
              (2 + i * 4) (P (page_address rx + 2 + i * 4) 2))
              (3 + i * 4) (P (page_address rx + 3 + i * 4) 3)) tx)) CRC_PRESET
        rw [handle_read_block_eq c g rx tx hrp hrb hp _ crc rfl hcrc,
          handle_read_block_eq c { g with tag := { g.tag with pages := P } } rx tx hrp hrb hp
            _ crc1 rfl hcrc1]
        by_cases hs : page_address rx % 4 ≠ 0 ∨ (g.tag.LKP = true ∧ page_address rx = 0)
        · simp only [if_pos hs]
          exact wire_reply_congr _ _ _ _ 0 (fun k hk => absurd hk (by omega))
        · have h4 : 4 ≤ page_address rx := by
            have h0 : page_address rx ≠ 0 := fun h => hs (Or.inr ⟨hLKP, h⟩)
            have hm : ¬ page_address rx % 4 ≠ 0 := fun h => hs (Or.inl h)
            omega
          have hP4 : ∀ q j, 4 ≤ q → P q j = g.tag.pages q j :=
            fun q j hq => hP q j (by omega) (by omega)
          simp (disch := omega) only [hP4] at hcrc1
          have hc : crc1 = crc := Option.some.inj (hcrc1.symm.trans hcrc)
          simp (disch := omega) only [if_neg hs, hP4, hc]
          exact wire_reply_congr _ _ _ _ _ (fun _ _ => rfl)
      · rw [handle_read_block_oob c g rx tx hrp hrb hp,
          handle_read_block_oob c _ rx tx hrp hrb hp]
    · unfold handle_page_command
      simp only [if_neg hrp, if_neg hrb]
      split_ifs <;> exact wire_reply_congr _ _ _ _ _ (fun _ _ => rfl)

/-- The reply to a Select frame does not depend on the contents of pages 2 and 3. -/
theorem wire_reply_select (c : Protocol) (g : Globals) (P : Nat → Nat → Nat)
    (rx tx : Buf) (hP : ∀ q j, q ≠ 2 → q ≠ 3 → P q j = g.tag.pages q j) :
    wire_reply (handle_select c g rx tx) =
      wire_reply (handle_select c { g with tag := { g.tag with pages := P } } rx tx) := by
  have hP1 : ∀ j, P 1 j = g.tag.pages 1 j := fun j => hP 1 j (by decide) (by decide)
  obtain ⟨crc, hcrc⟩ := calc_crc_bytes_some
    [g.tag.pages 1 0, g.tag.pages 1 1, g.tag.pages 1 2, 0xff] CRC_PRESET
  rw [handle_select_eq c g rx tx _ crc rfl (by simpa [Buf.set] using hcrc),
    handle_select_eq c { g with tag := { g.tag with pages := P } } rx tx _ crc rfl
      (by simpa [Buf.set, hP1] using hcrc)]
  simp only [hP1]
  split_ifs <;> exact wire_reply_congr _ _ _ _ _ (fun _ _ => rfl)

/-- The reply to a 40-bit data frame does not depend on the page contents. -/
theorem wire_reply_write_data (g : Globals) (P : Nat → Nat → Nat) (rx tx : Buf) :
    wire_reply (handle_write_data g rx tx) =
      wire_reply (handle_write_data { g with tag := { g.tag with pages := P } } rx tx) := by
  by_cases hp : g.page_to_be_written < 64
  · by_cases h1 : g.tag.tstate = .HT_WRITING_PAGE_DATA
    · rw [handle_write_data_page g rx tx h1 hp,
        handle_write_data_page { g with tag := { g.tag with pages := P } } rx tx h1 hp]
      exact wire_reply_congr _ _ _ _ _ (fun _ _ => rfl)
    · by_cases h2 : g.tag.tstate = .HT_WRITING_BLOCK_DATA
      · obtain ⟨g1, e1, _⟩ := handle_write_data_block g rx tx h2 hp
        obtain ⟨g2, e2, _⟩ := handle_write_data_block
          { g with tag := { g.tag with pages := P } } rx tx h2 hp
        rw [e1, e2]
        exact wire_reply_congr _ _ _ _ _ (fun _ _ => rfl)
      · rw [handle_write_data_idle g rx tx h1 h2,
          handle_write_data_idle { g with tag := { g.tag with pages := P } } rx tx h1 h2]
        exact wire_reply_congr _ _ _ _ _ (fun _ _ => rfl)
  · by_cases h12 : g.tag.tstate = .HT_WRITING_PAGE_DATA ∨
        g.tag.tstate = .HT_WRITING_BLOCK_DATA
    · rw [handle_write_data_oob g rx tx h12 hp,
        handle_write_data_oob { g with tag := { g.tag with pages := P } } rx tx h12 hp]
    · have h1 : g.tag.tstate ≠ .HT_WRITING_PAGE_DATA := fun h => h12 (Or.inl h)
      have h2 : g.tag.tstate ≠ .HT_WRITING_BLOCK_DATA := fun h => h12 (Or.inr h)
      rw [handle_write_data_idle g rx tx h1 h2,
        handle_write_data_idle { g with tag := { g.tag with pages := P } } rx tx h1 h2]
      exact wire_reply_congr _ _ _ _ _ (fun _ _ => rfl)

/-- The reply to a 5-bit frame does not depend on the page contents. -/
theorem wire_reply_uid_request (c : Protocol) (g : Globals) (P : Nat → Nat → Nat)
    (rx tx : Buf) :
    wire_reply (handle_uid_request c g rx tx) =
      wire_reply (handle_uid_request c
        { g with tag := { g.tag with pages := P } } rx tx) := by
  unfold handle_uid_request
  split_ifs <;> exact wire_reply_congr _ _ _ _ _ (fun _ _ => rfl)

/-- Two-run form of the key-page property: with the `LKP` flag set (whatever `auth` is)
and an inbound frame whose length is not 64, two emulator states that differ only in the
contents of pages 2 and 3 give the same result of `hitagS_handle_reader_command` on the
wire (`txlen` and the first `txlen` bits of `tx`), or an access leaves its array in both
runs. -/
theorem key_pages_not_on_wire {σ : Type} (c : Protocol) (E : Cipher σ) (g g1 : Globals)
    (rx : Buf) (rxlen : Nat) (tx : Buf)
    (hLKP : g.tag.LKP = true) (hlen : rxlen ≠ 64)
    (hg : g1 = { g with tag := g1.tag }) (ht : same_but_pages_2_3 g.tag g1.tag) :
    wire_reply (hitagS_handle_reader_command c E g rx rxlen tx) =
      wire_reply (hitagS_handle_reader_command c E g1 rx rxlen tx) := by
  obtain ⟨ht1, hP⟩ := ht
  generalize hPdef : g1.tag.pages = P at ht1 hP
  rw [ht1] at hg
  clear hPdef ht1
  subst hg
  unfold hitagS_handle_reader_command
  split_ifs
  · rfl
  · exact wire_reply_uid_request c g P rx tx
  · exact wire_reply_select c g P rx tx hP
  · exact wire_reply_write_data g P rx tx
  · exact wire_reply_page_command c g P rx tx hLKP hP
  · exact wire_reply_congr _ _ _ _ _ (fun _ _ => rfl)

theorem key_pages_not_on_wire_witness :
    wire_reply (hitagS_handle_reader_command sampleProtocol sampleCipher lockedGlobals
        (Buf.ofList [0xC0, 0x20, 0x00]) 20 (Buf.ofList [])) =
      wire_reply (hitagS_handle_reader_command sampleProtocol sampleCipher otherKeyGlobals
        (Buf.ofList [0xC0, 0x20, 0x00]) 20 (Buf.ofList [])) :=
  key_pages_not_on_wire sampleProtocol sampleCipher lockedGlobals otherKeyGlobals
    (Buf.ofList [0xC0, 0x20, 0x00]) 20 (Buf.ofList []) rfl (by decide) rfl
    ⟨rfl, fun q j h2 h3 => by simp [otherKeyGlobals, h2, h3]⟩

/-! ### Emulation: what each handler branch does to the tag -/

/-- What a 5-bit frame can change in the tag: `uid` and the pages stay. -/
theorem handle_uid_request_tag (c : Protocol) (g : Globals) (rx tx : Buf) (g1 : Globals)
    (tx1 : Buf) (txlen : Nat) (h : handle_uid_request c g rx tx = some (g1, tx1, txlen)) :
    g1.tag.uid = g.tag.uid ∧ g1.tag.pages = g.tag.pages := by
  unfold handle_uid_request at h
  split_ifs at h <;>
  · have h1 := (Prod.mk.inj (Option.some.inj h)).1
    subst h1
    exact ⟨rfl, rfl⟩

/-- A Select frame leaves the tag as it is. -/
theorem handle_select_tag (c : Protocol) (g : Globals) (rx tx : Buf) (g1 : Globals)
    (tx1 : Buf) (txlen : Nat) (h : handle_select c g rx tx = some (g1, tx1, txlen)) :
    g1.tag = g.tag := by
  obtain ⟨crc, hcrc⟩ := calc_crc_bytes_some
    [g.tag.pages 1 0, g.tag.pages 1 1, g.tag.pages 1 2, 0xff] CRC_PRESET
  rw [handle_select_eq c g rx tx _ crc rfl (by simpa [Buf.set] using hcrc)] at h
  split_ifs at h <;>
  · have h1 := (Prod.mk.inj (Option.some.inj h)).1
    subst h1
    first | rfl | exact set_frame_modulation_tag _

/-- A challenge frame leaves the tag as it is. -/
theorem handle_challenge_tag {σ : Type} (E : Cipher σ) (g : Globals) (rx tx : Buf)
    (g1 : Globals) (tx1 : Buf) (txlen : Nat)
    (h : handle_challenge E g rx tx = some (g1, tx1, txlen)) :
    g1.tag = g.tag := by
  obtain ⟨crc, _, _, heq⟩ := handle_challenge_eq E g rx tx
  rw [heq] at h
  have h1 := (Prod.mk.inj (Option.some.inj h)).1
  subst h1
  exact set_frame_modulation_tag _

/-- A 40-bit data frame changes no page but the pending one, and neither `uid` nor
`mode`. -/
theorem handle_write_data_tag (g : Globals) (rx tx : Buf) (g1 : Globals) (tx1 : Buf)
    (txlen : Nat) (h : handle_write_data g rx tx = some (g1, tx1, txlen)) :
    g1.tag.uid = g.tag.uid ∧ g1.tag.mode = g.tag.mode ∧
      ∀ q j, ¬ ((g.tag.tstate = .HT_WRITING_PAGE_DATA ∨
          g.tag.tstate = .HT_WRITING_BLOCK_DATA) ∧ q = g.page_to_be_written ∧ j < 4) →
        g1.tag.pages q j = g.tag.pages q j := by
  by_cases h12 : g.tag.tstate = .HT_WRITING_PAGE_DATA ∨
      g.tag.tstate = .HT_WRITING_BLOCK_DATA
  · by_cases hp : g.page_to_be_written < 64
    · rcases h12 with h1 | h2
      · rw [handle_write_data_page g rx tx h1 hp] at h
        have e := (Prod.mk.inj (Option.some.inj h)).1
        subst e
        rw [set_frame_modulation_tag]
        refine ⟨rfl, rfl, ?_⟩
        intro q j hq
        have : ¬ (q = g.page_to_be_written ∧ j < 4) := fun hh => hq ⟨Or.inl h1, hh⟩
        simp only [if_neg this]
      · obtain ⟨g2, e2, ht, _⟩ := handle_write_data_block g rx tx h2 hp
        rw [e2] at h
        have e := (Prod.mk.inj (Option.some.inj h)).1
        subst e
        rw [ht]
        refine ⟨rfl, rfl, ?_⟩
        intro q j hq
        have : ¬ (q = g.page_to_be_written ∧ j < 4) := fun hh => hq ⟨Or.inr h2, hh⟩
        simp only [if_neg this]
    · rw [handle_write_data_oob g rx tx h12 hp] at h
      exact absurd h (by simp)
  · rw [handle_write_data_idle g rx tx (fun hh => h12 (Or.inl hh))
      (fun hh => h12 (Or.inr hh))] at h
    have e := (Prod.mk.inj (Option.some.inj h)).1
    subst e
    exact ⟨rfl, rfl, fun _ _ _ => rfl⟩

/-- A 20-bit command changes neither `uid`, `mode` nor any page. -/
theorem handle_page_command_tag (c : Protocol) (g : Globals) (rx tx : Buf) (g1 : Globals)
    (tx1 : Buf) (txlen : Nat) (h : handle_page_command c g rx tx = some (g1, tx1, txlen)) :
    g1.tag.uid = g.tag.uid ∧ g1.tag.mode = g.tag.mode ∧ g1.tag.pages = g.tag.pages := by
  by_cases hrp : rx 0 &&& 0xf0 = c.HITAGS_READ_PAGE
  · by_cases hp : page_address rx < 64
    · obtain ⟨crc, hcrc⟩ := calc_crc_bytes_some
        [g.tag.pages (page_address rx) 0, g.tag.pages (page_address rx) 1,
          g.tag.pages (page_address rx) 2,
          if g.tag.LKP = true ∧ page_address rx = 1 then 0xFF
          else g.tag.pages (page_address rx) 3] CRC_PRESET
      rw [handle_read_page_eq c g rx tx hrp hp _ _ crc rfl rfl
          (by by_cases h1 : g.tag.LKP = true ∧ page_address rx = 1
              · simpa [h1, Buf.set] using hcrc
              · simpa [h1, Buf.set] using hcrc)] at h
      have e := (Prod.mk.inj (Option.some.inj h)).1
      subst e
      split_ifs <;> simp [set_frame_modulation_tag]
    · rw [handle_read_page_oob c g rx tx hrp hp] at h
      exact absurd h (by simp)
  · by_cases hrb : rx 0 &&& 0xf0 = c.HITAGS_READ_BLOCK
    · by_cases hp : page_address rx + 15 < 64
      · obtain ⟨crc, hcrc⟩ := calc_crc_bytes_some ((List.range 16).map
          ([0, 1, 2, 3].foldl (fun t i =>
            Buf.set (Buf.set (Buf.set (Buf.set t
              (0 + i * 4) (g.tag.pages (page_address rx + 0 + i * 4) 0))
              (1 + i * 4) (g.tag.pages (page_address rx + 1 + i * 4) 1))
              (2 + i * 4) (g.tag.pages (page_address rx + 2 + i * 4) 2))
              (3 + i * 4) (g.tag.pages (page_address rx + 3 + i * 4) 3)) tx)) CRC_PRESET
        rw [handle_read_block_eq c g rx tx hrp hrb hp _ crc rfl hcrc] at h
        have e := (Prod.mk.inj (Option.some.inj h)).1
        subst e
        split_ifs <;> simp [set_frame_modulation_tag]
      · rw [handle_read_block_oob c g rx tx hrp hrb hp] at h
        exact absurd h (by simp)
    · unfold handle_page_command at h
      simp only [if_neg hrp, if_neg hrb] at h
      split_ifs at h <;>
      · have e := (Prod.mk.inj (Option.some.inj h)).1
        subst e
        simp [set_frame_modulation_tag]

/-- What a call of the handler can change in the tag: `uid` never, `mode` only on a
5-bit frame, a page only on a 40-bit frame while a write is pending, and then only the
pending page. -/
theorem handle_reader_command_tag {σ : Type} (c : Protocol) (E : Cipher σ) (g : Globals)
    (rx : Buf) (rxlen : Nat) (tx : Buf) (g1 : Globals) (tx1 : Buf) (txlen : Nat)
    (h : hitagS_handle_reader_command c E g rx rxlen tx = some (g1, tx1, txlen)) :
    g1.tag.uid = g.tag.uid ∧ (rxlen ≠ 5 → g1.tag.mode = g.tag.mode) ∧
      ∀ q j, ¬ (rxlen = 40 ∧ (g.tag.tstate = .HT_WRITING_PAGE_DATA ∨
          g.tag.tstate = .HT_WRITING_BLOCK_DATA) ∧ q = g.page_to_be_written ∧ j < 4) →
        g1.tag.pages q j = g.tag.pages q j := by
  unfold hitagS_handle_reader_command at h
  split_ifs at h with h0 h5 h45 h64 h40 h20
  · obtain ⟨e1, e2⟩ := handle_uid_request_tag c g rx tx g1 tx1 txlen h
    exact ⟨e1, fun hh => absurd h5 hh, fun q j _ => by rw [e2]⟩
  · have e := handle_select_tag c g rx tx g1 tx1 txlen h
    rw [e]
    exact ⟨rfl, fun _ => rfl, fun _ _ _ => rfl⟩
  · have e := handle_challenge_tag E g rx tx g1 tx1 txlen h
    rw [e]
    exact ⟨rfl, fun _ => rfl, fun _ _ _ => rfl⟩
  · obtain ⟨e1, e2, e3⟩ := handle_write_data_tag g rx tx g1 tx1 txlen h
    exact ⟨e1, fun _ => e2, fun q j hq => e3 q j (fun hh => hq ⟨h40, hh⟩)⟩
  · obtain ⟨e1, e2, e3⟩ := handle_page_command_tag c g rx tx g1 tx1 txlen h
    exact ⟨e1, fun _ => e2, fun q j _ => by rw [e3]⟩
  · have e := (Prod.mk.inj (Option.some.inj h)).1
    subst e
    exact ⟨rfl, fun _ => rfl, fun _ _ _ => rfl⟩

/-! ### Emulation: what a frame can change in the tag -/

/-- When the handler returns: the frame fits the 20-byte frame buffer, a Read-page or
Read-block command stays inside the 64 pages, and a pending write addresses one of the
64 pages. -/
theorem handle_reader_command_returns {σ : Type} (c : Protocol) (E : Cipher σ)
    (g : Globals) (rx : Buf) (rxlen : Nat) (tx : Buf)
    (hfit : rxlen ≤ 8 * HITAG_FRAME_LEN)
    (h20 : rxlen = 20 → (rx 0 &&& 0xf0 = c.HITAGS_READ_PAGE → page_address rx < 64) ∧
      (rx 0 &&& 0xf0 = c.HITAGS_READ_BLOCK → page_address rx + 15 < 64))
    (h40 : rxlen = 40 → g.page_to_be_written < 64) :
    (hitagS_handle_reader_command c E g rx rxlen tx).isSome = true := by
  have hnb : ¬ nbytes rxlen > HITAG_FRAME_LEN := by
    unfold nbytes HITAG_FRAME_LEN
    unfold HITAG_FRAME_LEN at hfit
    omega
  unfold hitagS_handle_reader_command
  rw [if_neg hnb]
  split_ifs with h5 h45 h64 h40e h20e
  · unfold handle_uid_request
    split_ifs <;> rfl
  · obtain ⟨crc, hcrc⟩ := calc_crc_bytes_some
      [g.tag.pages 1 0, g.tag.pages 1 1, g.tag.pages 1 2, 0xff] CRC_PRESET
    rw [handle_select_eq c g rx tx _ crc rfl (by simpa [Buf.set] using hcrc)]
    split_ifs <;> rfl
  · obtain ⟨crc, _, _, heq⟩ := handle_challenge_eq E g rx tx
    rw [heq]
    rfl
  · have hp := h40 h40e
    by_cases h1 : g.tag.tstate = .HT_WRITING_PAGE_DATA
    · rw [handle_write_data_page g rx tx h1 hp]
      rfl
    · by_cases h2 : g.tag.tstate = .HT_WRITING_BLOCK_DATA
      · obtain ⟨g2, e2, _⟩ := handle_write_data_block g rx tx h2 hp
        rw [e2]
        rfl
      · rw [handle_write_data_idle g rx tx h1 h2]
        rfl
  · obtain ⟨hrpb, hrbb⟩ := h20 h20e
    by_cases hrp : rx 0 &&& 0xf0 = c.HITAGS_READ_PAGE
    · obtain ⟨crc, hcrc⟩ := calc_crc_bytes_some
        [g.tag.pages (page_address rx) 0, g.tag.pages (page_address rx) 1,
          g.tag.pages (page_address rx) 2,
          if g.tag.LKP = true ∧ page_address rx = 1 then 0xFF
          else g.tag.pages (page_address rx) 3] CRC_PRESET
      rw [handle_read_page_eq c g rx tx hrp (hrpb hrp) _ _ crc rfl rfl
          (by by_cases h1 : g.tag.LKP = true ∧ page_address rx = 1
              · simpa [h1, Buf.set] using hcrc
              · simpa [h1, Buf.set] using hcrc)]
      rfl
    · by_cases hrb : rx 0 &&& 0xf0 = c.HITAGS_READ_BLOCK
      · obtain ⟨crc, hcrc⟩ := calc_crc_bytes_some ((List.range 16).map
          ([0, 1, 2, 3].foldl (fun t i =>
            Buf.set (Buf.set (Buf.set (Buf.set t
              (0 + i * 4) (g.tag.pages (page_address rx + 0 + i * 4) 0))
              (1 + i * 4) (g.tag.pages (page_address rx + 1 + i * 4) 1))
              (2 + i * 4) (g.tag.pages (page_address rx + 2 + i * 4) 2))
              (3 + i * 4) (g.tag.pages (page_address rx + 3 + i * 4) 3)) tx)) CRC_PRESET
        rw [handle_read_block_eq c g rx tx hrp hrb (hrbb hrb) _ crc rfl hcrc]
        rfl
      · unfold handle_page_command
        simp only [if_neg hrp, if_neg hrb]
        split_ifs <;> rfl
  · rfl

/-- The tag set-up of `SimulateHitagSTag` makes `tag.uid` the packing of page 0. -/
theorem SimulateHitagSTag_load_uid_is_page0 (g : Globals) (tag_mem_supplied : Bool)
    (data : Buf) : uid_is_page0 (SimulateHitagSTag_load g tag_mem_supplied data).tag :=
  rfl

/-- A call of the handler keeps `tag.uid` the packing of page 0 unless it is a 40-bit
data frame that completes a pending write to page 0. -/
theorem uid_is_page0_preserved {σ : Type} (c : Protocol) (E : Cipher σ) (g : Globals)
    (rx : Buf) (rxlen : Nat) (tx : Buf) (g1 : Globals) (tx1 : Buf) (txlen : Nat)
    (hinv : uid_is_page0 g.tag)
    (hw : ¬ (rxlen = 40 ∧ (g.tag.tstate = .HT_WRITING_PAGE_DATA ∨
      g.tag.tstate = .HT_WRITING_BLOCK_DATA) ∧ g.page_to_be_written = 0))
    (h : hitagS_handle_reader_command c E g rx rxlen tx = some (g1, tx1, txlen)) :
    uid_is_page0 g1.tag := by
  obtain ⟨e1, _, e3⟩ := handle_reader_command_tag c E g rx rxlen tx g1 tx1 txlen h
  have hp : ∀ j, g1.tag.pages 0 j = g.tag.pages 0 j := fun j =>
    e3 0 j (fun hh => hw ⟨hh.1, hh.2.1, hh.2.2.1.symm⟩)
  unfold uid_is_page0 at hinv ⊢
  rw [e1, hp, hp, hp, hp]
  exact hinv

/-- C19 (the code at the failing input): `SimulateHitagSTag` loading the sample image
establishes `tag.uid = pages[0][3]<<24 | pages[0][2]<<16 | pages[0][1]<<8 | pages[0][0]`
(`uid = 0x5FC21184`); from that state a Write-page frame carrying address 0 is
acknowledged (`txlen = 2`), the following 40-bit data frame `11 22 33 44` is
acknowledged and stored into page 0, `tag.uid` is still `0x5FC21184`, and the predicate
no longer holds. -/
theorem page_0_write_breaks_uid_is_page0 :
    uid_is_page0 loadedGlobals.tag ∧
    frame_field (Buf.ofList [0x80, 0x00, 0x00]) 4 8 = 0 ∧
    (SimulateHitagSTag_loop sampleProtocol sampleCipher
        [(Buf.ofList [0x80, 0x00, 0x00], 20),
         (Buf.ofList [0x11, 0x22, 0x33, 0x44, 0x00], 40)]
        loadedGlobals (Buf.ofList [])).map
      (fun r => (r.2.2.map (fun x => (x.2, x.1 0)), r.1.tag.uid,
        (List.range 4).map (r.1.tag.pages 0), decide (uid_is_page0 r.1.tag))) =
      some ([(2, 0x40), (2, 0x40)], 0x5FC21184, [0x11, 0x22, 0x33, 0x44], false) := by
  decide

/-! ### Emulation: the response protocol mode -/

theorem and_3_eq (b : Nat) : b &&& 0x3 = b % 4 := by
  have h : (0x3 : Nat) = 2 ^ 2 - 1 := by norm_num
  rw [h, Nat.and_pow_two_sub_one_eq_mod]

/-- `selectHitagS` in terms of the replies of the radio. -/
theorem selectHitagS_eq {σ : Type} (c : Protocol) (h : HostApi) (E : Cipher σ)
    (xcv : Transceive) (r : Reader) (packet : lf_hitag_data_t) :
    selectHitagS c h E xcv r packet =
      if reply_len xcv (selectHitagS_uid_request c r.tx :: r.sent) ≠ 32 then
        ({ r with tx := (selectHitagS_uid_request c r.tx).1,
                  sent := selectHitagS_uid_request c r.tx :: r.sent,
                  rx := reply_rx xcv (selectHitagS_uid_request c r.tx :: r.sent) }, -1)
      else if reply_len xcv (selectHitagS_selected c h xcv r).sent ≠ 40 then
        ({ selectHitagS_selected c h xcv r with
            g := { r.g with tag := { r.g.tag with uid :=
              ((reply_rx xcv (selectHitagS_uid_request c r.tx :: r.sent) 3 <<< 24) |||
               (reply_rx xcv (selectHitagS_uid_request c r.tx :: r.sent) 2 <<< 16) |||
               (reply_rx xcv (selectHitagS_uid_request c r.tx :: r.sent) 1 <<< 8) |||
               reply_rx xcv (selectHitagS_uid_request c r.tx :: r.sent) 0) % 2 ^ 32 } } }, -1)
      else if (selectHitagS_selected c h xcv r).g.tag.auth = true then
        selectHitagS_auth h E xcv (selectHitagS_selected c h xcv r) packet
      else (selectHitagS_selected c h xcv r, 0) := by
  rfl

/-- The authentication part of `selectHitagS` in terms of the reply of the radio. -/
theorem selectHitagS_auth_eq {σ : Type} (h : HostApi) (E : Cipher σ) (xcv : Transceive)
    (r : Reader) (packet : lf_hitag_data_t) :
    selectHitagS_auth h E xcv r packet =
      if packet.cmd = h.RHTSF_KEY ∨ packet.cmd = h.WHTSF_KEY then
        if reply_len xcv (selectHitagS_key_frame E r.g (selectHitagS_key packet) r.tx ::
            r.sent) ≠ 40 then
          ({ r with tx := (selectHitagS_key_frame E r.g (selectHitagS_key packet) r.tx).1,
                    sent := selectHitagS_key_frame E r.g (selectHitagS_key packet) r.tx ::
                      r.sent,
                    rx := reply_rx xcv (selectHitagS_key_frame E r.g (selectHitagS_key packet)
                      r.tx :: r.sent) }, -1)
        else
          ({ r with tx := (selectHitagS_key_frame E r.g (selectHitagS_key packet) r.tx).1,
                    sent := selectHitagS_key_frame E r.g (selectHitagS_key packet) r.tx ::
                      r.sent,
                    rx := reply_rx xcv (selectHitagS_key_frame E r.g (selectHitagS_key packet)
                      r.tx :: r.sent),
                    g := (selectHitagS_decrypt E { r.g with pwdh0 := 0, pwdl0 := 0, pwdl1 := 0 }
                      (selectHitagS_key packet)
                      (reply_rx xcv (selectHitagS_key_frame E r.g (selectHitagS_key packet)
                        r.tx :: r.sent))).1 }, 0)
      else if packet.cmd = h.RHTSF_CHALLENGE ∨ packet.cmd = h.WHTSF_CHALLENGE then
        if reply_len xcv (selectHitagS_challenge_frame packet r.tx :: r.sent) ≠ 40 then
          ({ r with tx := (selectHitagS_challenge_frame packet r.tx).1,
                    sent := selectHitagS_challenge_frame packet r.tx :: r.sent,
                    rx := reply_rx xcv (selectHitagS_challenge_frame packet r.tx :: r.sent) },
            -1)
        else
          ({ r with tx := (selectHitagS_challenge_frame packet r.tx).1,
                    sent := selectHitagS_challenge_frame packet r.tx :: r.sent,
                    rx := reply_rx xcv (selectHitagS_challenge_frame packet r.tx :: r.sent),
                    g := { r.g with pwdh0 := 0, pwdl0 := 0, pwdl1 := 0 } }, 0)
      else (r, -1) := by
  unfold selectHitagS_auth
  by_cases hk : packet.cmd = h.RHTSF_KEY ∨ packet.cmd = h.WHTSF_KEY
  · simp only [if_pos hk]
    rfl
  · by_cases hc : packet.cmd = h.RHTSF_CHALLENGE ∨ packet.cmd = h.WHTSF_CHALLENGE
    · simp only [if_neg hk, if_pos hc]
      rfl
    · simp only [if_neg hk, if_neg hc, ite_self]

/-- Bit `p` of the destination after `concatbits`, as a frame bit. -/
theorem frame_bit_concatbits (dst : Buf) (dstskip : Nat) (src : Buf)
    (srcstart srclen p : Nat) :
    frame_bit (concatbits dst dstskip src srcstart srclen).1 p =
      if dstskip ≤ p ∧ p < dstskip + srclen then frame_bit src (srcstart + (p - dstskip))
      else if p < dstskip ∨ (dstskip + srclen) / 8 < p / 8 then frame_bit dst p
      else 0 := by
  unfold frame_bit
  rw [concatbits_testBit]
  by_cases h1 : dstskip ≤ p ∧ p < dstskip + srclen
  · simp only [if_pos h1]
  · by_cases h2 : p < dstskip ∨ (dstskip + srclen) / 8 < p / 8
    · simp [h1, h2]
    · simp [h1, h2]

/-- The offset returned by `concatbits`. -/
theorem concatbits_snd (dst : Buf) (dstskip : Nat) (src : Buf) (srcstart srclen : Nat) :
    (concatbits dst dstskip src srcstart srclen).2 = dstskip + srclen := rfl

/-- C22: reader select/authenticate failure conditions, the radio exchange being an
oracle.  `selectHitagS` sends a 5-bit UID request; if the reply is not exactly 32 bits
long it returns -1.  Otherwise it sends a Select frame of exactly 45 bits: the first 5
bits of the select opcode, the 32 UID bits received, and the 8 bits of the CRC byte
computed over these 37 bits; if the reply is not exactly 40 bits long it returns -1.
Otherwise, when the decoded `auth` flag is 0 it returns 0 with no further exchange;
when it is 1 and the credentials are a key or a challenge it sends a 64-bit
authentication frame and returns 0 if the reply has exactly 40 bits and -1 if not; when
it is 1 with other credentials it returns -1. -/
theorem selectHitagS_outcome {σ : Type} (c : Protocol) (h : HostApi) (E : Cipher σ)
    (xcv : Transceive) (r : Reader) (packet : lf_hitag_data_t) :
    (selectHitagS_uid_request c r.tx).2 = 5 ∧
    (selectHitagS_select c h (selectHitagS_uid_request c r.tx).1
      (reply_rx xcv (selectHitagS_uid_request c r.tx :: r.sent))).2 = 45 ∧
    (∀ i, i < 5 →
      frame_bit (selectHitagS_select c h (selectHitagS_uid_request c r.tx).1
          (reply_rx xcv (selectHitagS_uid_request c r.tx :: r.sent))).1 i =
        frame_bit (Buf.ofList [c.HITAGS_SELECT % 256]) i) ∧
    (∀ i, i < 32 →
      frame_bit (selectHitagS_select c h (selectHitagS_uid_request c r.tx).1
          (reply_rx xcv (selectHitagS_uid_request c r.tx :: r.sent))).1 (5 + i) =
        frame_bit (reply_rx xcv (selectHitagS_uid_request c r.tx :: r.sent)) i) ∧
    (∀ i, i < 8 →
      frame_bit (selectHitagS_select c h (selectHitagS_uid_request c r.tx).1
          (reply_rx xcv (selectHitagS_uid_request c r.tx :: r.sent))).1 (37 + i) =
        frame_bit (Buf.ofList [h.CRC8Hitag1Bits
          (concatbits (concatbits (selectHitagS_uid_request c r.tx).1 0
            (Buf.ofList [c.HITAGS_SELECT % 256]) 0 5).1 5
            (reply_rx xcv (selectHitagS_uid_request c r.tx :: r.sent)) 0 32).1 37 % 256]) i) ∧
    (reply_len xcv (selectHitagS_uid_request c r.tx :: r.sent) ≠ 32 →
      (selectHitagS c h E xcv r packet).2 = -1 ∧
      (selectHitagS c h E xcv r packet).1.sent = selectHitagS_uid_request c r.tx :: r.sent) ∧
    (reply_len xcv (selectHitagS_uid_request c r.tx :: r.sent) = 32 →
      (selectHitagS_selected c h xcv r).sent =
        selectHitagS_select c h (selectHitagS_uid_request c r.tx).1
          (reply_rx xcv (selectHitagS_uid_request c r.tx :: r.sent)) ::
        selectHitagS_uid_request c r.tx :: r.sent ∧
      (reply_len xcv (selectHitagS_selected c h xcv r).sent ≠ 40 →
        (selectHitagS c h E xcv r packet).2 = -1 ∧
        (selectHitagS c h E xcv r packet).1.sent = (selectHitagS_selected c h xcv r).sent) ∧
      (reply_len xcv (selectHitagS_selected c h xcv r).sent = 40 →
        ((selectHitagS_selected c h xcv r).g.tag.auth = false →
          (selectHitagS c h E xcv r packet).2 = 0 ∧
          (selectHitagS c h E xcv r packet).1.sent = (selectHitagS_selected c h xcv r).sent) ∧
        ((selectHitagS_selected c h xcv r).g.tag.auth = true →
          ((packet.cmd = h.RHTSF_KEY ∨ packet.cmd = h.WHTSF_KEY ∨
              packet.cmd = h.RHTSF_CHALLENGE ∨ packet.cmd = h.WHTSF_CHALLENGE) →
            ∃ f3 : Frame, f3.2 = 64 ∧
              (selectHitagS c h E xcv r packet).1.sent =
                f3 :: (selectHitagS_selected c h xcv r).sent ∧
              (reply_len xcv (f3 :: (selectHitagS_selected c h xcv r).sent) ≠ 40 →
                (selectHitagS c h E xcv r packet).2 = -1) ∧
              (reply_len xcv (f3 :: (selectHitagS_selected c h xcv r).sent) = 40 →
                (selectHitagS c h E xcv r packet).2 = 0)) ∧
          (¬ (packet.cmd = h.RHTSF_KEY ∨ packet.cmd = h.WHTSF_KEY ∨
              packet.cmd = h.RHTSF_CHALLENGE ∨ packet.cmd = h.WHTSF_CHALLENGE) →
            (selectHitagS c h E xcv r packet).2 = -1 ∧
            (selectHitagS c h E xcv r packet).1.sent =
              (selectHitagS_selected c h xcv r).sent)))) := by
  refine ⟨rfl, rfl, ?_, ?_, ?_, ?_, ?_⟩
  · intro i hi
    unfold selectHitagS_select
    simp only [concatbits_snd]
    rw [frame_bit_concatbits, if_neg (by omega), if_pos (by omega),
      frame_bit_concatbits, if_neg (by omega), if_pos (by omega),
      frame_bit_concatbits, if_pos (by omega)]
    simp
  · intro i hi
    unfold selectHitagS_select
    simp only [concatbits_snd]
    rw [frame_bit_concatbits, if_neg (by omega), if_pos (by omega),
      frame_bit_concatbits, if_pos (by omega)]
    simp
  · intro i hi
    unfold selectHitagS_select
    simp only [concatbits_snd]
    rw [frame_bit_concatbits, if_pos (by omega)]
    simp
  · intro h1
    rw [selectHitagS_eq, if_pos h1]
    exact ⟨rfl, rfl⟩
  · intro h1
    refine ⟨rfl, ?_, ?_⟩
    · intro h2
      rw [selectHitagS_eq, if_neg (by simpa using h1), if_pos h2]
      exact ⟨rfl, rfl⟩
    · intro h2
      refine ⟨?_, ?_⟩
      · intro ha
        rw [selectHitagS_eq, if_neg (by simpa using h1), if_neg (by simpa using h2),
          if_neg (by simp [ha])]
        exact ⟨rfl, rfl⟩
      · intro ha
        rw [selectHitagS_eq, if_neg (by simpa using h1), if_neg (by simpa using h2),
          if_pos ha, selectHitagS_auth_eq]
        refine ⟨?_, ?_⟩
        · intro hcmd
          by_cases hk : packet.cmd = h.RHTSF_KEY ∨ packet.cmd = h.WHTSF_KEY
          · rw [if_pos hk]
            refine ⟨selectHitagS_key_frame E (selectHitagS_selected c h xcv r).g
              (selectHitagS_key packet) (selectHitagS_selected c h xcv r).tx, rfl, ?_, ?_, ?_⟩
            · split_ifs <;> rfl
            · intro h3; rw [if_pos h3]
            · intro h3; rw [if_neg (by simpa using h3)]
          · have hc : packet.cmd = h.RHTSF_CHALLENGE ∨ packet.cmd = h.WHTSF_CHALLENGE := by
              rcases hcmd with h' | h' | h' | h'
              · exact absurd (Or.inl h') hk
              · exact absurd (Or.inr h') hk
              · exact Or.inl h'
              · exact Or.inr h'
            rw [if_neg hk, if_pos hc]
            refine ⟨selectHitagS_challenge_frame packet (selectHitagS_selected c h xcv r).tx,
              rfl, ?_, ?_, ?_⟩
            · split_ifs <;> rfl
            · intro h3; rw [if_pos h3]
            · intro h3; rw [if_neg (by simpa using h3)]
        · intro hcmd
          have hk : ¬ (packet.cmd = h.RHTSF_KEY ∨ packet.cmd = h.WHTSF_KEY) :=
            fun h' => hcmd (h'.elim Or.inl (fun x => Or.inr (Or.inl x)))
          have hc : ¬ (packet.cmd = h.RHTSF_CHALLENGE ∨ packet.cmd = h.WHTSF_CHALLENGE) :=
            fun h' => hcmd (h'.elim (fun x => Or.inr (Or.inr (Or.inl x)))
              (fun x => Or.inr (Or.inr (Or.inr x))))
          rw [if_neg hk, if_neg hc]
          exact ⟨rfl, rfl⟩

theorem selectHitagS_outcome_witness :
    (selectHitagS sampleProtocol sampleHost sampleCipher
        (scriptedRadio [([0x5F, 0xC2, 0x11, 0x84], 32), ([0xC9, 0x80, 0x00, 0xFF, 0x12], 39)])
        sampleReader (samplePacket 34 0)).2 = -1 ∧
      (selectHitagS sampleProtocol sampleHost sampleCipher
        (scriptedRadio [([0x5F, 0xC2, 0x11, 0x84], 32), ([0xC9, 0x80, 0x00, 0xFF, 0x12], 39)])
        sampleReader (samplePacket 34 0)).1.sent =
      (selectHitagS_selected sampleProtocol sampleHost
        (scriptedRadio [([0x5F, 0xC2, 0x11, 0x84], 32), ([0xC9, 0x80, 0x00, 0xFF, 0x12], 39)])
        sampleReader).sent :=
  ((selectHitagS_outcome sampleProtocol sampleHost sampleCipher
    (scriptedRadio [([0x5F, 0xC2, 0x11, 0x84], 32), ([0xC9, 0x80, 0x00, 0xFF, 0x12], 39)])
    sampleReader (samplePacket 34 0)).2.2.2.2.2.2 (by decide)).2.1 (by decide)

/-- C29 (counterexample): the caller supplies key credentials (`cmd = RHTSF_KEY`), the
UID request is answered with 32 bits and the Select with 40 bits whose configuration
byte 1 is `0x00`, so the decoded `auth` flag is 0: `selectHitagS` returns 0, not -1,
after sending just the UID request and the Select frame. -/
theorem selectHitagS_key_on_plain_tag_returns_0 :
    (samplePacket 34 0).cmd = sampleHost.RHTSF_KEY ∧
    (selectHitagS_selected sampleProtocol sampleHost
      (scriptedRadio [([0x5F, 0xC2, 0x11, 0x84], 32), ([0xC9, 0x00, 0x00, 0xFF, 0x12], 40)])
      sampleReader).g.tag.auth = false ∧
    (selectHitagS sampleProtocol sampleHost sampleCipher
      (scriptedRadio [([0x5F, 0xC2, 0x11, 0x84], 32), ([0xC9, 0x00, 0x00, 0xFF, 0x12], 40)])
      sampleReader (samplePacket 34 0)).2 = 0 ∧
    ((selectHitagS sampleProtocol sampleHost sampleCipher
      (scriptedRadio [([0x5F, 0xC2, 0x11, 0x84], 32), ([0xC9, 0x00, 0x00, 0xFF, 0x12], 40)])
      sampleReader (samplePacket 34 0)).1.sent.map (fun f => f.2)) = [45, 5] := by
  decide

/-- C29 (amended): once the UID request got 32 bits and the Select 40 bits, a tag whose
decoded configuration has `auth = 0` makes `selectHitagS` return 0 whatever credentials
the caller supplies (plain, key or challenge), with no authentication frame sent; the
credentials are an error (-1) only the other way round, when `auth = 1` and the
function code is none of the key and challenge variants. -/
theorem selectHitagS_credentials_mismatch {σ : Type} (c : Protocol) (h : HostApi)
    (E : Cipher σ) (xcv : Transceive) (r : Reader) (packet : lf_hitag_data_t)
    (h1 : reply_len xcv (selectHitagS_uid_request c r.tx :: r.sent) = 32)
    (h2 : reply_len xcv (selectHitagS_selected c h xcv r).sent = 40) :
    ((selectHitagS_selected c h xcv r).g.tag.auth = false →
      selectHitagS c h E xcv r packet = (selectHitagS_selected c h xcv r, 0)) ∧
    ((selectHitagS_selected c h xcv r).g.tag.auth = true →
      ¬ (packet.cmd = h.RHTSF_KEY ∨ packet.cmd = h.WHTSF_KEY ∨
          packet.cmd = h.RHTSF_CHALLENGE ∨ packet.cmd = h.WHTSF_CHALLENGE) →
      selectHitagS c h E xcv r packet = (selectHitagS_selected c h xcv r, -1)) := by
  rw [selectHitagS_eq, if_neg (by simpa using h1), if_neg (by simpa using h2)]
  refine ⟨?_, ?_⟩
  · intro ha
    rw [if_neg (by simp [ha])]
  · intro ha hcmd
    have hk : ¬ (packet.cmd = h.RHTSF_KEY ∨ packet.cmd = h.WHTSF_KEY) :=
      fun h' => hcmd (h'.elim Or.inl (fun x => Or.inr (Or.inl x)))
    have hc : ¬ (packet.cmd = h.RHTSF_CHALLENGE ∨ packet.cmd = h.WHTSF_CHALLENGE) :=
      fun h' => hcmd (h'.elim (fun x => Or.inr (Or.inr (Or.inl x)))
        (fun x => Or.inr (Or.inr (Or.inr x))))
    rw [if_pos ha, selectHitagS_auth_eq, if_neg hk, if_neg hc]

theorem selectHitagS_credentials_mismatch_witness :
    selectHitagS sampleProtocol sampleHost sampleCipher
      (scriptedRadio [([0x5F, 0xC2, 0x11, 0x84], 32), ([0xC9, 0x80, 0x00, 0xFF, 0x12], 40)])
      sampleReader (samplePacket 30 0) =
    (selectHitagS_selected sampleProtocol sampleHost
      (scriptedRadio [([0x5F, 0xC2, 0x11, 0x84], 32), ([0xC9, 0x80, 0x00, 0xFF, 0x12], 40)])
      sampleReader, -1) :=
  (selectHitagS_credentials_mismatch sampleProtocol sampleHost sampleCipher
    (scriptedRadio [([0x5F, 0xC2, 0x11, 0x84], 32), ([0xC9, 0x80, 0x00, 0xFF, 0x12], 40)])
    sampleReader (samplePacket 30 0) (by decide) (by decide)).2 (by decide) (by decide)

/-! ### Reader session: the page-read loop -/

theorem ReadHitagS_rounds_toNat (skip : Bool) (max_page : Int) :
    ∀ fuel pageNum, ReadHitagS_rounds skip max_page fuel pageNum =
      ReadHitagS_rounds skip (max_page.toNat : Int) fuel pageNum := by
  intro fuel
  induction fuel with
  | zero => intro p; rfl
  | succ n ih =>
    intro p
    unfold ReadHitagS_rounds
    rw [ih]
    have hiff : ((ReadHitagS_next skip p : Int) ≥ max_page ↔
        (ReadHitagS_next skip p : Int) ≥ (max_page.toNat : Int)) := by
      omega
    simp only [hiff]

set_option maxRecDepth 100000 in
theorem ReadHitagS_rounds_eq_spec_nat (m : Nat) (hm : m < 65) (skip : Bool) :
    ReadHitagS_rounds skip (m : Int) 65 0 = read_order_spec skip (m : Int) := by
  interval_cases m <;> cases skip <;> rfl

theorem ReadHitagS_rounds_eq_spec (skip : Bool) (max_page : Int) (hm : max_page ≤ 64) :
    ReadHitagS_rounds skip max_page 65 0 = read_order_spec skip max_page := by
  rw [ReadHitagS_rounds_toNat, ReadHitagS_rounds_eq_spec_nat _ (by omega)]
  unfold read_order_spec
  congr 2
  omega

/-- Two bit fields whose bits agree have the same value. -/
theorem frame_field_congr (b1 b2 : Buf) (s1 s2 : Nat) :
    ∀ n, (∀ i, i < n → frame_bit b1 (s1 + i) = frame_bit b2 (s2 + i)) →
      frame_field b1 s1 n = frame_field b2 s2 n := by
  intro n
  induction n with
  | zero => intro _; rfl
  | succ n ih =>
    intro hbits
    simp only [frame_field]
    rw [ih (fun i hi => hbits i (by omega)), hbits n (by omega)]

/-- The 8-bit field read from a one-byte buffer is the byte. -/
theorem frame_field_byte (a : Nat) (ha : a < 256) : frame_field (Buf.ofList [a]) 0 8 = a := by
  simp only [frame_field, frame_bit_eq, Buf.ofList]
  norm_num
  omega

theorem ReadHitagS_frame_len (c : Protocol) (h : HostApi) (tx : Buf) (pageNum : Nat) :
    (ReadHitagS_frame c h tx pageNum).2 = 20 := rfl

/-- The Read-page frame carries the page number in its address field. -/
theorem ReadHitagS_frame_address (c : Protocol) (h : HostApi) (tx : Buf) (pageNum : Nat) :
    frame_address (ReadHitagS_frame c h tx pageNum) = pageNum % 256 := by
  unfold frame_address
  rw [← frame_field_byte (pageNum % 256) (Nat.mod_lt _ (by decide))]
  apply frame_field_congr
  intro i hi
  unfold ReadHitagS_frame
  simp only [concatbits_snd]
  rw [frame_bit_concatbits, if_neg (by omega), if_pos (by omega),
    frame_bit_concatbits, if_pos (by omega)]
  simp

/-- The Read-page frame carries the first 4 bits of the read-page opcode. -/
theorem ReadHitagS_frame_opcode (c : Protocol) (h : HostApi) (tx : Buf) (pageNum : Nat) :
    frame_field (ReadHitagS_frame c h tx pageNum).1 0 4 =
      frame_field (Buf.ofList [c.HITAGS_READ_PAGE % 256]) 0 4 := by
  apply frame_field_congr
  intro i hi
  unfold ReadHitagS_frame
  simp only [concatbits_snd]
  rw [frame_bit_concatbits, if_neg (by omega), if_pos (by omega),
    frame_bit_concatbits, if_neg (by omega), if_pos (by omega),
    frame_bit_concatbits, if_pos (by omega)]
  simp
/-- One round of the `ReadHitagS` loop in terms of the reply of the radio, for a page
number inside the array. -/
theorem ReadHitagS_loop_succ (c : Protocol) (h : HostApi) (xcv : Transceive)
    (cancelled : Nat → Bool) (fuel i : Nat) (r : Reader) (p : Nat)
    (hc : cancelled i = false) (hp : p < 64) :
    ReadHitagS_loop c h xcv cancelled (fuel + 1) i r p =
      if reply_len xcv (ReadHitagS_frame c h r.tx p :: r.sent) = 0 then
        some { r with tx := (ReadHitagS_frame c h r.tx p).1,
                      sent := ReadHitagS_frame c h r.tx p :: r.sent,
                      rx := reply_rx xcv (ReadHitagS_frame c h r.tx p :: r.sent) }
      else if (ReadHitagS_next (r.g.tag.auth && r.g.tag.LKP) p : Int) ≥ r.g.tag.max_page then
        some (ReadHitagS_round c h xcv r p)
      else
        ReadHitagS_loop c h xcv cancelled fuel (i + 1) (ReadHitagS_round c h xcv r p)
          (ReadHitagS_next (r.g.tag.auth && r.g.tag.LKP) p) := by
  have hnext : (if p + 1 = 2 ∧ r.g.tag.auth = true ∧ r.g.tag.LKP = true then 4 else p + 1) =
      ReadHitagS_next (r.g.tag.auth && r.g.tag.LKP) p := by
    unfold ReadHitagS_next
    simp only [Bool.and_eq_true]
  rw [ReadHitagS_loop, ← hnext]
  simp only [hc, Bool.false_eq_true, if_false, sendReceiveHitagS, ReadHitagS_store,
    HITAGS_MAX_PAGES, if_pos hp]
  rfl
/-- The frames sent by the `ReadHitagS` loop started at page `p` with enough fuel, no
cancellation and `max_page ≤ 64`: the loop returns; the frames `L` it sent (latest
first) are Read-page frames for a non-empty prefix of the page numbers of its rounds;
every reply but the last was not empty; and when the prefix is proper the last reply was
empty. -/
theorem ReadHitagS_loop_trace (c : Protocol) (h : HostApi) (xcv : Transceive)
    (cancelled : Nat → Bool) (hc : ∀ i, cancelled i = false) :
    ∀ (fuel i : Nat) (r : Reader) (p : Nat), r.g.tag.max_page ≤ 64 → p < 64 → 64 - p < fuel →
    ∃ (r1 : Reader) (L : List Frame),
      ReadHitagS_loop c h xcv cancelled fuel i r p = some r1 ∧
      r1.sent = L ++ r.sent ∧ 1 ≤ L.length ∧
      L.length ≤ (ReadHitagS_rounds (r.g.tag.auth && r.g.tag.LKP) r.g.tag.max_page
        fuel p).length ∧
      L.reverse.map frame_address =
        (ReadHitagS_rounds (r.g.tag.auth && r.g.tag.LKP) r.g.tag.max_page fuel p).take
          L.length ∧
      (∀ f ∈ L, f.2 = 20 ∧ frame_field f.1 0 4 =
        frame_field (Buf.ofList [c.HITAGS_READ_PAGE % 256]) 0 4) ∧
      (∀ m, 0 < m → m < L.length → reply_len xcv (L.drop m ++ r.sent) ≠ 0) ∧
      (L.length < (ReadHitagS_rounds (r.g.tag.auth && r.g.tag.LKP) r.g.tag.max_page
        fuel p).length → reply_len xcv r1.sent = 0) := by
  intro fuel
  induction fuel with
  | zero => intro i r p _ _ hf; omega
  | succ n ih =>
    intro i r p hM hp hf
    have hfr : ∀ f ∈ [ReadHitagS_frame c h r.tx p], f.2 = 20 ∧ frame_field f.1 0 4 =
        frame_field (Buf.ofList [c.HITAGS_READ_PAGE % 256]) 0 4 := by
      intro f hf
      rw [List.mem_singleton] at hf
      subst hf
      exact ⟨rfl, ReadHitagS_frame_opcode c h r.tx p⟩
    have haddr : frame_address (ReadHitagS_frame c h r.tx p) = p := by
      rw [ReadHitagS_frame_address, Nat.mod_eq_of_lt (by omega)]
    rw [ReadHitagS_loop_succ c h xcv cancelled n i r p (hc i) hp]
    by_cases h0 : reply_len xcv (ReadHitagS_frame c h r.tx p :: r.sent) = 0
    · rw [if_pos h0]
      refine ⟨_, [ReadHitagS_frame c h r.tx p], rfl, rfl, by simp, ?_, ?_, hfr, ?_, ?_⟩
      · simp [ReadHitagS_rounds]
      · simp [ReadHitagS_rounds, haddr]
      · intro m hm1 hm2
        simp at hm2
        omega
      · intro _
        exact h0
    · rw [if_neg h0]
      by_cases hnext : (ReadHitagS_next (r.g.tag.auth && r.g.tag.LKP) p : Int) ≥
          r.g.tag.max_page
      · rw [if_pos hnext]
        refine ⟨_, [ReadHitagS_frame c h r.tx p], rfl, rfl, by simp, ?_, ?_, hfr, ?_, ?_⟩
        · simp [ReadHitagS_rounds]
        · simp [ReadHitagS_rounds, haddr]
        · intro m hm1 hm2
          simp at hm2
          omega
        · intro hlt
          simp [ReadHitagS_rounds, hnext] at hlt
      · rw [if_neg hnext]
        have hn1 : p + 1 ≤ ReadHitagS_next (r.g.tag.auth && r.g.tag.LKP) p := by
          unfold ReadHitagS_next; split_ifs <;> omega
        obtain ⟨r1, L, hl, hs, hL1, hL2, hmap, hfs, hne, hlast⟩ :=
          ih (i + 1) (ReadHitagS_round c h xcv r p)
            (ReadHitagS_next (r.g.tag.auth && r.g.tag.LKP) p) hM (by omega) (by omega)
        have hrs : (ReadHitagS_round c h xcv r p).sent =
            ReadHitagS_frame c h r.tx p :: r.sent := rfl
        have hrounds : ReadHitagS_rounds (r.g.tag.auth && r.g.tag.LKP) r.g.tag.max_page
            (n + 1) p = p :: ReadHitagS_rounds (r.g.tag.auth && r.g.tag.LKP)
              r.g.tag.max_page n (ReadHitagS_next (r.g.tag.auth && r.g.tag.LKP) p) := by
          rw [ReadHitagS_rounds, if_neg hnext]
        have ht : (ReadHitagS_round c h xcv r p).g.tag.auth = r.g.tag.auth ∧
            (ReadHitagS_round c h xcv r p).g.tag.LKP = r.g.tag.LKP ∧
            (ReadHitagS_round c h xcv r p).g.tag.max_page = r.g.tag.max_page :=
          ⟨rfl, rfl, rfl⟩
        rw [ht.1, ht.2.1, ht.2.2] at hL2 hmap hlast
        rw [hrs] at hs hne
        refine ⟨r1, L ++ [ReadHitagS_frame c h r.tx p], hl, by simp [hs], by simp, ?_, ?_,
          ?_, ?_, ?_⟩
        · rw [hrounds]
          simp only [List.length_append, List.length_cons, List.length_nil]
          omega
        · rw [hrounds]
          simp only [List.reverse_append, List.reverse_cons, List.reverse_nil,
            List.nil_append, List.singleton_append, List.map_cons, haddr,
            List.length_append, List.length_cons, List.length_nil, List.take_succ_cons]
          rw [hmap]
        · intro f hf
          rw [List.mem_append] at hf
          rcases hf with hf | hf
          · exact hfs f hf
          · exact hfr f hf
        · intro m hm1 hm2
          simp only [List.length_append, List.length_cons, List.length_nil] at hm2
          by_cases hmL : m < L.length
          · have := hne m hm1 hmL
            rw [List.drop_append_of_le_length (by omega)]
            simpa using this
          · have hmeq : m = L.length := by omega
            subst hmeq
            simpa using h0
        · intro hlt
          rw [hrounds] at hlt
          simp only [List.length_append, List.length_cons, List.length_nil] at hlt
          exact hlast (by omega)
theorem sent_since_append (r0 r1 : Reader) (L : List Frame) (h : r1.sent = L ++ r0.sent) :
    sent_since r0 r1 = L.reverse := by
  unfold sent_since
  rw [h]
  simp

/-- The configuration decoding of `selectHitagS` gives 1, 8 or 64 pages or keeps the
page count. -/
theorem selectHitagS_config_max_page (t : hitagS_tag) (rx : Buf) :
    (selectHitagS_config t rx).max_page =
      (if rx 0 % 4 = 0 then 1 else if rx 0 % 4 = 1 then 8
       else if rx 0 % 4 = 2 then 64 else t.max_page) := by
  unfold selectHitagS_config
  simp only [and_3_eq]
  have hb : rx 0 % 4 < 4 := Nat.mod_lt _ (by decide)
  generalize rx 0 % 4 = v at hb
  interval_cases v <;> simp

theorem selectHitagS_decrypt_tag {σ : Type} (E : Cipher σ) (g : Globals) (key : Nat)
    (rx : Buf) : (selectHitagS_decrypt E g key rx).1.tag = g.tag := rfl

/-- `selectHitagS` keeps `tag.max_page` within the 64 pages of the page array. -/
theorem selectHitagS_max_page_le {σ : Type} (c : Protocol) (h : HostApi) (E : Cipher σ)
    (xcv : Transceive) (r : Reader) (packet : lf_hitag_data_t)
    (hmax : r.g.tag.max_page ≤ 64) :
    (selectHitagS c h E xcv r packet).1.g.tag.max_page ≤ 64 := by
  have hsel : (selectHitagS_selected c h xcv r).g.tag.max_page ≤ 64 := by
    unfold selectHitagS_selected
    simp only [selectHitagS_config_max_page]
    split_ifs <;> omega
  rw [selectHitagS_eq]
  split_ifs
  · exact hmax
  · exact hmax
  · rw [selectHitagS_auth_eq]
    split_ifs <;> exact hsel
  · exact hsel

/-- The `ReadHitagS` loop returns whenever `max_page` is within the page array, whatever
the radio replies and whenever the user cancels. -/
theorem ReadHitagS_loop_returns (c : Protocol) (h : HostApi) (xcv : Transceive)
    (cancelled : Nat → Bool) :
    ∀ (fuel i : Nat) (r : Reader) (p : Nat), r.g.tag.max_page ≤ 64 → p < 64 → 64 - p < fuel →
      ∃ r1, ReadHitagS_loop c h xcv cancelled fuel i r p = some r1 := by
  intro fuel
  induction fuel with
  | zero => intro i r p _ _ hf; omega
  | succ n ih =>
    intro i r p hM hp hf
    by_cases hc : cancelled i = true
    · exact ⟨r, by rw [ReadHitagS_loop, if_pos hc]⟩
    · rw [ReadHitagS_loop_succ c h xcv cancelled n i r p (by simpa using hc) hp]
      split_ifs with h0 hnext
      · exact ⟨_, rfl⟩
      · exact ⟨_, rfl⟩
      · have hn1 : p + 1 ≤ ReadHitagS_next (r.g.tag.auth && r.g.tag.LKP) p := by
          unfold ReadHitagS_next; split_ifs <;> omega
        exact ih (i + 1) (ReadHitagS_round c h xcv r p) _ hM (by omega) (by omega)

/-- A round of the `ReadHitagS` loop whose reply is empty ends the loop and leaves the
file-scope variables, the page array included, as they were. -/
theorem ReadHitagS_loop_empty_reply (c : Protocol) (h : HostApi) (xcv : Transceive)
    (cancelled : Nat → Bool) (fuel i : Nat) (r : Reader) (p : Nat)
    (hc : cancelled i = false)
    (h0 : reply_len xcv (ReadHitagS_frame c h r.tx p :: r.sent) = 0) :
    ReadHitagS_loop c h xcv cancelled (fuel + 1) i r p =
      some { r with tx := (ReadHitagS_frame c h r.tx p).1,
                    sent := ReadHitagS_frame c h r.tx p :: r.sent,
                    rx := reply_rx xcv (ReadHitagS_frame c h r.tx p :: r.sent) } := by
  unfold reply_len at h0
  rw [ReadHitagS_loop]
  simp only [hc, Bool.false_eq_true, if_false, sendReceiveHitagS, h0, if_true]
  rfl
/-- C23: reader page-read loop order.  After a successful select, with no cancellation
and `max_page` within the page array, `ReadHitagS` returns and the frames it sent after
the select are 20-bit Read-page frames whose addresses are, in order, a non-empty prefix
of the page order 0, 1, 2, ... below `max(1, max_page)`, with 2 and 3 left out when the
tag has `auth = 1` and `LKP = 1`; every reply before the last was not empty, the prefix
is proper only if the last reply was empty, it is the whole order when every reply is
non-empty, and at most `max(1, max_page)` exchanges are made. -/
theorem ReadHitagS_page_order {σ : Type} (c : Protocol) (h : HostApi) (E : Cipher σ)
    (xcv : Transceive) (cancelled : Nat → Bool) (r : Reader) (payload : lf_hitag_data_t)
    (hc : ∀ i, cancelled i = false)
    (hsel : (selectHitagS c h E xcv r payload).2 ≠ -1)
    (hmax : r.g.tag.max_page ≤ 64) :
    ∃ r1 rep, ReadHitagS c h E xcv cancelled r payload = some (r1, rep) ∧
      1 ≤ (sent_since (selectHitagS c h E xcv r payload).1 r1).length ∧
      ((sent_since (selectHitagS c h E xcv r payload).1 r1).length : Int) ≤
        max 1 (selectHitagS c h E xcv r payload).1.g.tag.max_page ∧
      (sent_since (selectHitagS c h E xcv r payload).1 r1).map frame_address =
        (ReadHitagS_order (selectHitagS c h E xcv r payload).1.g.tag).take
          (sent_since (selectHitagS c h E xcv r payload).1 r1).length ∧
      (∀ f ∈ sent_since (selectHitagS c h E xcv r payload).1 r1, f.2 = 20 ∧
        frame_field f.1 0 4 = frame_field (Buf.ofList [c.HITAGS_READ_PAGE % 256]) 0 4) ∧
      (∀ m, 0 < m → m < (sent_since (selectHitagS c h E xcv r payload).1 r1).length →
        reply_len xcv (r1.sent.drop m) ≠ 0) ∧
      ((sent_since (selectHitagS c h E xcv r payload).1 r1).length <
          (ReadHitagS_order (selectHitagS c h E xcv r payload).1.g.tag).length →
        reply_len xcv r1.sent = 0) ∧
      ((∀ sent, reply_len xcv sent ≠ 0) →
        (sent_since (selectHitagS c h E xcv r payload).1 r1).map frame_address =
          ReadHitagS_order (selectHitagS c h E xcv r payload).1.g.tag) := by
  have hM := selectHitagS_max_page_le c h E xcv r payload hmax
  generalize hr0 : (selectHitagS c h E xcv r payload).1 = r0 at hM
  obtain ⟨r1, L, hl, hs, hL1, hL2, hmap, hfs, hne, hlast⟩ :=
    ReadHitagS_loop_trace c h xcv cancelled hc 65 0 r0 0 hM (by decide) (by decide)
  rw [ReadHitagS_rounds_eq_spec _ _ hM] at hL2 hmap hlast
  have hss := sent_since_append r0 r1 L hs
  have hlen : (sent_since r0 r1).length = L.length := by rw [hss, List.length_reverse]
  have hord : (ReadHitagS_order r0.g.tag).length ≤ (max 1 r0.g.tag.max_page).toNat := by
    unfold ReadHitagS_order read_order_spec
    exact (List.length_filter_le _ _).trans (by rw [List.length_range])
  refine ⟨r1, ⟨h.PM3_SUCCESS, some r1.g.tag.pages⟩, ?_, ?_, ?_, ?_, ?_, ?_, ?_, ?_⟩
  · unfold ReadHitagS
    have : selectHitagS c h E xcv r payload = (r0, (selectHitagS c h E xcv r payload).2) := by
      rw [← hr0]
    rw [this]
    simp only [if_neg hsel, hl]
  · rw [hlen]; exact hL1
  · rw [hlen]
    unfold ReadHitagS_order at hord
    omega
  · rw [hlen, hss]
    exact hmap
  · intro f hf
    rw [hss, List.mem_reverse] at hf
    exact hfs f hf
  · intro m hm1 hm2
    rw [hlen] at hm2
    rw [hs, List.drop_append_of_le_length (by omega)]
    exact hne m hm1 hm2
  · intro hlt
    rw [hlen] at hlt
    exact hlast hlt
  · intro hall
    rw [hss, hmap]
    by_cases hlt : L.length < (ReadHitagS_order r0.g.tag).length
    · exact absurd (hlast hlt) (hall _)
    · exact List.take_of_length_le (by unfold ReadHitagS_order at hlt; omega)

theorem ReadHitagS_page_order_witness :
    ∃ r1 rep, ReadHitagS sampleProtocol sampleHost sampleCipher answeringRadio
        (fun _ => false) sampleReader (samplePacket 32 0) = some (r1, rep) ∧
      (sent_since (selectHitagS sampleProtocol sampleHost sampleCipher answeringRadio
        sampleReader (samplePacket 32 0)).1 r1).map frame_address = [0, 1, 4, 5, 6, 7] := by
  obtain ⟨r1, rep, h1, _, _, _, _, _, _, hall⟩ :=
    ReadHitagS_page_order sampleProtocol sampleHost sampleCipher answeringRadio
      (fun _ => false) sampleReader (samplePacket 32 0) (fun _ => rfl) (by decide) (by decide)
  refine ⟨r1, rep, h1, ?_⟩
  rw [hall (by
    intro sent
    unfold reply_len answeringRadio
    split_ifs <;> decide)]
  decide
/-- C24: partial success of the read loop.  With `max_page` within the page array,
`ReadHitagS` returns; it reports `PM3_ERFTRANS` with no payload exactly when
`selectHitagS` returned -1, and otherwise `PM3_SUCCESS` with the tag page array, whatever
the Read-page exchanges gave; and a Read-page exchange with a zero-length reply ends the
loop at once with the file-scope variables, so every page stored before, as they
were. -/
theorem ReadHitagS_partial_success {σ : Type} (c : Protocol) (h : HostApi) (E : Cipher σ)
    (xcv : Transceive) (cancelled : Nat → Bool) (r : Reader) (payload : lf_hitag_data_t)
    (hcodes : h.PM3_ERFTRANS ≠ h.PM3_SUCCESS) (hmax : r.g.tag.max_page ≤ 64) :
    ∃ r1 rep, ReadHitagS c h E xcv cancelled r payload = some (r1, rep) ∧
      ((selectHitagS c h E xcv r payload).2 = -1 →
        rep.status = h.PM3_ERFTRANS ∧ rep.payload = none ∧
        r1 = (selectHitagS c h E xcv r payload).1) ∧
      ((selectHitagS c h E xcv r payload).2 ≠ -1 →
        rep.status = h.PM3_SUCCESS ∧ rep.payload = some r1.g.tag.pages) ∧
      (rep.status = h.PM3_ERFTRANS ↔ (selectHitagS c h E xcv r payload).2 = -1) ∧
      (∀ fuel i r2 p, cancelled i = false →
        reply_len xcv (ReadHitagS_frame c h r2.tx p :: r2.sent) = 0 →
        ∃ r3, ReadHitagS_loop c h xcv cancelled (fuel + 1) i r2 p = some r3 ∧
          r3.g = r2.g ∧ r3.sent = ReadHitagS_frame c h r2.tx p :: r2.sent) := by
  have hM := selectHitagS_max_page_le c h E xcv r payload hmax
  have hlast : ∀ fuel i r2 p, cancelled i = false →
      reply_len xcv (ReadHitagS_frame c h r2.tx p :: r2.sent) = 0 →
      ∃ r3, ReadHitagS_loop c h xcv cancelled (fuel + 1) i r2 p = some r3 ∧
        r3.g = r2.g ∧ r3.sent = ReadHitagS_frame c h r2.tx p :: r2.sent := by
    intro fuel i r2 p hc h0
    exact ⟨_, ReadHitagS_loop_empty_reply c h xcv cancelled fuel i r2 p hc h0, rfl, rfl⟩
  by_cases hsel : (selectHitagS c h E xcv r payload).2 = -1
  · refine ⟨(selectHitagS c h E xcv r payload).1, ⟨h.PM3_ERFTRANS, none⟩, ?_, ?_, ?_, ?_,
      hlast⟩
    · unfold ReadHitagS
      simp only [if_pos hsel]
    · intro _; exact ⟨rfl, rfl, rfl⟩
    · intro hne; exact absurd hsel hne
    · exact ⟨fun _ => hsel, fun _ => rfl⟩
  · obtain ⟨r1, hl⟩ := ReadHitagS_loop_returns c h xcv cancelled 65 0
      (selectHitagS c h E xcv r payload).1 0 hM (by decide) (by decide)
    refine ⟨r1, ⟨h.PM3_SUCCESS, some r1.g.tag.pages⟩, ?_, ?_, ?_, ?_, hlast⟩
    · unfold ReadHitagS
      simp only [if_neg hsel, hl]
    · intro he; exact absurd he hsel
    · intro _; exact ⟨rfl, rfl⟩
    · exact ⟨fun he => absurd he.symm hcodes, fun he => absurd he hsel⟩

theorem ReadHitagS_partial_success_witness :
    ∃ r1 rep, ReadHitagS sampleProtocol sampleHost sampleCipher
        (scriptedRadio [([0x5F, 0xC2, 0x11, 0x84], 32), ([0xC9, 0x00, 0x00, 0xFF, 0x12], 40),
          ([0x84, 0x11, 0xC2, 0x5F], 32)])
        (fun _ => false) sampleReader (samplePacket 30 0) = some (r1, rep) ∧
      rep.status = sampleHost.PM3_SUCCESS ∧ rep.payload = some r1.g.tag.pages := by
  obtain ⟨r1, rep, h1, _, h3, _⟩ :=
    ReadHitagS_partial_success sampleProtocol sampleHost sampleCipher
      (scriptedRadio [([0x5F, 0xC2, 0x11, 0x84], 32), ([0xC9, 0x00, 0x00, 0xFF, 0x12], 40),
        ([0x84, 0x11, 0xC2, 0x5F], 32)])
      (fun _ => false) sampleReader (samplePacket 30 0) (by decide) (by decide)
  exact ⟨r1, rep, h1, h3 (by decide)⟩
/-! ### Reader session: page write -/

/-- C25 (the code at the failing input): the tag answers the Select with configuration
byte 0 `0xC9`, so `max_page = 8` and its pages are 0..7.  A write request for page 8 is
not refused: `WritePageHitagS` sends a third frame, the 20-bit Write-page frame with
address 8, and (no acknowledgment coming) reports `PM3_ESOFT`, not `PM3_EINVARG`.  A
request for page 9 is refused with `PM3_EINVARG` after the select (frames of 5 and 45
bits only), and a request for page 0 is refused with nothing sent. -/
theorem WritePageHitagS_accepts_page_max_page :
    (selectHitagS sampleProtocol sampleHost sampleCipher
      (scriptedRadio [([0x5F, 0xC2, 0x11, 0x84], 32), ([0xC9, 0x00, 0x00, 0xFF, 0x12], 40)])
      sampleReader (samplePacket 31 8)).1.g.tag.max_page = 8 ∧
    (WritePageHitagS sampleProtocol sampleHost sampleCipher
      (scriptedRadio [([0x5F, 0xC2, 0x11, 0x84], 32), ([0xC9, 0x00, 0x00, 0xFF, 0x12], 40)])
      sampleReader (samplePacket 31 8)).2 = sampleHost.PM3_ESOFT ∧
    (WritePageHitagS sampleProtocol sampleHost sampleCipher
      (scriptedRadio [([0x5F, 0xC2, 0x11, 0x84], 32), ([0xC9, 0x00, 0x00, 0xFF, 0x12], 40)])
      sampleReader (samplePacket 31 8)).1.sent.map (fun f => f.2) = [20, 45, 5] ∧
    (WritePageHitagS sampleProtocol sampleHost sampleCipher
      (scriptedRadio [([0x5F, 0xC2, 0x11, 0x84], 32), ([0xC9, 0x00, 0x00, 0xFF, 0x12], 40)])
      sampleReader (samplePacket 31 8)).1.sent.head?.map frame_address = some 8 ∧
    (WritePageHitagS sampleProtocol sampleHost sampleCipher
      (scriptedRadio [([0x5F, 0xC2, 0x11, 0x84], 32), ([0xC9, 0x00, 0x00, 0xFF, 0x12], 40)])
      sampleReader (samplePacket 31 9)).2 = sampleHost.PM3_EINVARG ∧
    (WritePageHitagS sampleProtocol sampleHost sampleCipher
      (scriptedRadio [([0x5F, 0xC2, 0x11, 0x84], 32), ([0xC9, 0x00, 0x00, 0xFF, 0x12], 40)])
      sampleReader (samplePacket 31 9)).1.sent.map (fun f => f.2) = [45, 5] ∧
    (WritePageHitagS sampleProtocol sampleHost sampleCipher
      (scriptedRadio [([0x5F, 0xC2, 0x11, 0x84], 32), ([0xC9, 0x00, 0x00, 0xFF, 0x12], 40)])
      sampleReader (samplePacket 31 0)) = (sampleReader, sampleHost.PM3_EINVARG) := by
  refine ⟨by decide, by decide, by decide, by decide, by decide, by decide, rfl⟩
/-- The acknowledgment test of `WritePageHitagS` (lines 1555, 1585) fails exactly when
the reply is not an acknowledgment. -/
theorem not_is_ack_iff (xcv : Transceive) (sent : List Frame) :
    ((xcv sent).2 ≠ 2 ∨ ((xcv sent).1 0 % 256) >>> (8 - 2) ≠ 0x01) ↔ ¬ is_ack xcv sent := by
  have hb : (xcv sent).1 0 % 256 < 256 := Nat.mod_lt _ (by decide)
  have e0 : frame_bit (reply_rx xcv sent) 0 = (xcv sent).1 0 % 256 / 128 % 2 := by
    rw [frame_bit_eq]; rfl
  have e1 : frame_bit (reply_rx xcv sent) 1 = (xcv sent).1 0 % 256 / 64 % 2 := by
    rw [frame_bit_eq]; rfl
  have hf : frame_field (reply_rx xcv sent) 0 2 = ((xcv sent).1 0 % 256) >>> (8 - 2) := by
    have hs : ((xcv sent).1 0 % 256) >>> (8 - 2) = (xcv sent).1 0 % 256 / 64 := by
      rw [Nat.shiftRight_eq_div_pow]
    simp only [frame_field, Nat.zero_add, e0, e1, hs]
    generalize (xcv sent).1 0 % 256 = b at hb
    omega
  unfold is_ack reply_len
  rw [hf]
  tauto

theorem WritePageHitagS_request_len (c : Protocol) (h : HostApi) (tx : Buf) (page : Nat) :
    (WritePageHitagS_request c h tx page).2 = 20 := rfl

theorem WritePageHitagS_data_len (h : HostApi) (tx data : Buf) :
    (WritePageHitagS_data h tx data).2 = 40 := rfl

/-- The Write-page frame carries the page number in its address field. -/
theorem WritePageHitagS_request_address (c : Protocol) (h : HostApi) (tx : Buf) (page : Nat) :
    frame_address (WritePageHitagS_request c h tx page) = page % 256 := by
  unfold frame_address
  rw [← frame_field_byte (page % 256) (Nat.mod_lt _ (by decide))]
  apply frame_field_congr
  intro i hi
  unfold WritePageHitagS_request
  simp only [concatbits_snd]
  rw [frame_bit_concatbits, if_neg (by omega), if_pos (by omega),
    frame_bit_concatbits, if_pos (by omega)]
  simp

/-- The data frame carries the 32 payload bits. -/
theorem WritePageHitagS_data_bits (h : HostApi) (tx data : Buf) (i : Nat) (hi : i < 32) :
    frame_bit (WritePageHitagS_data h tx data).1 i = frame_bit data i := by
  unfold WritePageHitagS_data
  simp only [concatbits_snd]
  rw [frame_bit_concatbits, if_neg (by omega), if_pos (by omega),
    frame_bit_concatbits, if_pos (by omega)]
  simp

/-- `WritePageHitagS` after a successful select, for a page that passes the checks, in
terms of the replies of the radio. -/
theorem WritePageHitagS_eq {σ : Type} (c : Protocol) (h : HostApi) (E : Cipher σ)
    (xcv : Transceive) (r : Reader) (payload : lf_hitag_data_t)
    (hpage : payload.page ≠ 0)
    (hsel : (selectHitagS c h E xcv r payload).2 ≠ -1)
    (hmax : ¬ ((payload.page : Int) > (selectHitagS c h E xcv r payload).1.g.tag.max_page)) :
    WritePageHitagS c h E xcv r payload =
      if ¬ is_ack xcv (WritePageHitagS_request c h (selectHitagS c h E xcv r payload).1.tx
          payload.page :: (selectHitagS c h E xcv r payload).1.sent) then
        ({ (selectHitagS c h E xcv r payload).1 with
            tx := (WritePageHitagS_request c h (selectHitagS c h E xcv r payload).1.tx
              payload.page).1,
            sent := WritePageHitagS_request c h (selectHitagS c h E xcv r payload).1.tx
              payload.page :: (selectHitagS c h E xcv r payload).1.sent,
            rx := reply_rx xcv (WritePageHitagS_request c h
              (selectHitagS c h E xcv r payload).1.tx payload.page ::
                (selectHitagS c h E xcv r payload).1.sent) }, h.PM3_ESOFT)
      else if ¬ is_ack xcv (WritePageHitagS_data h (WritePageHitagS_request c h
          (selectHitagS c h E xcv r payload).1.tx payload.page).1 payload.data ::
          WritePageHitagS_request c h (selectHitagS c h E xcv r payload).1.tx payload.page ::
          (selectHitagS c h E xcv r payload).1.sent) then
        ({ (selectHitagS c h E xcv r payload).1 with
            tx := (WritePageHitagS_data h (WritePageHitagS_request c h
              (selectHitagS c h E xcv r payload).1.tx payload.page).1 payload.data).1,
            sent := WritePageHitagS_data h (WritePageHitagS_request c h
              (selectHitagS c h E xcv r payload).1.tx payload.page).1 payload.data ::
              WritePageHitagS_request c h (selectHitagS c h E xcv r payload).1.tx
                payload.page :: (selectHitagS c h E xcv r payload).1.sent,
            rx := reply_rx xcv (WritePageHitagS_data h (WritePageHitagS_request c h
              (selectHitagS c h E xcv r payload).1.tx payload.page).1 payload.data ::
              WritePageHitagS_request c h (selectHitagS c h E xcv r payload).1.tx
                payload.page :: (selectHitagS c h E xcv r payload).1.sent) }, h.PM3_ESOFT)
      else
        ({ (selectHitagS c h E xcv r payload).1 with
            tx := (WritePageHitagS_data h (WritePageHitagS_request c h
              (selectHitagS c h E xcv r payload).1.tx payload.page).1 payload.data).1,
            sent := WritePageHitagS_data h (WritePageHitagS_request c h
              (selectHitagS c h E xcv r payload).1.tx payload.page).1 payload.data ::
              WritePageHitagS_request c h (selectHitagS c h E xcv r payload).1.tx
                payload.page :: (selectHitagS c h E xcv r payload).1.sent,
            rx := reply_rx xcv (WritePageHitagS_data h (WritePageHitagS_request c h
              (selectHitagS c h E xcv r payload).1.tx payload.page).1 payload.data ::
              WritePageHitagS_request c h (selectHitagS c h E xcv r payload).1.tx
                payload.page :: (selectHitagS c h E xcv r payload).1.sent) },
          h.PM3_SUCCESS) := by
  unfold WritePageHitagS
  generalize selectHitagS c h E xcv r payload = s at hsel hmax
  obtain ⟨r0, res⟩ := s
  simp only at hsel hmax
  simp only [if_neg hpage, if_neg hsel, if_neg hmax, sendReceiveHitagS]
  simp only [Prod.mk.eta, not_is_ack_iff]
  rfl
/-- C26: reader page-write outcome, the radio exchange being an oracle.  For a nonzero
page that passes the `max_page` check and a successful select, `WritePageHitagS` sends a
20-bit Write-page frame carrying the page number; if its reply is not an acknowledgment
(exactly 2 bits with value `01`) the payload frame is never sent and the result is
`PM3_ESOFT`; otherwise it sends a 40-bit frame carrying the 32 payload bits and the
result is `PM3_SUCCESS` when that reply is an acknowledgment and `PM3_ESOFT` when not.
So the result is `PM3_SUCCESS` if and only if both replies are acknowledgments. -/
theorem WritePageHitagS_outcome {σ : Type} (c : Protocol) (h : HostApi) (E : Cipher σ)
    (xcv : Transceive) (r : Reader) (payload : lf_hitag_data_t)
    (hpage : payload.page ≠ 0)
    (hsel : (selectHitagS c h E xcv r payload).2 ≠ -1)
    (hmax : ¬ ((payload.page : Int) > (selectHitagS c h E xcv r payload).1.g.tag.max_page))
    (hcodes : h.PM3_SUCCESS ≠ h.PM3_ESOFT) :
    ∃ f1 f2 : Frame,
      f1 = WritePageHitagS_request c h (selectHitagS c h E xcv r payload).1.tx payload.page ∧
      f2 = WritePageHitagS_data h f1.1 payload.data ∧
      f1.2 = 20 ∧ frame_address f1 = payload.page % 256 ∧
      f2.2 = 40 ∧ (∀ i, i < 32 → frame_bit f2.1 i = frame_bit payload.data i) ∧
      (¬ is_ack xcv (f1 :: (selectHitagS c h E xcv r payload).1.sent) →
        (WritePageHitagS c h E xcv r payload).2 = h.PM3_ESOFT ∧
        (WritePageHitagS c h E xcv r payload).1.sent =
          f1 :: (selectHitagS c h E xcv r payload).1.sent) ∧
      (is_ack xcv (f1 :: (selectHitagS c h E xcv r payload).1.sent) →
        (WritePageHitagS c h E xcv r payload).1.sent =
          f2 :: f1 :: (selectHitagS c h E xcv r payload).1.sent ∧
        (is_ack xcv (f2 :: f1 :: (selectHitagS c h E xcv r payload).1.sent) →
          (WritePageHitagS c h E xcv r payload).2 = h.PM3_SUCCESS) ∧
        (¬ is_ack xcv (f2 :: f1 :: (selectHitagS c h E xcv r payload).1.sent) →
          (WritePageHitagS c h E xcv r payload).2 = h.PM3_ESOFT)) ∧
      ((WritePageHitagS c h E xcv r payload).2 = h.PM3_SUCCESS ↔
        is_ack xcv (f1 :: (selectHitagS c h E xcv r payload).1.sent) ∧
        is_ack xcv (f2 :: f1 :: (selectHitagS c h E xcv r payload).1.sent)) := by
  refine ⟨_, _, rfl, rfl, rfl, WritePageHitagS_request_address _ _ _ _, rfl,
    WritePageHitagS_data_bits _ _ _, ?_, ?_, ?_⟩
  · intro h1
    rw [WritePageHitagS_eq c h E xcv r payload hpage hsel hmax, if_pos h1]
    exact ⟨rfl, rfl⟩
  · intro h1
    rw [WritePageHitagS_eq c h E xcv r payload hpage hsel hmax, if_neg (not_not.mpr h1)]
    refine ⟨by split_ifs <;> rfl, ?_, ?_⟩
    · intro h2; rw [if_neg (not_not.mpr h2)]
    · intro h2; rw [if_pos h2]
  · rw [WritePageHitagS_eq c h E xcv r payload hpage hsel hmax]
    by_cases h1 : is_ack xcv (WritePageHitagS_request c h
        (selectHitagS c h E xcv r payload).1.tx payload.page ::
        (selectHitagS c h E xcv r payload).1.sent)
    · rw [if_neg (not_not.mpr h1)]
      by_cases h2 : is_ack xcv (WritePageHitagS_data h (WritePageHitagS_request c h
          (selectHitagS c h E xcv r payload).1.tx payload.page).1 payload.data ::
          WritePageHitagS_request c h (selectHitagS c h E xcv r payload).1.tx payload.page ::
          (selectHitagS c h E xcv r payload).1.sent)
      · rw [if_neg (not_not.mpr h2)]
        exact ⟨fun _ => ⟨h1, h2⟩, fun _ => rfl⟩
      · rw [if_pos h2]
        exact ⟨fun he => absurd he.symm hcodes, fun ha => absurd ha.2 h2⟩
    · rw [if_pos h1]
      exact ⟨fun he => absurd he.symm hcodes, fun ha => absurd ha.1 h1⟩

theorem WritePageHitagS_outcome_witness :
    (WritePageHitagS sampleProtocol sampleHost sampleCipher
      (scriptedRadio [([0x5F, 0xC2, 0x11, 0x84], 32), ([0xC9, 0x00, 0x00, 0xFF, 0x12], 40),
        ([0x40], 2), ([0x40], 2)])
      sampleReader (samplePacket 31 5)).2 = sampleHost.PM3_SUCCESS := by
  obtain ⟨f1, f2, e1, e2, _, _, _, _, _, _, hiff⟩ :=
    WritePageHitagS_outcome sampleProtocol sampleHost sampleCipher
      (scriptedRadio [([0x5F, 0xC2, 0x11, 0x84], 32), ([0xC9, 0x00, 0x00, 0xFF, 0x12], 40),
        ([0x40], 2), ([0x40], 2)])
      sampleReader (samplePacket 31 5) (by decide) (by decide) (by decide) (by decide)
  subst e2 e1
  exact hiff.mpr ⟨by decide, by decide⟩
/-! ### Reader session: challenge sweep -/

/-- C27 (the code at the failing input): with two complete records (`datalen = 16`) and
no cancellation, `Hitag_check_challenges` makes a single attempt, for the record at
offset 0, which the tag accepts (three frames sent, the last one of 64 bits); the record
at offset 8 is never tried.  With three records (`datalen = 24`) the attempts are at
offsets 0 and 8 only.  With one record (`datalen = 8`) the attempt at offset 0 is made,
and with `datalen = 7` the result is `PM3_EINVARG` with no attempt. -/
theorem Hitag_check_challenges_skips_last_record :
    (Hitag_check_challenges sampleProtocol sampleHost sampleCipher answeringRadio
        (fun _ => false) sampleReader (Buf.ofList (List.range 16)) 16).map
      (fun x => (x.2.1, x.2.2, x.1.sent.map (fun f => f.2))) =
      some ([(0, 0)], sampleHost.PM3_SUCCESS, [64, 45, 5]) ∧
    (Hitag_check_challenges sampleProtocol sampleHost sampleCipher answeringRadio
        (fun _ => false) sampleReader (Buf.ofList (List.range 24)) 24).map
      (fun x => (x.2.1, x.2.2)) = some ([(0, 0), (8, 0)], sampleHost.PM3_SUCCESS) ∧
    (Hitag_check_challenges sampleProtocol sampleHost sampleCipher answeringRadio
        (fun _ => false) sampleReader (Buf.ofList (List.range 8)) 8).map
      (fun x => (x.2.1, x.2.2)) = some ([(0, 0)], sampleHost.PM3_SUCCESS) ∧
    (Hitag_check_challenges sampleProtocol sampleHost sampleCipher answeringRadio
        (fun _ => false) sampleReader (Buf.ofList (List.range 7)) 7).map
      (fun x => (x.2.1, x.2.2, x.1.sent.length)) = some ([], sampleHost.PM3_EINVARG, 0) := by
  refine ⟨by decide, by decide, by decide, by decide⟩

/-! ### Reader receive path: Manchester classification -/

/-- A bit shifted into place has just that bit set. -/
theorem bit_shiftLeft_testBit (b k m : Nat) (hb : b ≤ 1) :
    (b <<< k).testBit m = (decide (m = k) && decide (b = 1)) := by
  rw [Nat.testBit_shiftLeft]
  interval_cases b
  · simp
  · by_cases h : m = k
    · subst h; simp
    · by_cases hge : m ≥ k
      · obtain ⟨t, ht⟩ : ∃ t, m - k = t + 1 := ⟨m - k - 1, by omega⟩
        simp [h, hge, ht, Nat.testBit_succ]
      · simp [h, hge]

/-- Or-ing a bit into position `k` of a buffer whose bit `k` is clear sets that bit to
the given value and leaves the other bits. -/
theorem frame_bit_set_or (B : Buf) (k b p : Nat) (hb : b ≤ 1) (hz : frame_bit B k = 0) :
    frame_bit (Buf.set B (k / 8) (B (k / 8) ||| (b <<< (7 - (k % 8))))) p =
      if p = k then b else frame_bit B p := by
  have hz1 : (B (k / 8)).testBit (7 - k % 8) = false := by
    unfold frame_bit at hz
    by_cases ht : (B (k / 8)).testBit (7 - k % 8) = true
    · rw [if_pos ht] at hz; exact absurd hz (by decide)
    · simpa using ht
  unfold frame_bit
  by_cases hbyte : p / 8 = k / 8
  · rw [hbyte, Buf.set_same, Nat.testBit_or, bit_shiftLeft_testBit _ _ _ hb]
    by_cases hp : p = k
    · subst hp
      rw [if_pos rfl, hz1]
      interval_cases b <;> simp
    · have hne : ¬ (7 - p % 8 = 7 - k % 8) := by omega
      rw [if_neg hp, ← hbyte]
      simp [hne]
  · have hp : p ≠ k := fun h => hbyte (by rw [h])
    rw [Buf.set_ne _ _ _ _ hbyte, if_neg hp]

/-- Appending one bit to the receive buffer, when the bits received so far are `bits`
and there is room for one more. -/
theorem RxState.put_spec (sizeofrx : Nat) (s : RxState) (bits : List Nat) (b : Nat)
    (hlen : s.rxlen = bits.length)
    (hbits : ∀ p, p < 8 * sizeofrx → frame_bit s.rx p = bits.getD p 0)
    (hb : b ≤ 1) (hroom : bits.length < 8 * sizeofrx) :
    ∃ s1, s.put sizeofrx b = some s1 ∧ s1.rxlen = (bits ++ [b]).length ∧
      (∀ p, p < 8 * sizeofrx → frame_bit s1.rx p = (bits ++ [b]).getD p 0) ∧
      s1.lastbit = s.lastbit ∧ s1.bSkip = s.bSkip ∧ s1.resptime = s.resptime ∧
      s1.errorCount = s.errorCount ∧ s1.bStarted = s.bStarted ∧ s1.ra_i = s.ra_i := by
  have hr : s.rxlen / 8 < sizeofrx := by omega
  have hz : frame_bit s.rx s.rxlen = 0 := by
    rw [hbits _ (by omega), hlen]
    simp
  refine ⟨{ s with
      rx := s.rx.set (s.rxlen / 8) (s.rx (s.rxlen / 8) ||| (b <<< (7 - (s.rxlen % 8))))
      rxlen := s.rxlen + 1 }, by unfold RxState.put; rw [if_pos hr], ?_, ?_, rfl, rfl, rfl,
    rfl, rfl, rfl⟩
  · simp [hlen]
  · intro p hp
    simp only
    rw [frame_bit_set_or _ _ _ _ hb hz]
    by_cases hpk : p = s.rxlen
    · rw [if_pos hpk, hpk, hlen]
      simp
    · rw [if_neg hpk, hbits p hp]
      rw [hlen] at hpk
      by_cases hlt : p < bits.length
      · simp [List.getD_eq_getElem?_getD, List.getElem?_append_left hlt]
      · have h1 : bits.length < p := by omega
        have h2 : (bits ++ [b])[p]? = none :=
          List.getElem?_eq_none (by simp; omega)
        simp [List.getD_eq_getElem?_getD, List.getElem?_eq_none, Nat.le_of_lt h1, h2]

/-- One captured edge: the code takes the step of the specification's classification,
when `edges[]` and `rx` have room. -/
theorem hitagS_receive_edge_spec (sizeofrx : Nat) (s : RxState) (d : Decoded) (ra : Nat)
    (hR : s.holds sizeofrx d) (hra : s.ra_i < 160)
    (hroom : (manchester_classify d ra).bits.length ≤ 8 * sizeofrx) :
    ∃ s1, hitagS_receive_edge sizeofrx s ra = some s1 ∧
      s1.holds sizeofrx (manchester_classify d ra) ∧ s1.ra_i = s.ra_i + 1 := by
  obtain ⟨hlen, hbits, hlast, hl1, hskip, hst, herr, hnil⟩ := hR
  unfold hitagS_receive_edge
  rw [if_pos hra]
  simp only
  by_cases hstarted : d.started = false
  · -- not yet started
    have hsf : s.bStarted = false := by rw [hst, hstarted]
    have hb0 := hnil hstarted
    rw [if_pos hsf]
    by_cases h200 : ra ≥ HITAG_T_WAIT_RESP
    · have hcl : manchester_classify d ra = { d with started := true, bits := d.bits ++ [1] } := by
        unfold manchester_classify
        unfold HITAG_T_WAIT_RESP at h200
        rw [if_pos hstarted, if_pos h200]
      rw [hcl] at hroom ⊢
      have hsz : 0 < sizeofrx := by
        simp only [List.length_append, List.length_cons, List.length_nil] at hroom
        omega
      rw [if_pos h200, if_pos hsz]
      refine ⟨_, rfl, ⟨?_, ?_, hlast, hl1, hskip, rfl, herr, ?_⟩, rfl⟩
      · simp [hlen]
      · intro p hp
        simp only [hb0, List.nil_append]
        have hold := hbits p hp
        rw [hb0] at hold
        by_cases hp8 : p < 8
        · have hbyte : p / 8 = 0 := by omega
          unfold frame_bit
          rw [hbyte, Buf.set_same]
          interval_cases p <;> decide
        · have hbyte : p / 8 ≠ 0 := by omega
          unfold frame_bit at hold ⊢
          rw [Buf.set_ne _ _ _ _ hbyte, hold]
          have : 1 ≤ p := by omega
          simp [List.getD_eq_getElem?_getD, List.getElem?_eq_none, this]
      · intro h; exact absurd h (by simp)
    · have hcl : manchester_classify d ra = { d with noise := d.noise + 1 } := by
        unfold manchester_classify
        unfold HITAG_T_WAIT_RESP at h200
        rw [if_pos hstarted, if_neg h200]
      rw [hcl, if_neg h200]
      exact ⟨_, rfl, ⟨hlen, hbits, hlast, hl1, hskip, hst, by simp [herr], hnil⟩, rfl⟩
  · -- started
    have hdt : d.started = true := by simpa using hstarted
    have hst1 : ¬ (s.bStarted = false) := by rw [hst, hdt]; simp
    rw [if_neg hst1]
    have hnil1 : ∀ bits : List Nat, (true = false → bits = []) := fun _ h => absurd h (by simp)
    by_cases h57 : ra ≥ HITAG_T_TAG_CAPTURE_FOUR_HALF
    · have hcl : manchester_classify d ra = { d with bits := d.bits ++ [0, 1] } := by
        unfold manchester_classify
        unfold HITAG_T_TAG_CAPTURE_FOUR_HALF at h57
        rw [if_neg hstarted, if_pos h57]
      rw [hcl] at hroom ⊢
      simp only [List.length_append, List.length_cons, List.length_nil] at hroom
      rw [if_pos h57]
      obtain ⟨s1, e1, l1, b1, f1, f2, _, f4, f5, f6⟩ :=
        RxState.put_spec sizeofrx { s with ra_i := s.ra_i + 1 } d.bits 0 hlen hbits (by decide)
          (by omega)
      obtain ⟨s2, e2, l2, b2, g1, g2, _, g4, g5, g6⟩ :=
        RxState.put_spec sizeofrx s1 (d.bits ++ [0]) 1 l1 b1 (by decide)
          (by simp only [List.length_append, List.length_cons, List.length_nil]; omega)
      refine ⟨s2, by simp [e1, e2], ⟨?_, ?_, ?_, hl1, ?_, ?_, ?_, ?_⟩, ?_⟩
      · simpa using l2
      · simpa using b2
      · rw [g1, f1]; exact hlast
      · rw [g2, f2]; exact hskip
      · rw [g5, f5]; exact hst
      · rw [g4, f4]; exact herr
      · rw [hdt]; exact hnil1 _
      · rw [g6, f6]
    · rw [if_neg h57]
      by_cases h41 : ra ≥ HITAG_T_TAG_CAPTURE_THREE_HALF
      · rw [if_pos h41]
        have hcl : manchester_classify d ra =
            { d with bits := d.bits ++ (if d.threes % 2 = 1 then [0, 1] else [0]),
                     lastbit := 1 - d.lastbit, threes := d.threes + 1 } := by
          unfold manchester_classify
          unfold HITAG_T_TAG_CAPTURE_FOUR_HALF at h57
          unfold HITAG_T_TAG_CAPTURE_THREE_HALF at h41
          rw [if_neg hstarted, if_neg h57, if_pos h41]
        rw [hcl] at hroom ⊢
        obtain ⟨s1, e1, l1, b1, f1, f2, _, f4, f5, f6⟩ :=
          RxState.put_spec sizeofrx { s with ra_i := s.ra_i + 1 } d.bits 0 hlen hbits
            (by decide) (by
              simp only [List.length_append] at hroom
              split_ifs at hroom <;> simp at hroom <;> omega)
        have hlb : (if s1.lastbit = 0 then 1 else 0) = 1 - d.lastbit := by
          rw [f1]
          simp only
          rw [hlast]
          interval_cases d.lastbit <;> simp
        have hsk : ∀ b : Bool, b = decide (d.threes % 2 = 0) →
            (!b) = decide ((d.threes + 1) % 2 = 0) := by
          intro b hb
          rw [hb]
          rcases Nat.mod_two_eq_zero_or_one d.threes with h | h
          · have : (d.threes + 1) % 2 = 1 := by omega
            simp [h, this]
          · have : (d.threes + 1) % 2 = 0 := by omega
            simp [h, this]
        by_cases hodd : d.threes % 2 = 1
        · have hs1 : s1.bSkip = false := by
            rw [f2]; simp only; rw [hskip]; simp [hodd]
          simp only [if_pos hodd] at hroom ⊢
          simp only [List.length_append, List.length_cons, List.length_nil] at hroom
          obtain ⟨s2, e2, l2, b2, g1, g2, _, g4, g5, g6⟩ :=
            RxState.put_spec sizeofrx s1 (d.bits ++ [0]) 1 l1 b1 (by decide)
              (by simp only [List.length_append, List.length_cons, List.length_nil]; omega)
          refine ⟨{ s2 with lastbit := if s2.lastbit = 0 then 1 else 0, bSkip := !s2.bSkip },
            by simp [e1, hs1, e2], ⟨?_, ?_, ?_, ?_, ?_, ?_, ?_, ?_⟩, ?_⟩
          · simpa using l2
          · simpa using b2
          · simp only; rw [g1]; exact hlb
          · simp only; omega
          · simp only; rw [g2, f2]; exact hsk _ hskip
          · simp only; rw [g5, f5]; exact hst
          · simp only; rw [g4, f4]; exact herr
          · simp only; rw [hdt]; exact hnil1 _
          · simp only; rw [g6, f6]
        · have hs1 : ¬ (s1.bSkip = false) := by
            rw [f2]; simp only; rw [hskip]
            have : d.threes % 2 = 0 := by omega
            simp [this]
          simp only [if_neg hodd] at hroom ⊢
          refine ⟨{ s1 with lastbit := if s1.lastbit = 0 then 1 else 0, bSkip := !s1.bSkip },
            by simp [e1, hs1], ⟨?_, ?_, ?_, ?_, ?_, ?_, ?_, ?_⟩, ?_⟩
          · simpa using l1
          · simpa using b1
          · simp only; exact hlb
          · simp only; omega
          · simp only; rw [f2]; exact hsk _ hskip
          · simp only; rw [f5]; exact hst
          · simp only; rw [f4]; exact herr
          · simp only; rw [hdt]; exact hnil1 _
          · simp only; rw [f6]
      · rw [if_neg h41]
        by_cases h25 : ra ≥ HITAG_T_TAG_CAPTURE_TWO_HALF
        · rw [if_pos h25]
          have hcl : manchester_classify d ra = { d with bits := d.bits ++ [d.lastbit] } := by
            unfold manchester_classify
            unfold HITAG_T_TAG_CAPTURE_FOUR_HALF at h57
            unfold HITAG_T_TAG_CAPTURE_THREE_HALF at h41
            unfold HITAG_T_TAG_CAPTURE_TWO_HALF at h25
            rw [if_neg hstarted, if_neg h57, if_neg h41, if_pos h25]
          rw [hcl] at hroom ⊢
          simp only [List.length_append, List.length_cons, List.length_nil] at hroom
          obtain ⟨s1, e1, l1, b1, f1, f2, _, f4, f5, f6⟩ :=
            RxState.put_spec sizeofrx { s with ra_i := s.ra_i + 1 } d.bits d.lastbit hlen hbits
              hl1 (by omega)
          refine ⟨s1, by rw [← hlast] at e1; exact e1, ⟨l1, b1, ?_, hl1, ?_, ?_, ?_, ?_⟩, ?_⟩
          · rw [f1]; exact hlast
          · rw [f2]; exact hskip
          · rw [f5]; exact hst
          · rw [f4]; exact herr
          · rw [hdt]; exact hnil1 _
          · rw [f6]
        · rw [if_neg h25]
          have hcl : manchester_classify d ra = { d with noise := d.noise + 1 } := by
            unfold manchester_classify
            unfold HITAG_T_TAG_CAPTURE_FOUR_HALF at h57
            unfold HITAG_T_TAG_CAPTURE_THREE_HALF at h41
            unfold HITAG_T_TAG_CAPTURE_TWO_HALF at h25
            rw [if_neg hstarted, if_neg h57, if_neg h41, if_neg h25]
          rw [hcl]
          exact ⟨_, rfl, ⟨hlen, hbits, hlast, hl1, hskip, hst, by simp [herr], hnil⟩, rfl⟩

/-- A classification step never removes emitted bits or noise counts, and it emits a bit
or counts one noise. -/
theorem manchester_classify_mono (d : Decoded) (ra : Nat) :
    d.bits.length ≤ (manchester_classify d ra).bits.length ∧
    d.noise ≤ (manchester_classify d ra).noise ∧
    d.bits.length + d.noise + 1 ≤
      (manchester_classify d ra).bits.length + (manchester_classify d ra).noise := by
  unfold manchester_classify
  split_ifs <;> simp <;> omega

theorem manchester_classify_foldl_mono (l : List Nat) (d : Decoded) :
    d.bits.length ≤ (l.foldl manchester_classify d).bits.length ∧
    d.noise ≤ (l.foldl manchester_classify d).noise ∧
    d.bits.length + d.noise + l.length ≤
      (l.foldl manchester_classify d).bits.length + (l.foldl manchester_classify d).noise := by
  induction l generalizing d with
  | nil => simp
  | cons ra l ih =>
    obtain ⟨h1, h2, h3⟩ := manchester_classify_mono d ra
    obtain ⟨i1, i2, i3⟩ := ih (manchester_classify d ra)
    simp only [List.foldl_cons, List.length_cons]
    omega

theorem hitagS_receive_loop_cons (sizeofrx : Nat) (e : Option Nat)
    (rounds : List (Option Nat)) (s : RxState) :
    hitagS_receive_loop sizeofrx (e :: rounds) s =
      match (match e with
        | some ra => hitagS_receive_edge sizeofrx s ra
        | none => some s) with
      | none => none
      | some s1 =>
        if s1.errorCount > 100 ∨ s1.rxlen / 8 ≥ sizeofrx then some s1
        else hitagS_receive_loop sizeofrx rounds s1 := rfl

/-- The receive loop takes the steps of the specification's classification on the
captured values of its rounds, as long as `edges[]` and `rx` have room and no more than
100 weird values are seen. -/
theorem hitagS_receive_loop_spec (sizeofrx : Nat) (rounds : List (Option Nat)) (s : RxState)
    (d : Decoded) (hR : s.holds sizeofrx d)
    (hedges : s.ra_i + rounds.reduceOption.length ≤ 160)
    (hroom : (rounds.reduceOption.foldl manchester_classify d).bits.length < 8 * sizeofrx)
    (hnoise : (rounds.reduceOption.foldl manchester_classify d).noise ≤ 100) :
    ∃ s1, hitagS_receive_loop sizeofrx rounds s = some s1 ∧
      s1.holds sizeofrx (rounds.reduceOption.foldl manchester_classify d) := by
  induction rounds generalizing s d with
  | nil => exact ⟨s, rfl, hR⟩
  | cons e rounds ih =>
    cases e with
    | none =>
      simp only [List.reduceOption_cons_of_none] at hedges hroom hnoise ⊢
      obtain ⟨hlen, _, _, _, _, _, herr, _⟩ := id hR
      obtain ⟨m1, m2, _⟩ := manchester_classify_foldl_mono rounds.reduceOption d
      have hc : ¬ (s.errorCount > 100 ∨ s.rxlen / 8 ≥ sizeofrx) := by
        rw [herr, hlen]
        intro h
        rcases h with h | h
        · omega
        · have := Nat.div_lt_of_lt_mul (lt_of_le_of_lt m1 hroom)
          omega
      rw [hitagS_receive_loop_cons]
      simp only [if_neg hc]
      exact ih s d hR hedges hroom hnoise
    | some ra =>
      simp only [List.reduceOption_cons_of_some, List.foldl_cons, List.length_cons]
        at hedges hroom hnoise ⊢
      obtain ⟨m1, m2, _⟩ :=
        manchester_classify_foldl_mono rounds.reduceOption (manchester_classify d ra)
      obtain ⟨s1, e1, hR1, hra1⟩ :=
        hitagS_receive_edge_spec sizeofrx s d ra hR (by omega) (by omega)
      obtain ⟨hlen, _, _, _, _, _, herr, _⟩ := id hR1
      have hc : ¬ (s1.errorCount > 100 ∨ s1.rxlen / 8 ≥ sizeofrx) := by
        rw [herr, hlen]
        intro h
        rcases h with h | h
        · omega
        · have := Nat.div_lt_of_lt_mul (lt_of_le_of_lt m1 hroom)
          omega
      rw [hitagS_receive_loop_cons]
      simp only [e1, if_neg hc]
      exact ih s1 _ hR1 (by omega) hroom hnoise

/-- A buffer whose first bits are those of a list has that list as its frame bits. -/
theorem frame_bits_eq_of_getD (b : Buf) (l : List Nat)
    (h : ∀ p, p < l.length → frame_bit b p = l.getD p 0) : frame_bits b l.length = l := by
  apply List.ext_getElem
  · simp [frame_bits]
  · intro p h1 h2
    simp only [frame_bits, List.getElem_map, List.getElem_range]
    rw [h p h2, List.getD_eq_getElem _ _ h2]

/-- From the zeroed buffer `hitagS_receive_frame` ends in a state that holds what the
specification's classification decodes from the captured values. -/
theorem hitagS_receive_frame_refines (rx : Buf) (sizeofrx : Nat) (rounds : List (Option Nat))
    (hedges : rounds.reduceOption.length ≤ 160)
    (hroom : (manchester_decode rounds.reduceOption).bits.length < 8 * sizeofrx)
    (hnoise : (manchester_decode rounds.reduceOption).noise ≤ 100) :
    ∃ s, hitagS_receive_frame rx sizeofrx rounds = some s ∧
      s.holds sizeofrx (manchester_decode rounds.reduceOption) := by
  unfold hitagS_receive_frame manchester_decode
  apply hitagS_receive_loop_spec
  · refine ⟨rfl, ?_, rfl, by decide, rfl, rfl, rfl, fun _ => rfl⟩
    intro p hp
    have : p / 8 < sizeofrx := Nat.div_lt_of_lt_mul hp
    simp [frame_bit, this]
  · simpa using hedges
  · exact hroom
  · exact hnoise

/-- C30: Manchester interval classification.  Over the rounds of its loop, of which each
either captured an edge interval (in T0 units) or not, `hitagS_receive_frame` returns, and
it leaves in `rx` and `*rxlen` exactly the bits that the classification of the
specification (`manchester_decode`: before the start an interval >= 200 starts the frame
and emits a 1 and a shorter one is noise; then >= 57 emits 0 1, [41, 57) emits 0, with a
trailing 1 on every second such interval, and toggles the remembered last bit, [25, 41)
emits the remembered last bit, initially 1, and < 25 is noise) emits for the captured
intervals folded in order, with the same remembered last bit, started flag and noise
count; this as long as the intervals fit `edges[160]`, the emitted bits stay below the
buffer capacity and no more than 100 noise values are seen. -/
theorem hitagS_receive_frame_manchester (rx : Buf) (sizeofrx : Nat)
    (rounds : List (Option Nat))
    (hedges : rounds.reduceOption.length ≤ 160)
    (hroom : (manchester_decode rounds.reduceOption).bits.length < 8 * sizeofrx)
    (hnoise : (manchester_decode rounds.reduceOption).noise ≤ 100) :
    ∃ s, hitagS_receive_frame rx sizeofrx rounds = some s ∧
      s.rxlen = (manchester_decode rounds.reduceOption).bits.length ∧
      frame_bits s.rx s.rxlen = (manchester_decode rounds.reduceOption).bits ∧
      s.lastbit = (manchester_decode rounds.reduceOption).lastbit ∧
      s.bStarted = (manchester_decode rounds.reduceOption).started ∧
      s.errorCount = (manchester_decode rounds.reduceOption).noise := by
  obtain ⟨s, hs, hlen, hbits, hlast, _, _, hst, herr, _⟩ :=
    hitagS_receive_frame_refines rx sizeofrx rounds hedges hroom hnoise
  refine ⟨s, hs, hlen, ?_, hlast, hst, herr⟩
  rw [hlen]
  exact frame_bits_eq_of_getD _ _ (fun p hp => hbits p (by omega))

theorem hitagS_receive_frame_manchester_witness :
    (manchester_decode [210, 48, 32, 64, 10]).bits = [1, 0, 0, 0, 1] ∧
    (manchester_decode [210, 48, 32, 64, 10]).noise = 1 ∧
    ∃ s, hitagS_receive_frame (fun _ => 0xFF) 2
        [some 210, none, some 48, some 32, some 64, some 10] = some s ∧
      s.rxlen = (manchester_decode [210, 48, 32, 64, 10]).bits.length ∧
      frame_bits s.rx s.rxlen = (manchester_decode [210, 48, 32, 64, 10]).bits ∧
      s.lastbit = (manchester_decode [210, 48, 32, 64, 10]).lastbit ∧
      s.bStarted = (manchester_decode [210, 48, 32, 64, 10]).started ∧
      s.errorCount = (manchester_decode [210, 48, 32, 64, 10]).noise :=
  ⟨by decide, by decide,
    hitagS_receive_frame_manchester (fun _ => 0xFF) 2
      [some 210, none, some 48, some 32, some 64, some 10] (by decide) (by decide) (by decide)⟩

/-! ### Codec round trip -/

theorem encode_bits_nil (m : MOD) : encode_bits m [] = [] := rfl

theorem encode_bits_cons (m : MOD) (b : Nat) (bs : List Nat) :
    encode_bits m (b :: bs) = segment_durations 0 (hitag_send_bit m b) ++ encode_bits m bs := by
  simp [encode_bits]

theorem encode_bits_append (m : MOD) (as bs : List Nat) :
    encode_bits m (as ++ bs) = encode_bits m as ++ encode_bits m bs := by
  simp [encode_bits]

/-- The frame `hitag_send_frame` sends is the lead-in, the start-of-frame ones, the
payload bits and the final `LOW`. -/
theorem hitag_send_frame_eq (m : MOD) (sof_bits : Nat) (frame : Buf) (frame_len : Nat) :
    hitag_send_frame m sof_bits frame frame_len =
      (match m with
        | .AC4K | .MC8K => [(Level.HIGH, T0 * 40)]
        | .AC2K | .MC4K => [(Level.HIGH, T0 * 20)]) ++
      encode_bits m (List.replicate sof_bits 1 ++ frame_bits frame frame_len) ++
      [(Level.LOW, 0)] := by
  have h1 : ((List.range sof_bits).flatMap fun _ => segment_durations 0 (hitag_send_bit m 1)) =
      encode_bits m (List.replicate sof_bits 1) := by
    induction sof_bits with
    | zero => rfl
    | succ k ih =>
      rw [List.range_succ, List.flatMap_append, ih, List.replicate_succ', encode_bits_append]
      simp [encode_bits]
  have h2 : ((List.range frame_len).flatMap fun i =>
      segment_durations 0 (hitag_send_bit m ((frame (i / 8) >>> (7 - (i % 8))) &&& 1))) =
      encode_bits m (frame_bits frame frame_len) := by
    simp only [encode_bits, frame_bits, List.flatMap_map, frame_bit]
    congr 1
    funext i
    rw [shiftRight_and_one]
  unfold hitag_send_frame
  simp only [h1, h2, encode_bits_append, List.append_assoc]

theorem decode_segments_nil (d : Decoded) (prev : Level) (e : Nat) :
    decode_segments d prev e [] = d := rfl

theorem decode_segments_edge (d : Decoded) (e dur : Nat) (rest : List (Level × Nat)) :
    decode_segments d .HIGH e ((.LOW, dur) :: rest) =
      decode_segments (manchester_classify d (e / T0)) .LOW dur rest := by
  simp [decode_segments, falling_edge_ticks]

theorem decode_segments_high (d : Decoded) (prev : Level) (e dur : Nat)
    (rest : List (Level × Nat)) :
    decode_segments d prev e ((.HIGH, dur) :: rest) = decode_segments d .HIGH (e + dur) rest := by
  simp [decode_segments, falling_edge_ticks]

theorem decode_segments_low (d : Decoded) (e dur : Nat) (rest : List (Level × Nat)) :
    decode_segments d .LOW e ((.LOW, dur) :: rest) = decode_segments d .LOW (e + dur) rest := by
  simp [decode_segments, falling_edge_ticks]

theorem manchester_classify_start (bits : List Nat) (lb t z ra : Nat) (h : 200 ≤ ra) :
    manchester_classify ⟨bits, false, lb, t, z⟩ ra = ⟨bits ++ [1], true, lb, t, z⟩ := by
  simp [manchester_classify, h]

theorem manchester_classify_32 (bits : List Nat) (lb t z : Nat) :
    manchester_classify ⟨bits, true, lb, t, z⟩ 32 = ⟨bits ++ [lb], true, lb, t, z⟩ := by
  simp [manchester_classify]

theorem manchester_classify_48_even (bits : List Nat) (lb t z : Nat) (h : t % 2 = 0) :
    manchester_classify ⟨bits, true, lb, t, z⟩ 48 = ⟨bits ++ [0], true, 1 - lb, t + 1, z⟩ := by
  simp [manchester_classify, h]

theorem manchester_classify_48_odd (bits : List Nat) (lb t z : Nat) (h : t % 2 = 1) :
    manchester_classify ⟨bits, true, lb, t, z⟩ 48 =
      ⟨bits ++ [0, 1], true, 1 - lb, t + 1, z⟩ := by
  simp [manchester_classify, h]

theorem manchester_classify_64 (bits : List Nat) (lb t z : Nat) :
    manchester_classify ⟨bits, true, lb, t, z⟩ 64 = ⟨bits ++ [0, 1], true, lb, t, z⟩ := by
  simp [manchester_classify]

theorem segment_durations_MC4K (b : Nat) :
    segment_durations 0 (hitag_send_bit .MC4K b) =
      if b = 0 then [(.LOW, 192), (.HIGH, 192)] else [(.HIGH, 192), (.LOW, 192)] := by
  unfold hitag_send_bit
  split_ifs <;> rfl

theorem segment_durations_AC2K (b : Nat) :
    segment_durations 0 (hitag_send_bit .AC2K b) =
      if b = 0 then [(.HIGH, 384), (.LOW, 384)]
      else [(.HIGH, 192), (.LOW, 192), (.HIGH, 192), (.LOW, 192)] := by
  unfold hitag_send_bit
  split_ifs <;> rfl

/-- Manchester 4 kbit/s without jitter: from the end of a 1 bit, or of a 0 bit that is
still to be emitted, the classification emits the bits sent. -/
theorem decode_segments_MC4K (bs : List Nat) (hbs : ∀ b ∈ bs, b ≤ 1) :
    ∀ (bits : List Nat) (t z : Nat),
      (t % 2 = 0 → ∃ lb t1, decode_segments ⟨bits, true, 1, t, z⟩ .LOW 192
          (encode_bits .MC4K bs ++ [(.LOW, 0)]) = ⟨bits ++ bs, true, lb, t1, z⟩) ∧
      (t % 2 = 0 → ∃ lb t1, decode_segments ⟨bits, true, 1, t, z⟩ .HIGH 576
          (encode_bits .MC4K bs ++ [(.LOW, 0)]) = ⟨bits ++ 0 :: bs, true, lb, t1, z⟩) ∧
      (t % 2 = 1 → ∃ lb t1, decode_segments ⟨bits, true, 0, t, z⟩ .HIGH 384
          (encode_bits .MC4K bs ++ [(.LOW, 0)]) = ⟨bits ++ 0 :: bs, true, lb, t1, z⟩) := by
  induction bs with
  | nil =>
    intro bits t z
    simp only [encode_bits_nil, List.nil_append, List.append_nil]
    refine ⟨fun _ => ⟨1, t, ?_⟩, fun ht => ⟨0, t + 1, ?_⟩, fun _ => ⟨0, t, ?_⟩⟩
    · rw [decode_segments_low, decode_segments_nil]
    · rw [decode_segments_edge, decode_segments_nil]
      exact manchester_classify_48_even bits 1 t z ht
    · rw [decode_segments_edge, decode_segments_nil]
      exact manchester_classify_32 bits 0 t z
  | cons b bs ih =>
    have ih1 := ih (fun c hc => hbs c (List.mem_cons_of_mem _ hc))
    have hb : b = 0 ∨ b = 1 := by
      have := hbs b (List.mem_cons_self _ _)
      omega
    intro bits t z
    rw [encode_bits_cons, segment_durations_MC4K]
    rcases hb with rfl | rfl
    · simp only [if_true, List.cons_append, List.nil_append]
      refine ⟨fun ht => ?_, fun ht => ?_, fun ht => ?_⟩
      · rw [decode_segments_low, decode_segments_high]
        exact (ih1 bits t z).2.1 ht
      · rw [decode_segments_edge, decode_segments_high]
        have hc : manchester_classify ⟨bits, true, 1, t, z⟩ (576 / T0) =
            ⟨bits ++ [0], true, 0, t + 1, z⟩ := manchester_classify_48_even bits 1 t z ht
        rw [hc]
        obtain ⟨lb, t1, h⟩ := (ih1 (bits ++ [0]) (t + 1) z).2.2 (by omega)
        exact ⟨lb, t1, by rw [h]; simp⟩
      · rw [decode_segments_edge, decode_segments_high]
        have hc : manchester_classify ⟨bits, true, 0, t, z⟩ (384 / T0) =
            ⟨bits ++ [0], true, 0, t, z⟩ := manchester_classify_32 bits 0 t z
        rw [hc]
        obtain ⟨lb, t1, h⟩ := (ih1 (bits ++ [0]) t z).2.2 ht
        exact ⟨lb, t1, by rw [h]; simp⟩
    · simp only [if_neg (by decide : ¬ (1 = 0)), List.cons_append, List.nil_append]
      refine ⟨fun ht => ?_, fun ht => ?_, fun ht => ?_⟩
      · rw [decode_segments_high, decode_segments_edge]
        have hc : manchester_classify ⟨bits, true, 1, t, z⟩ ((192 + 192) / T0) =
            ⟨bits ++ [1], true, 1, t, z⟩ := manchester_classify_32 bits 1 t z
        rw [hc]
        obtain ⟨lb, t1, h⟩ := (ih1 (bits ++ [1]) t z).1 ht
        exact ⟨lb, t1, by rw [h]; simp⟩
      · rw [decode_segments_high, decode_segments_edge]
        have hc : manchester_classify ⟨bits, true, 1, t, z⟩ ((576 + 192) / T0) =
            ⟨bits ++ [0, 1], true, 1, t, z⟩ := manchester_classify_64 bits 1 t z
        rw [hc]
        obtain ⟨lb, t1, h⟩ := (ih1 (bits ++ [0, 1]) t z).1 ht
        exact ⟨lb, t1, by rw [h]; simp⟩
      · rw [decode_segments_high, decode_segments_edge]
        have hc : manchester_classify ⟨bits, true, 0, t, z⟩ ((384 + 192) / T0) =
            ⟨bits ++ [0, 1], true, 1, t + 1, z⟩ := manchester_classify_48_odd bits 0 t z ht
        rw [hc]
        obtain ⟨lb, t1, h⟩ := (ih1 (bits ++ [0, 1]) (t + 1) z).1 (by omega)
        exact ⟨lb, t1, by rw [h]; simp⟩

/-- Anticollision coding at 2 kbit/s without jitter: from the end of a 1 bit or of a 0
bit the classification emits the Manchester image of the bits sent. -/
theorem decode_segments_AC2K (bs : List Nat) (hbs : ∀ b ∈ bs, b ≤ 1) :
    ∀ (bits : List Nat) (t z : Nat),
      (t % 2 = 0 → ∃ lb t1, decode_segments ⟨bits, true, 1, t, z⟩ .LOW 192
          (encode_bits .AC2K bs ++ [(.LOW, 0)]) =
            ⟨bits ++ ac_as_manchester 1 bs, true, lb, t1, z⟩) ∧
      (t % 2 = 1 → ∃ lb t1, decode_segments ⟨bits, true, 0, t, z⟩ .LOW 384
          (encode_bits .AC2K bs ++ [(.LOW, 0)]) =
            ⟨bits ++ ac_as_manchester 0 bs, true, lb, t1, z⟩) := by
  induction bs with
  | nil =>
    intro bits t z
    simp only [encode_bits_nil, List.nil_append, ac_as_manchester, List.append_nil]
    refine ⟨fun _ => ⟨1, t, ?_⟩, fun _ => ⟨0, t, ?_⟩⟩
    · rw [decode_segments_low, decode_segments_nil]
    · rw [decode_segments_low, decode_segments_nil]
  | cons b bs ih =>
    have ih1 := ih (fun c hc => hbs c (List.mem_cons_of_mem _ hc))
    have hb : b = 0 ∨ b = 1 := by
      have := hbs b (List.mem_cons_self _ _)
      omega
    intro bits t z
    rw [encode_bits_cons, segment_durations_AC2K]
    rcases hb with rfl | rfl
    · simp only [if_true, List.cons_append, List.nil_append, ac_as_manchester]
      refine ⟨fun ht => ?_, fun ht => ?_⟩
      · rw [decode_segments_high, decode_segments_edge]
        have hc : manchester_classify ⟨bits, true, 1, t, z⟩ ((192 + 384) / T0) =
            ⟨bits ++ [0], true, 0, t + 1, z⟩ := manchester_classify_48_even bits 1 t z ht
        rw [hc]
        obtain ⟨lb, t1, h⟩ := (ih1 (bits ++ [0]) (t + 1) z).2 (by omega)
        exact ⟨lb, t1, by rw [h]; simp⟩
      · rw [decode_segments_high, decode_segments_edge]
        have hc : manchester_classify ⟨bits, true, 0, t, z⟩ ((384 + 384) / T0) =
            ⟨bits ++ [0, 1], true, 0, t, z⟩ := manchester_classify_64 bits 0 t z
        rw [hc]
        obtain ⟨lb, t1, h⟩ := (ih1 (bits ++ [0, 1]) t z).2 ht
        exact ⟨lb, t1, by rw [h]; simp⟩
    · simp only [if_neg (by decide : ¬ (1 = 0)), List.cons_append, List.nil_append,
        ac_as_manchester]
      refine ⟨fun ht => ?_, fun ht => ?_⟩
      · rw [decode_segments_high, decode_segments_edge]
        have hc : manchester_classify ⟨bits, true, 1, t, z⟩ ((192 + 192) / T0) =
            ⟨bits ++ [1], true, 1, t, z⟩ := manchester_classify_32 bits 1 t z
        rw [hc, decode_segments_high, decode_segments_edge]
        have hc2 : manchester_classify ⟨bits ++ [1], true, 1, t, z⟩ ((192 + 192) / T0) =
            ⟨bits ++ [1] ++ [1], true, 1, t, z⟩ := manchester_classify_32 _ 1 t z
        rw [hc2]
        obtain ⟨lb, t1, h⟩ := (ih1 (bits ++ [1] ++ [1]) t z).1 ht
        exact ⟨lb, t1, by rw [h]; simp⟩
      · rw [decode_segments_high, decode_segments_edge]
        have hc : manchester_classify ⟨bits, true, 0, t, z⟩ ((384 + 192) / T0) =
            ⟨bits ++ [0, 1], true, 1, t + 1, z⟩ := manchester_classify_48_odd bits 0 t z ht
        rw [hc, decode_segments_high, decode_segments_edge]
        have hc2 : manchester_classify ⟨bits ++ [0, 1], true, 1, t + 1, z⟩ ((192 + 192) / T0) =
            ⟨bits ++ [0, 1] ++ [1], true, 1, t + 1, z⟩ := manchester_classify_32 _ 1 _ z
        rw [hc2]
        obtain ⟨lb, t1, h⟩ := (ih1 (bits ++ [0, 1] ++ [1]) (t + 1) z).1 (by omega)
        exact ⟨lb, t1, by rw [h]; simp⟩

/-- The copy loop of the reply extraction over the raw positions `f 0, f 1, ...`: `cnt`
bits are stored from bit 0 on, the loop is not left early and no store leaves `rx`,
when `cnt` bits fit the buffer. -/
theorem sendReceiveHitagS_copy_foldlM (sizeofrx : Nat) (response_bit : Nat → Nat)
    (f : Nat → Nat) (hrb : ∀ i, response_bit i ≤ 1) (rx0 : Buf)
    (hz : ∀ p, p < 8 * sizeofrx → frame_bit rx0 p = 0) (cnt : Nat)
    (hcnt : cnt ≤ 8 * sizeofrx) :
    ∃ rx1, ((List.range cnt).map f).foldlM (sendReceiveHitagS_copy sizeofrx response_bit)
        (rx0, 0, false) = some (rx1, cnt, false) ∧
      ∀ p, p < 8 * sizeofrx →
        frame_bit rx1 p = if p < cnt then response_bit (f p) else 0 := by
  induction cnt with
  | zero =>
    refine ⟨rx0, rfl, ?_⟩
    intro p hp
    simp [hz p hp]
  | succ k ih =>
    obtain ⟨rx1, e1, h1⟩ := ih (by omega)
    have hk : k / 8 < sizeofrx := Nat.div_lt_of_lt_mul (by omega)
    have hstop : decide (k + 1 > 8 * sizeofrx) = false := by
      simp only [decide_eq_false_iff_not]
      omega
    refine ⟨Buf.set rx1 (k / 8) (rx1 (k / 8) ||| (response_bit (f k) <<< (7 - (k % 8)))),
      ?_, ?_⟩
    · rw [List.range_succ, List.map_append, List.foldlM_append, e1]
      simp [sendReceiveHitagS_copy, hk, hstop]
    · intro p hp
      have hzk : frame_bit rx1 k = 0 := by
        rw [h1 k (by omega)]
        simp
      rw [frame_bit_set_or rx1 k (response_bit (f k)) p (hrb _) hzk]
      by_cases hpk : p = k
      · subst hpk
        simp
      · rw [if_neg hpk, h1 p hp]
        by_cases hlt : p < k
        · rw [if_pos hlt, if_pos (by omega)]
        · rw [if_neg hlt, if_neg (by omega)]

/-- Plain reply extraction: the raw bits from position 6 on are handed back, `rxlen - 6`
of them. -/
theorem sendReceiveHitagS_extract_plain (rx : Buf) (sizeofrx rxlen : Nat) (hpos : 0 < rxlen)
    (hle : rxlen ≤ 8 * sizeofrx) :
    ∃ rx1, sendReceiveHitagS_extract rx sizeofrx rxlen false = some (rx1, rxlen - 6) ∧
      ∀ p, p < 8 * sizeofrx →
        frame_bit rx1 p = if p < rxlen - 6 then frame_bit rx (6 + p) else 0 := by
  obtain ⟨rx1, e1, h1⟩ := sendReceiveHitagS_copy_foldlM sizeofrx
    (fun i => if i < rxlen then (rx (i / 8) >>> (7 - (i % 8))) &&& 1 else 0)
    (fun j => 6 + j)
    (by
      intro i
      simp only
      split_ifs
      · rw [shiftRight_and_one]; split_ifs <;> omega
      · omega)
    (fun i => if i < sizeofrx then 0x00 else rx i)
    (by
      intro p hp
      have : p / 8 < sizeofrx := Nat.div_lt_of_lt_mul hp
      simp [frame_bit, this])
    (rxlen - 6) (by omega)
  refine ⟨rx1, ?_, ?_⟩
  · unfold sendReceiveHitagS_extract
    rw [if_pos hpos, if_pos (by omega)]
    dsimp only
    rw [if_neg (by decide : ¬ (false = true)), e1]
    rfl
  · intro p hp
    rw [h1 p hp]
    by_cases hlt : p < rxlen - 6
    · rw [if_pos hlt, if_pos hlt, if_pos (by omega), shiftRight_and_one]
      rfl
    · rw [if_neg hlt, if_neg hlt]

/-- AC reply extraction: the raw bits 7, 9, 11, ... are handed back; their number is
rounded up from 7 modulo 8 to the next multiple of 8. -/
theorem sendReceiveHitagS_extract_ac (rx : Buf) (sizeofrx rxlen : Nat) (hpos : 0 < rxlen)
    (hle : rxlen ≤ 8 * sizeofrx) :
    ∃ rx1, sendReceiveHitagS_extract rx sizeofrx rxlen true =
        some (rx1, if (rxlen - 7 + 1) / 2 % 8 = 7 then (rxlen - 7 + 1) / 2 + 1
          else (rxlen - 7 + 1) / 2) ∧
      ∀ p, p < 8 * sizeofrx →
        frame_bit rx1 p = if p < (rxlen - 7 + 1) / 2 then frame_bit rx (7 + 2 * p) else 0 := by
  obtain ⟨rx1, e1, h1⟩ := sendReceiveHitagS_copy_foldlM sizeofrx
    (fun i => if i < rxlen then (rx (i / 8) >>> (7 - (i % 8))) &&& 1 else 0)
    (fun j => 7 + 2 * j)
    (by
      intro i
      simp only
      split_ifs
      · rw [shiftRight_and_one]; split_ifs <;> omega
      · omega)
    (fun i => if i < sizeofrx then 0x00 else rx i)
    (by
      intro p hp
      have : p / 8 < sizeofrx := Nat.div_lt_of_lt_mul hp
      simp [frame_bit, this])
    ((rxlen - 7 + 1) / 2) (by omega)
  refine ⟨rx1, ?_, ?_⟩
  · unfold sendReceiveHitagS_extract
    rw [if_pos hpos, if_pos (by omega)]
    dsimp only
    rw [if_pos rfl, e1]
    rfl
  · intro p hp
    rw [h1 p hp]
    by_cases hlt : p < (rxlen - 7 + 1) / 2
    · rw [if_pos hlt, if_pos hlt, if_pos (by omega), shiftRight_and_one]
      rfl
    · rw [if_neg hlt, if_neg hlt]

theorem frame_bits_length (b : Buf) (n : Nat) : (frame_bits b n).length = n := by
  simp [frame_bits]

theorem frame_bits_le_one (b : Buf) (n : Nat) : ∀ x ∈ frame_bits b n, x ≤ 1 := by
  intro x hx
  simp only [frame_bits, List.mem_map] at hx
  obtain ⟨p, _, rfl⟩ := hx
  exact frame_bit_le_one b p

theorem frame_bits_getD (b : Buf) (n p : Nat) (hp : p < n) :
    (frame_bits b n).getD p 0 = frame_bit b p := by
  rw [List.getD_eq_getElem _ _ (by simpa [frame_bits] using hp)]
  simp [frame_bits]

theorem frame_bits_getLastD (b : Buf) (n d : Nat) :
    (frame_bits b (n + 1)).getLastD d = frame_bit b n := by
  simp [frame_bits, List.range_succ]

theorem frame_bits_congr (b1 b2 : Buf) (n : Nat)
    (h : ∀ p, p < n → frame_bit b1 p = frame_bit b2 p) : frame_bits b1 n = frame_bits b2 n := by
  unfold frame_bits
  apply List.map_congr_left
  intro p hp
  exact h p (List.mem_range.mp hp)

theorem reduceOption_map_some (l : List Nat) : (l.map some).reduceOption = l := by
  induction l with
  | nil => rfl
  | cons a l ih => rw [List.map_cons, List.reduceOption_cons_of_some, ih]

theorem manchester_decode_captured (wait : Nat) (segments : List (Level × Nat)) :
    manchester_decode (captured_intervals wait segments) =
      decode_segments ⟨[], false, 1, 0, 0⟩ .LOW (T0 * wait) segments := rfl

/-- An MC4K frame with 6 start-of-frame bits decodes to six ones and the payload. -/
theorem manchester_decode_MC4K (wait : Nat) (frame : Buf) (n : Nat) (hwait : 164 ≤ wait) :
    ∃ lb t1, manchester_decode (captured_intervals wait (hitag_send_frame .MC4K 6 frame n)) =
      ⟨List.replicate 6 1 ++ frame_bits frame n, true, lb, t1, 0⟩ := by
  rw [manchester_decode_captured, hitag_send_frame_eq]
  have hrep : List.replicate 6 1 ++ frame_bits frame n =
      1 :: (List.replicate 5 1 ++ frame_bits frame n) := rfl
  rw [hrep, encode_bits_cons, segment_durations_MC4K]
  simp only [if_neg (by decide : ¬ (1 = 0)), List.cons_append, List.nil_append]
  rw [decode_segments_high, decode_segments_high, decode_segments_edge]
  have hra : (T0 * wait + T0 * 20 + 192) / T0 = wait + 36 := by
    unfold T0
    omega
  rw [hra, manchester_classify_start [] 1 0 0 (wait + 36) (by omega)]
  have hbs : ∀ b ∈ List.replicate 5 1 ++ frame_bits frame n, b ≤ 1 := by
    intro b hb
    rcases List.mem_append.mp hb with h | h
    · rw [(List.mem_replicate.mp h).2]
    · exact frame_bits_le_one frame n b h
  obtain ⟨lb, t1, h⟩ := (decode_segments_MC4K _ hbs ([] ++ [1]) 0 0).1 rfl
  exact ⟨lb, t1, by rw [h]; rfl⟩

/-- An AC2K frame with 3 start-of-frame bits decodes to six ones and the Manchester
image of the payload. -/
theorem manchester_decode_AC2K (wait : Nat) (frame : Buf) (n : Nat) (hwait : 164 ≤ wait) :
    ∃ lb t1, manchester_decode (captured_intervals wait (hitag_send_frame .AC2K 3 frame n)) =
      ⟨List.replicate 6 1 ++ ac_as_manchester 1 (frame_bits frame n), true, lb, t1, 0⟩ := by
  rw [manchester_decode_captured, hitag_send_frame_eq]
  have hrep : List.replicate 3 1 ++ frame_bits frame n =
      1 :: (List.replicate 2 1 ++ frame_bits frame n) := rfl
  rw [hrep, encode_bits_cons, segment_durations_AC2K]
  simp only [if_neg (by decide : ¬ (1 = 0)), List.cons_append, List.nil_append]
  rw [decode_segments_high, decode_segments_high, decode_segments_edge]
  have hra : (T0 * wait + T0 * 20 + 192) / T0 = wait + 36 := by
    unfold T0
    omega
  rw [hra, manchester_classify_start [] 1 0 0 (wait + 36) (by omega), decode_segments_high,
    decode_segments_edge]
  have hc : manchester_classify ⟨[] ++ [1], true, 1, 0, 0⟩ ((192 + 192) / T0) =
      ⟨[] ++ [1] ++ [1], true, 1, 0, 0⟩ := manchester_classify_32 _ 1 0 0
  rw [hc]
  have hbs : ∀ b ∈ List.replicate 2 1 ++ frame_bits frame n, b ≤ 1 := by
    intro b hb
    rcases List.mem_append.mp hb with h | h
    · rw [(List.mem_replicate.mp h).2]
    · exact frame_bits_le_one frame n b h
  obtain ⟨lb, t1, h⟩ := (decode_segments_AC2K _ hbs ([] ++ [1] ++ [1]) 0 0).1 rfl
  exact ⟨lb, t1, by rw [h]; rfl⟩

theorem ac_as_manchester_head (bs : List Nat) : (ac_as_manchester 0 bs).getD 0 0 = 0 := by
  cases bs with
  | nil => rfl
  | cons b bs =>
    simp only [ac_as_manchester, if_true]
    split_ifs <;> rfl

/-- Every second bit of the Manchester image of AC-coded bits is a bit sent. -/
theorem ac_as_manchester_sample (bs : List Nat) (hbs : ∀ b ∈ bs, b ≤ 1) :
    ∀ (prev j : Nat), j < bs.length →
      (ac_as_manchester prev bs).getD ((if prev = 0 then 2 else 1) + 2 * j) 0 = bs.getD j 0 := by
  induction bs with
  | nil => intro prev j hj; simp at hj
  | cons b bs ih =>
    have ih1 := ih (fun c hc => hbs c (List.mem_cons_of_mem _ hc))
    have hb : b = 0 ∨ b = 1 := by
      have := hbs b (List.mem_cons_self _ _)
      omega
    intro prev j hj
    cases j with
    | zero =>
      rcases hb with rfl | rfl
      · by_cases hp : prev = 0
        · simpa [ac_as_manchester, hp] using ac_as_manchester_head bs
        · simpa [ac_as_manchester, hp] using ac_as_manchester_head bs
      · by_cases hp : prev = 0
        · simp [ac_as_manchester, hp]
        · simp [ac_as_manchester, hp]
    | succ j =>
      have hj1 : j < bs.length := by simpa using hj
      rcases hb with rfl | rfl
      · have h0 := ih1 0 j hj1
        rw [if_pos rfl] at h0
        by_cases hp : prev = 0
        · have hi : (if prev = 0 then 2 else 1) + 2 * (j + 1) = (2 + 2 * j) + 1 + 1 := by
            rw [if_pos hp]; ring
          rw [hi]
          simpa [ac_as_manchester, hp] using h0
        · have hi : (if prev = 0 then 2 else 1) + 2 * (j + 1) = (2 + 2 * j) + 1 := by
            rw [if_neg hp]; ring
          rw [hi]
          simpa [ac_as_manchester, hp] using h0
      · have h0 := ih1 1 j hj1
        rw [if_neg (by decide : ¬ (1 = 0))] at h0
        by_cases hp : prev = 0
        · have hi : (if prev = 0 then 2 else 1) + 2 * (j + 1) = (1 + 2 * j) + 1 + 1 + 1 := by
            rw [if_pos hp]; ring
          rw [hi]
          simpa [ac_as_manchester, hp] using h0
        · have hi : (if prev = 0 then 2 else 1) + 2 * (j + 1) = (1 + 2 * j) + 1 + 1 := by
            rw [if_neg hp]; ring
          rw [hi]
          simpa [ac_as_manchester, hp] using h0

/-- Length of the Manchester image: two raw bits per bit sent, one more after a 0 before
the bits and one less when the last bit is 0. -/
theorem ac_as_manchester_length (bs : List Nat) : ∀ prev : Nat,
    (ac_as_manchester prev bs).length + (if bs.getLastD prev = 0 then 1 else 0) =
      2 * bs.length + (if prev = 0 then 1 else 0) := by
  induction bs with
  | nil => intro prev; simp [ac_as_manchester]
  | cons b bs ih =>
    intro prev
    have h := ih b
    simp only [ac_as_manchester, List.length_append, List.getLastD_cons, List.length_cons]
    split_ifs at h ⊢ <;> simp at h ⊢ <;> omega

/-- Round trip of an MC4K frame with 6 start-of-frame bits through the plain reply
extraction. -/
theorem codec_round_trip_MC4K_plain (wait : Nat) (frame : Buf) (n : Nat) (rx : Buf)
    (sizeofrx : Nat) (hwait : 164 ≤ wait) (hroom : n + 6 < 8 * sizeofrx)
    (hedges : n + 6 ≤ 160) :
    ∃ rx1, codec_round_trip .MC4K 6 wait frame n rx sizeofrx false = some (rx1, n) ∧
      frame_bits rx1 n = frame_bits frame n := by
  obtain ⟨lb, t1, hd⟩ := manchester_decode_MC4K wait frame n hwait
  have hred := reduceOption_map_some
    (captured_intervals wait (hitag_send_frame .MC4K 6 frame n))
  have hmono := (manchester_classify_foldl_mono
    (captured_intervals wait (hitag_send_frame .MC4K 6 frame n)) ⟨[], false, 1, 0, 0⟩).2.2
  change _ ≤ (manchester_decode _).bits.length + (manchester_decode _).noise at hmono
  rw [hd] at hmono
  simp only [List.length_nil, List.length_append, List.length_replicate, frame_bits_length]
    at hmono
  obtain ⟨s, hs, hlen, hbits, _⟩ := hitagS_receive_frame_refines rx sizeofrx
    ((captured_intervals wait (hitag_send_frame .MC4K 6 frame n)).map some)
    (by rw [hred]; omega)
    (by
      rw [hred, hd]
      simp only [List.length_append, List.length_replicate, frame_bits_length]
      omega)
    (by rw [hred, hd]; exact Nat.zero_le _)
  rw [hred, hd] at hlen hbits
  simp only [List.length_append, List.length_replicate, frame_bits_length] at hlen
  obtain ⟨rx1, e1, h1⟩ := sendReceiveHitagS_extract_plain s.rx sizeofrx s.rxlen
    (by omega) (by omega)
  have hk : s.rxlen - 6 = n := by omega
  rw [hk] at e1 h1
  refine ⟨rx1, ?_, ?_⟩
  · unfold codec_round_trip
    rw [hs]
    exact e1
  · apply frame_bits_congr
    intro p hp
    rw [h1 p (by omega), if_pos hp, hbits (6 + p) (by omega)]
    simp only
    rw [List.getD_append_right _ _ _ _ (by simp), List.length_replicate,
      Nat.add_sub_cancel_left, frame_bits_getD frame n p hp]

/-- Round trip of an AC2K frame with 3 start-of-frame bits through the AC reply
extraction, for a payload whose length is a multiple of 8, or which ends in a 1 and has
a length that is not 7 modulo 8. -/
theorem codec_round_trip_AC2K_ac (wait : Nat) (frame : Buf) (n : Nat) (rx : Buf)
    (sizeofrx : Nat) (hwait : 164 ≤ wait)
    (hn : n % 8 = 0 ∨ (0 < n ∧ frame_bit frame (n - 1) = 1 ∧ n % 8 ≠ 7))
    (hroom : 2 * n + 6 < 8 * sizeofrx) (hedges : 2 * n + 6 ≤ 160) :
    ∃ rx1, codec_round_trip .AC2K 3 wait frame n rx sizeofrx true = some (rx1, n) ∧
      frame_bits rx1 n = frame_bits frame n := by
  obtain ⟨lb, t1, hd⟩ := manchester_decode_AC2K wait frame n hwait
  have hL := ac_as_manchester_length (frame_bits frame n) 1
  rw [frame_bits_length, if_neg (by decide : ¬ (1 = 0))] at hL
  have hlast : 0 < n → (frame_bits frame n).getLastD 1 = frame_bit frame (n - 1) := by
    intro h0
    obtain ⟨k, rfl⟩ : ∃ k, n = k + 1 := ⟨n - 1, by omega⟩
    rw [frame_bits_getLastD]
    rfl
  have hred := reduceOption_map_some
    (captured_intervals wait (hitag_send_frame .AC2K 3 frame n))
  have hmono := (manchester_classify_foldl_mono
    (captured_intervals wait (hitag_send_frame .AC2K 3 frame n)) ⟨[], false, 1, 0, 0⟩).2.2
  change _ ≤ (manchester_decode _).bits.length + (manchester_decode _).noise at hmono
  rw [hd] at hmono
  simp only [List.length_nil, List.length_append, List.length_replicate] at hmono
  have hLle : (ac_as_manchester 1 (frame_bits frame n)).length ≤ 2 * n := by omega
  obtain ⟨s, hs, hlen, hbits, _⟩ := hitagS_receive_frame_refines rx sizeofrx
    ((captured_intervals wait (hitag_send_frame .AC2K 3 frame n)).map some)
    (by rw [hred]; omega)
    (by
      rw [hred, hd]
      simp only [List.length_append, List.length_replicate]
      omega)
    (by rw [hred, hd]; exact Nat.zero_le _)
  rw [hred, hd] at hlen hbits
  simp only [List.length_append, List.length_replicate] at hlen
  obtain ⟨rx1, e1, h1⟩ := sendReceiveHitagS_extract_ac s.rx sizeofrx s.rxlen
    (by omega) (by omega)
  have hk : (if (s.rxlen - 7 + 1) / 2 % 8 = 7 then (s.rxlen - 7 + 1) / 2 + 1
      else (s.rxlen - 7 + 1) / 2) = n := by
    by_cases h0 : n = 0
    · subst h0
      have : s.rxlen = 6 := by omega
      rw [this]
      rfl
    · have hl := hlast (by omega)
      rw [hl] at hL
      by_cases hb : frame_bit frame (n - 1) = 0
      · rw [if_pos hb] at hL
        have hn8 : n % 8 = 0 := by
          rcases hn with h | h
          · exact h
          · omega
        have hc : (s.rxlen - 7 + 1) / 2 = n - 1 := by omega
        rw [hc, if_pos (by omega)]
        omega
      · rw [if_neg hb] at hL
        have hc : (s.rxlen - 7 + 1) / 2 = n := by omega
        rw [hc, if_neg (by
          have := frame_bit_le_one frame (n - 1)
          rcases hn with h | h
          · omega
          · exact h.2.2)]
  rw [hk] at e1
  refine ⟨rx1, ?_, ?_⟩
  · unfold codec_round_trip
    rw [hs]
    exact e1
  · apply frame_bits_congr
    intro p hp
    have hraw : frame_bit rx1 p =
        (List.replicate 6 1 ++ ac_as_manchester 1 (frame_bits frame n)).getD (7 + 2 * p) 0 := by
      rw [h1 p (by omega)]
      by_cases hlt : p < (s.rxlen - 7 + 1) / 2
      · rw [if_pos hlt, hbits (7 + 2 * p) (by omega)]
      · rw [if_neg hlt, List.getD_eq_default _ _ (by
          simp only [List.length_append, List.length_replicate]
          omega)]
    rw [hraw, List.getD_append_right _ _ _ _ (by rw [List.length_replicate]; omega),
      List.length_replicate]
    have hi : 7 + 2 * p - 6 = (if (1 : Nat) = 0 then 2 else 1) + 2 * p := by
      rw [if_neg (by decide)]
      omega
    rw [hi, ac_as_manchester_sample (frame_bits frame n) (frame_bits_le_one frame n) 1 p
      (by rw [frame_bits_length]; exact hp), frame_bits_getD frame n p hp]

/-- C28, counterexample: the 12 payload bits 1011 0010 0011 sent under MC8K or AC4K, with
1, 3 or 6 start-of-frame bits and 200 carrier periods after the capture timer was reset,
come back from the reader's reply path as a reply of 0 bits, with either extraction (AC
or plain): the intervals of the halved bit periods are 16, 24 and 32 and only those of
32 pass the threshold of 25.  Under MC4K with one start-of-frame bit 7 bits come back. -/
theorem codec_round_trip_loses_MC8K_AC4K :
    (∀ m ∈ ([.MC8K, .AC4K] : List MOD), ∀ sof ∈ [1, 3, 6], ∀ ac ∈ [true, false],
      (codec_round_trip m sof 200 (Buf.ofList [0xB2, 0x30]) 12 (fun _ => 0) 8 ac).map
        (fun r => r.2) = some 0) ∧
    frame_bits (Buf.ofList [0xB2, 0x30]) 12 = [1, 0, 1, 1, 0, 0, 1, 0, 0, 0, 1, 1] ∧
    captured_intervals 200 (hitag_send_frame .MC8K 6 (Buf.ofList [0xB2, 0x30]) 12) =
      [248, 16, 16, 16, 16, 16, 16, 32, 16, 24, 24, 24, 16, 24, 16] ∧
    (codec_round_trip .MC4K 1 200 (Buf.ofList [0xB2, 0x30]) 12 (fun _ => 0) 8 false).map
        (fun r => (r.2, frame_bits r.1 r.2)) = some (7, [0, 1, 0, 0, 0, 1, 1]) := by
  decide

/-- C28, amended: codec round trip without jitter, for the two codings the capture
thresholds of the receiver are made for.  When the first falling edge of the frame comes
at least 200 carrier periods after the capture timer was reset (the frame begins after
164 or more): a payload of `n` bits sent under MC4K with 6 start-of-frame bits comes back
from `hitagS_receive_frame` and the plain extraction as `n` bits equal to the payload,
when the `n + 6` raw bits stay below the capacity of `rx` and within `edges[160]`; a
payload sent under AC2K with 3 start-of-frame bits comes back from the AC extraction as
`n` bits equal to the payload when `n` is a multiple of 8, or the payload ends in a 1 and
`n` is not 7 modulo 8, and `2 n + 6` raw bits stay below the capacity and within
`edges[160]`. -/
theorem codec_round_trip_MC4K_AC2K (wait : Nat) (frame : Buf) (n : Nat) (rx : Buf)
    (sizeofrx : Nat) (hwait : 164 ≤ wait) :
    (n + 6 < 8 * sizeofrx → n + 6 ≤ 160 →
      ∃ rx1, codec_round_trip .MC4K 6 wait frame n rx sizeofrx false = some (rx1, n) ∧
        frame_bits rx1 n = frame_bits frame n) ∧
    ((n % 8 = 0 ∨ (0 < n ∧ frame_bit frame (n - 1) = 1 ∧ n % 8 ≠ 7)) →
      2 * n + 6 < 8 * sizeofrx → 2 * n + 6 ≤ 160 →
      ∃ rx1, codec_round_trip .AC2K 3 wait frame n rx sizeofrx true = some (rx1, n) ∧
        frame_bits rx1 n = frame_bits frame n) :=
  ⟨fun hroom hedges => codec_round_trip_MC4K_plain wait frame n rx sizeofrx hwait hroom hedges,
    fun hn hroom hedges =>
      codec_round_trip_AC2K_ac wait frame n rx sizeofrx hwait hn hroom hedges⟩

theorem codec_round_trip_MC4K_AC2K_witness :
    164 ≤ 200 ∧ 16 + 6 < 8 * 8 ∧ 16 + 6 ≤ 160 ∧ 16 % 8 = 0 ∧ 2 * 16 + 6 < 8 * 8 ∧
    2 * 16 + 6 ≤ 160 ∧
    (∃ rx1, codec_round_trip .MC4K 6 200 (Buf.ofList [0xB2, 0x30]) 16 (fun _ => 0xFF) 8 false =
        some (rx1, 16) ∧
      frame_bits rx1 16 = frame_bits (Buf.ofList [0xB2, 0x30]) 16) ∧
    (∃ rx1, codec_round_trip .AC2K 3 200 (Buf.ofList [0xB2, 0x30]) 16 (fun _ => 0xFF) 8 true =
        some (rx1, 16) ∧
      frame_bits rx1 16 = frame_bits (Buf.ofList [0xB2, 0x30]) 16) :=
  ⟨by decide, by decide, by decide, by decide, by decide, by decide,
    (codec_round_trip_MC4K_AC2K 200 (Buf.ofList [0xB2, 0x30]) 16 (fun _ => 0xFF) 8
      (by decide)).1 (by decide) (by decide),
    (codec_round_trip_MC4K_AC2K 200 (Buf.ofList [0xB2, 0x30]) 16 (fun _ => 0xFF) 8
      (by decide)).2 (Or.inl (by decide)) (by decide) (by decide)⟩

/-! ### Reader: AC reply extraction -/

theorem ac_reply_len_spec_eq (rxlen : Nat) :
    ac_reply_len_spec rxlen =
      if (rxlen - 7 + 1) / 2 % 8 = 7 then (rxlen - 7 + 1) / 2 + 1 else (rxlen - 7 + 1) / 2 := by
  unfold ac_reply_len_spec
  by_cases h : rxlen > 7
  · simp only [if_pos h]
  · have h0 : (rxlen - 7 + 1) / 2 = 0 := by omega
    simp only [if_neg h, h0]

/-- C31: AC reply extraction of `sendReceiveHitagS` (`ac_seq = true`).  For every raw
frame of `rxlen` bits that fits `response_bit[sizeofrx * 8]` the extraction returns;
output bit `j` equals raw bit `7 + 2 j` for every `j` with `7 + 2 j < rxlen`; the
reported bit count is the count of the specification, `ceil((rxlen - 7) / 2)` for
`rxlen > 7` and 0 otherwise, incremented by one exactly when it is 7 modulo 8, and the
bit added then (like every bit behind the copied ones) is 0; the reported length is 32
if and only if `68 <= rxlen <= 71`. -/
theorem sendReceiveHitagS_ac_extraction (rx : Buf) (sizeofrx rxlen : Nat)
    (hle : rxlen ≤ 8 * sizeofrx) :
    ∃ rx1, sendReceiveHitagS_extract rx sizeofrx rxlen true =
        some (rx1, ac_reply_len_spec rxlen) ∧
      (∀ j, 7 + 2 * j < rxlen → frame_bit rx1 j = frame_bit rx (7 + 2 * j)) ∧
      (0 < rxlen → ∀ p, (rxlen - 7 + 1) / 2 ≤ p → p < 8 * sizeofrx → frame_bit rx1 p = 0) ∧
      ((rxlen - 7 + 1) / 2 % 8 = 7 →
        ac_reply_len_spec rxlen = (rxlen - 7 + 1) / 2 + 1 ∧
        frame_bit rx1 ((rxlen - 7 + 1) / 2) = 0) ∧
      ((rxlen - 7 + 1) / 2 % 8 ≠ 7 → ac_reply_len_spec rxlen = (rxlen - 7 + 1) / 2) ∧
      (ac_reply_len_spec rxlen = 32 ↔ 68 ≤ rxlen ∧ rxlen ≤ 71) := by
  have h32 : ac_reply_len_spec rxlen = 32 ↔ 68 ≤ rxlen ∧ rxlen ≤ 71 := by
    rw [ac_reply_len_spec_eq]
    split_ifs <;> omega
  by_cases hpos : 0 < rxlen
  · obtain ⟨rx1, e1, h1⟩ := sendReceiveHitagS_extract_ac rx sizeofrx rxlen hpos hle
    refine ⟨rx1, ?_, ?_, ?_, ?_, ?_, h32⟩
    · rw [e1, ac_reply_len_spec_eq]
    · intro j hj
      rw [h1 j (by omega), if_pos (by omega)]
    · intro _ p hp hp8
      rw [h1 p hp8, if_neg (by omega)]
    · intro h7
      refine ⟨by rw [ac_reply_len_spec_eq, if_pos h7], ?_⟩
      rw [h1 _ (by omega), if_neg (lt_irrefl _)]
    · intro h7
      rw [ac_reply_len_spec_eq, if_neg h7]
  · have h0 : rxlen = 0 := by omega
    subst h0
    refine ⟨rx, rfl, ?_, ?_, ?_, ?_, h32⟩
    · intro j hj
      omega
    · intro h
      omega
    · intro h7
      exact absurd h7 (by decide)
    · intro _
      rfl

theorem sendReceiveHitagS_ac_extraction_witness :
    70 ≤ 8 * 20 ∧
    ∃ rx1, sendReceiveHitagS_extract
        (Buf.ofList [0xFD, 0x5A, 0xA5, 0x3C, 0xC3, 0x0F, 0xF0, 0x99, 0x66]) 20 70 true =
        some (rx1, ac_reply_len_spec 70) ∧
      (∀ j, 7 + 2 * j < 70 → frame_bit rx1 j =
        frame_bit (Buf.ofList [0xFD, 0x5A, 0xA5, 0x3C, 0xC3, 0x0F, 0xF0, 0x99, 0x66])
          (7 + 2 * j)) ∧
      (0 < 70 → ∀ p, (70 - 7 + 1) / 2 ≤ p → p < 8 * 20 → frame_bit rx1 p = 0) ∧
      ((70 - 7 + 1) / 2 % 8 = 7 →
        ac_reply_len_spec 70 = (70 - 7 + 1) / 2 + 1 ∧
        frame_bit rx1 ((70 - 7 + 1) / 2) = 0) ∧
      ((70 - 7 + 1) / 2 % 8 ≠ 7 → ac_reply_len_spec 70 = (70 - 7 + 1) / 2) ∧
      (ac_reply_len_spec 70 = 32 ↔ 68 ≤ 70 ∧ 70 ≤ 71) :=
  ⟨by decide,
    sendReceiveHitagS_ac_extraction
      (Buf.ofList [0xFD, 0x5A, 0xA5, 0x3C, 0xC3, 0x0F, 0xF0, 0x99, 0x66]) 20 70 (by decide)⟩

/-! ### Emulation: start-of-frame count of a reply -/

/-- C32 (the code at the failing input): after the recognised advanced UID request
`C0` (`sof_bits = 3`, reply of 32 bits) the Read-block request for page 1 is suppressed
with `sof_bits = 0` (line 677), and the Write-page request for page 5 that follows is
acknowledged (`txlen = 2`) with `sof_bits` still 0: the write-page branch (lines
681-696) does not call `hitagS_set_frame_modulation`.  The same happens after the
Read-page request for page 2 on a tag with `LKP` set (line 647).  A Write-block request
in the place of the Write-page request is acknowledged with `sof_bits = 6`. -/
theorem write_page_ack_after_suppressed_read_has_sof_bits_0 :
    (SimulateHitagSTag_loop sampleProtocol sampleCipher
        [(Buf.ofList [0xC0], 5)] sampleGlobals (Buf.ofList [])).map
      (fun r => (r.1.sof_bits, r.2.2.map (fun f => f.2))) = some (3, [32]) ∧
    (SimulateHitagSTag_loop sampleProtocol sampleCipher
        [(Buf.ofList [0xC0], 5), (Buf.ofList [0xD0, 0x10, 0x00], 20)]
        sampleGlobals (Buf.ofList [])).map
      (fun r => (r.1.sof_bits, r.2.2.map (fun f => f.2))) = some (0, [32, 0]) ∧
    (SimulateHitagSTag_loop sampleProtocol sampleCipher
        [(Buf.ofList [0xC0], 5), (Buf.ofList [0xD0, 0x10, 0x00], 20),
          (Buf.ofList [0x80, 0x50, 0x00], 20)]
        sampleGlobals (Buf.ofList [])).map
      (fun r => (r.1.sof_bits, r.2.2.map (fun f => f.2))) = some (0, [32, 0, 2]) ∧
    (SimulateHitagSTag_loop sampleProtocol sampleCipher
        [(Buf.ofList [0xC0], 5), (Buf.ofList [0xC0, 0x20, 0x00], 20),
          (Buf.ofList [0x80, 0x50, 0x00], 20)]
        lockedGlobals (Buf.ofList [])).map
      (fun r => (r.1.sof_bits, r.2.2.map (fun f => f.2))) = some (0, [32, 0, 2]) ∧
    (SimulateHitagSTag_loop sampleProtocol sampleCipher
        [(Buf.ofList [0xC0], 5), (Buf.ofList [0xD0, 0x10, 0x00], 20),
          (Buf.ofList [0x90, 0x40, 0x00], 20)]
        sampleGlobals (Buf.ofList [])).map
      (fun r => (r.1.sof_bits, r.2.2.map (fun f => f.2))) = some (6, [32, 0, 2]) := by
  decide

/-! ### Reader receive path: stores into `rx` -/

set_option maxRecDepth 100000 in
/-- C33 (the code at the failing input): with `sizeofrx = 1` the intervals 200, 32, 32,
32, 32, 32, 32 leave `*rxlen = 7`, which does not end the loop (`7 / 8 >= 1` is false,
line 1079); the interval 64 that follows stores a 0 at bit 7 and then, without a check
in between, a 1 at bit 8 = 8 * sizeofrx, in `rx[1]` behind the buffer (lines 1045-1049).
The same happens with the 20-byte buffer of the callers after 159 received bits. -/
theorem hitagS_receive_frame_writes_bit_8_sizeofrx :
    (hitagS_receive_frame (fun _ => 0) 1
        [some 200, some 32, some 32, some 32, some 32, some 32, some 32]).map
      (fun s => (s.rxlen, s.ra_i, s.bStarted, s.errorCount)) = some (7, 7, true, 0) ∧
    ((hitagS_receive_frame (fun _ => 0) 1
        [some 200, some 32, some 32, some 32, some 32, some 32, some 32]).bind
      (fun s => s.put 1 0)).map (fun s => (s.rxlen, s.rxlen / 8)) = some (8, 1) ∧
    ((hitagS_receive_frame (fun _ => 0) 1
        [some 200, some 32, some 32, some 32, some 32, some 32, some 32]).bind
      (fun s => (s.put 1 0).bind (fun s1 => s1.put 1 1))).isNone = true ∧
    (hitagS_receive_frame (fun _ => 0) 1
        [some 200, some 32, some 32, some 32, some 32, some 32, some 32, some 64]).isNone
      = true ∧
    (hitagS_receive_frame (fun _ => 0) 20
        (some 200 :: List.replicate 158 (some 32))).map
      (fun s => (s.rxlen, s.ra_i)) = some (159, 159) ∧
    (hitagS_receive_frame (fun _ => 0) 20
        (some 200 :: List.replicate 158 (some 32) ++ [some 64])).isNone = true := by
  decide

/-! ### Bit-frame buffer: what `concatbits` leaves alone -/

/-- C34: `concatbits` preserves earlier fields.  For every `dst`, `dstskip`, `src`,
`srcstart` and `srclen`, every bit of `dst` at a position smaller than `dstskip` is the
same after `concatbits(dst, dstskip, src, srcstart, srclen)`, and so is the value of
every bit field that ends at or before `dstskip`: fields appended earlier to a frame
survive later appends. -/
theorem concatbits_preserves_earlier_fields (dst : Buf) (dstskip : Nat) (src : Buf)
    (srcstart srclen : Nat) :
    (∀ p, p < dstskip →
      frame_bit (concatbits dst dstskip src srcstart srclen).1 p = frame_bit dst p) ∧
    (∀ start n, start + n ≤ dstskip →
      frame_field (concatbits dst dstskip src srcstart srclen).1 start n =
        frame_field dst start n) := by
  have hbit : ∀ p, p < dstskip →
      frame_bit (concatbits dst dstskip src srcstart srclen).1 p = frame_bit dst p := by
    intro p hp
    rw [frame_bit_eq_iff, concatbits_testBit, if_neg (by omega)]
    simp [hp]
  refine ⟨hbit, ?_⟩
  intro start n hn
  apply frame_field_congr
  intro i hi
  exact hbit (start + i) (by omega)

theorem concatbits_preserves_earlier_fields_witness :
    3 < 5 ∧ 1 + 4 ≤ 5 ∧
    frame_bit (concatbits (Buf.ofList [0xAB, 0xFF]) 5 (Buf.ofList [0x00, 0x00]) 0 9).1 3 =
      frame_bit (Buf.ofList [0xAB, 0xFF]) 3 ∧
    frame_field (concatbits (Buf.ofList [0xAB, 0xFF]) 5 (Buf.ofList [0x00, 0x00]) 0 9).1 1 4 =
      frame_field (Buf.ofList [0xAB, 0xFF]) 1 4 :=
  ⟨by decide, by decide,
    (concatbits_preserves_earlier_fields (Buf.ofList [0xAB, 0xFF]) 5
      (Buf.ofList [0x00, 0x00]) 0 9).1 3 (by decide),
    (concatbits_preserves_earlier_fields (Buf.ofList [0xAB, 0xFF]) 5
      (Buf.ofList [0x00, 0x00]) 0 9).2 1 4 (by decide)⟩

/-- C35 (the code at the failing inputs): when `dstskip + srclen` is a multiple of 8 the
clearing loop of `concatbits` (`i <= (dstskip + srclen) / 8`, line 1195) sets the byte
behind the last one that receives a copied bit to 0.  Appending 8 bits at offset 0 to a
buffer of `0xFF` bytes leaves byte 1 = 0, and the 8 CRC bits appended at offset 12 of a
20-bit frame do not touch byte 3, but the 32 bits appended at offset 0 and at offset 32
(the 64-bit authentication frame) clear bytes 4 and 8: of all bytes behind the last
copied one, exactly the next one is modified. -/
theorem concatbits_clears_byte_behind_field :
    (0 + 8 - 1) / 8 = 0 ∧
    (concatbits (fun _ => 0xFF) 0 (Buf.ofList [0xA5]) 0 8).1 0 = 0xA5 ∧
    (concatbits (fun _ => 0xFF) 0 (Buf.ofList [0xA5]) 0 8).1 1 = 0 ∧
    (concatbits (fun _ => 0xFF) 0 (Buf.ofList [0xA5]) 0 8).1 2 = 0xFF ∧
    (12 + 8 - 1) / 8 = 2 ∧
    (concatbits (fun _ => 0xFF) 12 (Buf.ofList [0xA5]) 0 8).1 3 = 0xFF ∧
    (0 + 32 - 1) / 8 = 3 ∧
    (concatbits (fun _ => 0xFF) 0 (Buf.ofList [1, 2, 3, 4]) 0 32).1 4 = 0 ∧
    (32 + 32 - 1) / 8 = 7 ∧
    (concatbits (fun _ => 0xFF) 32 (Buf.ofList [1, 2, 3, 4]) 0 32).1 8 = 0 := by
  decide

/-! ### Reader frames as the emulator decodes them -/

/-- The address decoding of the 20-bit commands reads the 8-bit field at frame bits
4..11, whatever the buffer holds. -/
theorem page_address_eq_frame_address (rx : Buf) : page_address rx = frame_field rx 4 8 := by
  unfold page_address
  rw [and_0x0f_eq, and_0xf0_div_16]
  simp only [frame_field, frame_bit_eq]
  norm_num
  omega

/-- The top nibble of byte 0 of a frame, as the emulator masks it, is 16 times the field
of frame bits 0..3. -/
theorem and_0xf0_eq_frame_field (rx : Buf) : rx 0 &&& 0xf0 = 16 * frame_field rx 0 4 := by
  have h : rx 0 &&& 0xf0 = 16 * ((rx 0 &&& 0xf0) / 16) := by
    have hd : 16 ∣ rx 0 &&& 0xf0 := by
      have h4 : (16 : Nat) = 2 ^ 4 := by norm_num
      rw [h4, Nat.dvd_iff_mod_eq_zero, ← Nat.and_pow_two_sub_one_eq_mod]
      apply Nat.eq_of_testBit_eq
      intro i
      simp only [Nat.testBit_and, Nat.testBit_two_pow_sub_one, Nat.zero_testBit]
      have hm : (0xf0 : Nat) = 15 <<< 4 := by decide
      have h15 : (15 : Nat) = 2 ^ 4 - 1 := by decide
      rw [hm, Nat.testBit_shiftLeft, h15, Nat.testBit_two_pow_sub_one]
      by_cases hi : i < 4
      · have : ¬ (i ≥ 4) := by omega
        simp [this]
      · simp [hi]
    exact (Nat.mul_div_cancel' hd).symm
  rw [h, and_0xf0_div_16]
  simp only [frame_field, frame_bit_eq]
  norm_num
  omega

theorem WritePageHitagS_request_opcode (c : Protocol) (h : HostApi) (tx : Buf) (page : Nat) :
    frame_field (WritePageHitagS_request c h tx page).1 0 4 =
      frame_field (Buf.ofList [c.HITAGS_WRITE_PAGE % 256]) 0 4 := by
  apply frame_field_congr
  intro i hi
  unfold WritePageHitagS_request
  simp only [concatbits_snd]
  rw [frame_bit_concatbits, if_neg (by omega), if_pos (by omega),
    frame_bit_concatbits, if_neg (by omega), if_pos (by omega),
    frame_bit_concatbits, if_pos (by omega)]
  simp

/-- The 4-bit field at the top of an opcode byte `16 * op`. -/
theorem frame_field_opcode (op : Nat) (hop : op < 16) :
    frame_field (Buf.ofList [16 * op % 256]) 0 4 = op := by
  simp only [frame_field, frame_bit_eq, Buf.ofList]
  norm_num
  omega

/-- C36: page-address round trip between reader and emulator.  For all opcode bytes
`16 * op` with a 4-bit `op` (taken as `HITAGS_READ_PAGE` and `HITAGS_WRITE_PAGE`), every
page address `a` in 0..255, every CRC function and every previous content of `tx`, in
the 20-bit frame that `ReadHitagS` and `WritePageHitagS` build with `concatbits` (4
opcode bits, 8 address bits, 8 CRC bits) the address decoding of the emulator,
`16 * (rx[0] & 0x0f) + (rx[1] & 0xf0) / 16`, yields exactly `a`, and `rx[0] & 0xf0`
yields the opcode byte. -/
theorem page_address_round_trip (c : Protocol) (h : HostApi) (tx : Buf) (opr opw a : Nat)
    (hopr : opr < 16) (hopw : opw < 16) (hread : c.HITAGS_READ_PAGE = 16 * opr)
    (hwrite : c.HITAGS_WRITE_PAGE = 16 * opw) (ha : a < 256) :
    ((ReadHitagS_frame c h tx a).2 = 20 ∧
      page_address (ReadHitagS_frame c h tx a).1 = a ∧
      (ReadHitagS_frame c h tx a).1 0 &&& 0xf0 = c.HITAGS_READ_PAGE) ∧
    ((WritePageHitagS_request c h tx a).2 = 20 ∧
      page_address (WritePageHitagS_request c h tx a).1 = a ∧
      (WritePageHitagS_request c h tx a).1 0 &&& 0xf0 = c.HITAGS_WRITE_PAGE) := by
  refine ⟨⟨rfl, ?_, ?_⟩, ⟨rfl, ?_, ?_⟩⟩
  · rw [page_address_eq_frame_address]
    have := ReadHitagS_frame_address c h tx a
    unfold frame_address at this
    rw [this, Nat.mod_eq_of_lt ha]
  · rw [and_0xf0_eq_frame_field, ReadHitagS_frame_opcode, hread, frame_field_opcode opr hopr]
  · rw [page_address_eq_frame_address]
    have := WritePageHitagS_request_address c h tx a
    unfold frame_address at this
    rw [this, Nat.mod_eq_of_lt ha]
  · rw [and_0xf0_eq_frame_field, WritePageHitagS_request_opcode, hwrite,
      frame_field_opcode opw hopw]

theorem page_address_round_trip_witness :
    (0xC : Nat) < 16 ∧ (0x8 : Nat) < 16 ∧ sampleProtocol.HITAGS_READ_PAGE = 16 * 0xC ∧
    sampleProtocol.HITAGS_WRITE_PAGE = 16 * 0x8 ∧ (0x2A : Nat) < 256 ∧
    ((ReadHitagS_frame sampleProtocol sampleHost (fun _ => 0xFF) 0x2A).2 = 20 ∧
      page_address (ReadHitagS_frame sampleProtocol sampleHost (fun _ => 0xFF) 0x2A).1 = 0x2A ∧
      (ReadHitagS_frame sampleProtocol sampleHost (fun _ => 0xFF) 0x2A).1 0 &&& 0xf0 =
        sampleProtocol.HITAGS_READ_PAGE) ∧
    ((WritePageHitagS_request sampleProtocol sampleHost (fun _ => 0xFF) 0x2A).2 = 20 ∧
      page_address (WritePageHitagS_request sampleProtocol sampleHost (fun _ => 0xFF) 0x2A).1 =
        0x2A ∧
      (WritePageHitagS_request sampleProtocol sampleHost (fun _ => 0xFF) 0x2A).1 0 &&& 0xf0 =
        sampleProtocol.HITAGS_WRITE_PAGE) :=
  ⟨by decide, by decide, by decide, by decide, by decide,
    page_address_round_trip sampleProtocol sampleHost (fun _ => 0xFF) 0xC 0x8 0x2A
      (by decide) (by decide) (by decide) (by decide) (by decide)⟩

/-! ### Emulation: UID reply and page 0 -/

/-- C37 (the code at the failing input): `SimulateHitagSTag` loads the sample image,
whose page 0 holds 84 11 C2 5F and whose `LKP` bit is 0.  The standard UID request is
answered with the bytes 5F C2 11 84 and the Read-page request for page 0 that follows
with the bytes 84 11 C2 5F: the same four bytes in the opposite order. -/
theorem uid_reply_is_page_0_reversed :
    loadedGlobals.tag.LKP = false ∧
    (List.range 4).map (loadedGlobals.tag.pages 0) = [0x84, 0x11, 0xC2, 0x5F] ∧
    (SimulateHitagSTag_loop sampleProtocol sampleCipher
        [(Buf.ofList [0x30], 5), (Buf.ofList [0xC0, 0x00, 0x00], 20)]
        loadedGlobals (Buf.ofList [])).map
      (fun r => r.2.2.map (fun f => ((List.range 4).map f.1, f.2))) =
      some [([0x5F, 0xC2, 0x11, 0x84], 32), ([0x84, 0x11, 0xC2, 0x5F], 32)] := by
  decide

/-! ### Emulation: the inbound CRC is not read -/

/-- Masking with a byte mask only looks at the bits of the mask. -/
theorem and_mask_congr (x y M : Nat) (h : ∀ k, M.testBit k = true → x.testBit k = y.testBit k) :
    x &&& M = y &&& M := by
  apply Nat.eq_of_testBit_eq
  intro k
  rw [Nat.testBit_and, Nat.testBit_and]
  by_cases hm : M.testBit k = true
  · rw [h k hm]
  · simp only [Bool.not_eq_true] at hm
    rw [hm, Bool.and_false, Bool.and_false]

/-- The bits of a byte as frame bits. -/
theorem testBit_eq_of_frame_bit (rx1 rx2 : Buf) (i k : Nat) (hk : k < 8)
    (h : frame_bit rx1 (8 * i + (7 - k)) = frame_bit rx2 (8 * i + (7 - k))) :
    (rx1 i).testBit k = (rx2 i).testBit k := by
  rw [frame_bit_eq_iff] at h
  have h1 : (8 * i + (7 - k)) / 8 = i := by omega
  have h2 : 7 - (8 * i + (7 - k)) % 8 = k := by omega
  rw [h1, h2] at h
  exact h

theorem testBit_byte_mask (M k : Nat) (hM : M < 256) (h : M.testBit k = true) : k < 8 := by
  by_contra hk
  have : M < 2 ^ k := lt_of_lt_of_le hM (by
    calc 256 = 2 ^ 8 := by norm_num
      _ ≤ 2 ^ k := Nat.pow_le_pow_right (by norm_num) (by omega))
  rw [Nat.testBit_lt_two_pow this] at h
  exact absurd h (by decide)

/-- Two bytes below 256 with the same eight bits are equal. -/
theorem byte_eq_of_frame_bits (rx1 rx2 : Buf) (i : Nat) (h1 : rx1 i < 256) (h2 : rx2 i < 256)
    (h : ∀ p, 8 * i ≤ p → p < 8 * i + 8 → frame_bit rx1 p = frame_bit rx2 p) :
    rx1 i = rx2 i := by
  apply Nat.eq_of_testBit_eq
  intro k
  by_cases hk : k < 8
  · exact testBit_eq_of_frame_bit rx1 rx2 i k hk (h _ (by omega) (by omega))
  · have hp : (256 : Nat) ≤ 2 ^ k := by
      calc 256 = 2 ^ 8 := by norm_num
        _ ≤ 2 ^ k := Nat.pow_le_pow_right (by norm_num) (by omega)
    rw [Nat.testBit_lt_two_pow (lt_of_lt_of_le h1 hp),
      Nat.testBit_lt_two_pow (lt_of_lt_of_le h2 hp)]

/-- The Select case reads frame bits 0..36 only. -/
theorem handle_select_congr (c : Protocol) (g : Globals) (rx1 rx2 tx : Buf)
    (h : ∀ p, p < 37 → frame_bit rx1 p = frame_bit rx2 p) :
    handle_select c g rx1 tx = handle_select c g rx2 tx := by
  have h0 : rx1 0 &&& 0xf8 = rx2 0 &&& 0xf8 := by
    apply and_mask_congr
    intro k hk
    have hk8 := testBit_byte_mask 0xf8 k (by decide) hk
    have := testBit_eq_of_frame_bit rx1 rx2 0 k hk8 (h _ (by omega))
    exact this
  have hf : frame_field rx1 5 32 = frame_field rx2 5 32 :=
    frame_field_congr rx1 rx2 5 5 32 (fun i hi => h (5 + i) (by omega))
  unfold handle_select
  rw [h0, check_select_eq, check_select_eq, hf]

/-- The write-data case reads the bytes `rx[0..3]` only. -/
theorem handle_write_data_congr (g : Globals) (rx1 rx2 tx : Buf)
    (h : ∀ i, i < 4 → rx1 i = rx2 i) :
    handle_write_data g rx1 tx = handle_write_data g rx2 tx := by
  have hs : ∀ (t : hitagS_tag) (p : Nat), t.store_page p rx1 = t.store_page p rx2 := by
    intro t p
    unfold hitagS_tag.store_page
    have hf : (fun q j => if q = p ∧ j < 4 then rx1 j else t.pages q j) =
        (fun q j => if q = p ∧ j < 4 then rx2 j else t.pages q j) := by
      funext q j
      by_cases hq : q = p ∧ j < 4
      · rw [if_pos hq, if_pos hq, h j hq.2]
      · rw [if_neg hq, if_neg hq]
    rw [hf]
  unfold handle_write_data
  simp only [hs]

/-- The page-command case reads frame bits 0..11 only. -/
theorem handle_page_command_congr (c : Protocol) (g : Globals) (rx1 rx2 tx : Buf)
    (h : ∀ p, p < 12 → frame_bit rx1 p = frame_bit rx2 p) :
    handle_page_command c g rx1 tx = handle_page_command c g rx2 tx := by
  have h0 : ∀ M, M < 256 → rx1 0 &&& M = rx2 0 &&& M := by
    intro M hM
    apply and_mask_congr
    intro k hk
    have hk8 := testBit_byte_mask M k hM hk
    exact testBit_eq_of_frame_bit rx1 rx2 0 k hk8 (h _ (by omega))
  have h1 : rx1 1 &&& 0xf0 = rx2 1 &&& 0xf0 := by
    apply and_mask_congr
    intro k hk
    have hk8 := testBit_byte_mask 0xf0 k (by decide) hk
    have hk4 : 4 ≤ k := by
      by_contra hlt
      have : k < 4 := by omega
      interval_cases k <;> exact absurd hk (by decide)
    exact testBit_eq_of_frame_bit rx1 rx2 1 k hk8 (h _ (by omega))
  have hop : rx1 0 &&& 0xf0 = rx2 0 &&& 0xf0 := h0 0xf0 (by decide)
  have hpa : page_address rx1 = page_address rx2 := by
    unfold page_address
    rw [h0 0x0f (by decide), h1]
  have hpw : page_address_write_block rx1 = page_address_write_block rx2 := by
    unfold page_address_write_block
    rw [h0 0x0f (by decide), h1]
  unfold handle_page_command
  simp only [hop, hpa, hpw]

/-- C38: the emulator does not validate inbound CRCs.  For every emulator state, every
transmit buffer and every two inbound frames of 45, 40 or 20 bits, held in bytes, that
agree in all bits before their trailing 8 CRC bits, `hitagS_handle_reader_command` gives
the same result: the same reply (`txlen`, `tx`) and the same state after the call. -/
theorem crc_bits_not_read {σ : Type} (c : Protocol) (E : Cipher σ) (g : Globals)
    (rx1 rx2 : Buf) (rxlen : Nat) (tx : Buf)
    (hlen : rxlen = 45 ∨ rxlen = 40 ∨ rxlen = 20)
    (hb1 : ∀ i, i < nbytes rxlen → rx1 i < 256) (hb2 : ∀ i, i < nbytes rxlen → rx2 i < 256)
    (hsame : ∀ p, p < rxlen - 8 → frame_bit rx1 p = frame_bit rx2 p) :
    hitagS_handle_reader_command c E g rx1 rxlen tx =
      hitagS_handle_reader_command c E g rx2 rxlen tx := by
  rcases hlen with rfl | rfl | rfl
  · rw [handle_reader_command_45, handle_reader_command_45]
    exact handle_select_congr c g rx1 rx2 tx (fun p hp => hsame p (by omega))
  · rw [handle_reader_command_40, handle_reader_command_40]
    apply handle_write_data_congr
    intro i hi
    exact byte_eq_of_frame_bits rx1 rx2 i (hb1 i (by unfold nbytes; omega))
      (hb2 i (by unfold nbytes; omega)) (fun p _ hp => hsame p (by omega))
  · rw [handle_reader_command_20, handle_reader_command_20]
    exact handle_page_command_congr c g rx1 rx2 tx (fun p hp => hsame p (by omega))

theorem crc_bits_not_read_witness :
    ((20 : Nat) = 45 ∨ (20 : Nat) = 40 ∨ (20 : Nat) = 20) ∧
    (∀ i, i < nbytes 20 → Buf.ofList [0xC0, 0x1A, 0x50] i < 256) ∧
    (∀ i, i < nbytes 20 → Buf.ofList [0xC0, 0x15, 0xA0] i < 256) ∧
    (∀ p, p < 20 - 8 →
      frame_bit (Buf.ofList [0xC0, 0x1A, 0x50]) p = frame_bit (Buf.ofList [0xC0, 0x15, 0xA0]) p) ∧
    Buf.ofList [0xC0, 0x1A, 0x50] 1 ≠ Buf.ofList [0xC0, 0x15, 0xA0] 1 ∧
    hitagS_handle_reader_command sampleProtocol sampleCipher sampleGlobals
        (Buf.ofList [0xC0, 0x1A, 0x50]) 20 (Buf.ofList []) =
      hitagS_handle_reader_command sampleProtocol sampleCipher sampleGlobals
        (Buf.ofList [0xC0, 0x15, 0xA0]) 20 (Buf.ofList []) :=
  ⟨by decide, by decide, by decide, by decide, by decide,
    crc_bits_not_read sampleProtocol sampleCipher sampleGlobals
      (Buf.ofList [0xC0, 0x1A, 0x50]) (Buf.ofList [0xC0, 0x15, 0xA0]) 20 (Buf.ofList [])
      (by decide) (by decide) (by decide) (by decide)⟩

/-! ### Emulation: page addresses outside `tag.pages` -/

/-- Inside the arrays the two-run property is about replies that exist: for a frame
that fits the frame buffer, with a Read-page or Read-block address whose reads stay
inside the 64 pages and a pending write that addresses one of them, both runs return
and give the same `txlen` and the same first `txlen` bits of `tx`. -/
theorem key_pages_not_on_wire_in_bounds {σ : Type} (c : Protocol) (E : Cipher σ)
    (g g1 : Globals) (rx : Buf) (rxlen : Nat) (tx : Buf)
    (hLKP : g.tag.LKP = true) (hlen : rxlen ≠ 64)
    (hg : g1 = { g with tag := g1.tag }) (ht : same_but_pages_2_3 g.tag g1.tag)
    (hfit : rxlen ≤ 8 * HITAG_FRAME_LEN)
    (h20 : rxlen = 20 → (rx 0 &&& 0xf0 = c.HITAGS_READ_PAGE → page_address rx < 64) ∧
      (rx 0 &&& 0xf0 = c.HITAGS_READ_BLOCK → page_address rx + 15 < 64))
    (h40 : rxlen = 40 → g.page_to_be_written < 64) :
    ∃ r r1, hitagS_handle_reader_command c E g rx rxlen tx = some r ∧
      hitagS_handle_reader_command c E g1 rx rxlen tx = some r1 ∧
      r.2.2 = r1.2.2 ∧ ∀ k, k < r.2.2 → frame_bit r.2.1 k = frame_bit r1.2.1 k := by
  have heq := key_pages_not_on_wire c E g g1 rx rxlen tx hLKP hlen hg ht
  have hs := handle_reader_command_returns c E g rx rxlen tx hfit h20 h40
  have hs1 := handle_reader_command_returns c E g1 rx rxlen tx hfit h20
    (fun h => by rw [hg]; exact h40 h)
  obtain ⟨r, hr⟩ := Option.isSome_iff_exists.mp hs
  obtain ⟨r1, hr1⟩ := Option.isSome_iff_exists.mp hs1
  rw [hr, hr1] at heq
  simp only [wire_reply, Option.map_some', Option.some.injEq, Prod.mk.injEq] at heq
  obtain ⟨hl, hb⟩ := heq
  refine ⟨r, r1, hr, hr1, hl, ?_⟩
  intro k hk
  rw [← hl] at hb
  exact List.map_inj_left.mp hb k (List.mem_range.mpr hk)

/-- C18 (the code at the failing input): on the sample tag with `LKP` set the Read-page
frame `C4 00 00` carries the address 64, and the read `tag.pages[64][0]` (line 624)
leaves the 64 pages of `tag.pages`; the frame `C3 F0 00` for address 63 is answered from
page 63.  The Read-block frame `D3 40 00` carries the address 52, a multiple of 4, and
its reads up to `tag.pages[52 + 3 + 12][3]` (lines 658-661) leave the array too. -/
theorem read_page_64_reads_behind_tag_pages :
    lockedGlobals.tag.LKP = true ∧ HITAGS_MAX_PAGES = 64 ∧
    page_address (Buf.ofList [0xC4, 0x00, 0x00]) = 64 ∧
    lockedGlobals.tag.page 64 0 = none ∧
    (hitagS_handle_reader_command sampleProtocol sampleCipher lockedGlobals
      (Buf.ofList [0xC4, 0x00, 0x00]) 20 (Buf.ofList [])).isNone = true ∧
    page_address (Buf.ofList [0xC3, 0xF0, 0x00]) = 63 ∧
    wire_reply (hitagS_handle_reader_command sampleProtocol sampleCipher lockedGlobals
      (Buf.ofList [0xC3, 0xF0, 0x00]) 20 (Buf.ofList [])) =
      some (32, (List.range 32).map (fun _ => 0)) ∧
    page_address (Buf.ofList [0xD3, 0x40, 0x00]) = 52 ∧
    lockedGlobals.tag.page (52 + 3 + 3 * 4) 3 = none ∧
    (hitagS_handle_reader_command sampleProtocol sampleCipher lockedGlobals
      (Buf.ofList [0xD3, 0x40, 0x00]) 20 (Buf.ofList [])).isNone = true := by
  decide

end HitagS
